import Mathlib

/-!
# Crocodile scheduler: run-state surface and streaming task invoker

A shallow embedding of `core/schedule/schedule2.go` (type `task2`) together with
the parts of `core/tasktype` and `core/utils/resp` it uses.

Modelling conventions.

* A Go `string` or `[]byte` is a list of bytes (`Bytes`); a byte is a natural
  number below 256.  String literals of the source are written `goStr "..."`,
  their UTF-8 encoding.
* The Redis server is a finite map from keys to typed values together with the
  history of the mutating commands it has executed.  Commands fail only in the
  ways the Redis protocol prescribes (missing key, wrong kind of value);
  transport failures are not modelled.
* Collaborators that are not part of the package (task catalogue, RPC
  connection, worker stream, clock) are inputs of the functions that call them.
-/

namespace Crocodile

deriving instance DecidableEq for Except

/-! ## Byte strings -/

/-- Byte string: the content of a Go `string` or `[]byte`. -/
abbrev Bytes := List Nat

/-- UTF-8 encoding of one character. -/
def utf8Char (c : Char) : Bytes :=
  let n := c.toNat
  if n < 128 then [n]
  else if n < 2048 then [192 + n / 64, 128 + n % 64]
  else if n < 65536 then [224 + n / 4096, 128 + n / 64 % 64, 128 + n % 64]
  else [240 + n / 262144, 128 + n / 4096 % 64, 128 + n / 64 % 64, 128 + n % 64]

/-- Bytes of a string literal of the source. -/
def goStr (s : String) : Bytes := s.toList.flatMap utf8Char

/-- Go `strings.Contains` on byte strings: `pat` occurs in `s` as a contiguous block. -/
def bytesContains (s pat : Bytes) : Bool := s.tails.any (fun t => pat.isPrefixOf t)

/-- Go `strings.Join(parts, "")`. -/
def joinBytes (parts : List Bytes) : Bytes := parts.flatMap id

/-! ## `strconv` -/

/-- The two failure kinds of `strconv.Atoi` (`ErrSyntax`, `ErrRange`). -/
inductive NumErr
  | invalid
  | outOfRange
  deriving DecidableEq, Repr

/-- ASCII decimal digit. -/
def isDigit (b : Nat) : Bool := decide (48 ≤ b) && decide (b ≤ 57)

/-- Value of a run of decimal digits, most significant first. -/
def digitsVal (ds : Bytes) : Nat := ds.foldl (fun acc b => acc * 10 + (b - 48)) 0

/-- Sign and magnitude part of the argument of `strconv.Atoi`:
one leading `-` or `+` is taken off. -/
def splitSign : Bytes → Bool × Bytes
  | 45 :: rest => (true, rest)
  | 43 :: rest => (false, rest)
  | s => (false, s)

/-- Go `strconv.Atoi` for a 64-bit `int`: an optional sign followed by one or more
decimal digits, whose value fits in 64 bits. -/
def Atoi (s : Bytes) : Except NumErr Int :=
  let sd := splitSign s
  if sd.2 = [] then .error .invalid
  else if sd.2.all isDigit then
    let v : Int := if sd.1 then -(digitsVal sd.2 : Int) else (digitsVal sd.2 : Int)
    if -9223372036854775808 ≤ v ∧ v ≤ 9223372036854775807 then .ok v
    else .error .outOfRange
  else .error .invalid

/-- Decimal digits of a natural number, most significant first, with `fuel`
bounding the number of digits. -/
def natDigits : Nat → Nat → Bytes
  | 0, _ => []
  | fuel + 1, n => if n < 10 then [48 + n] else natDigits fuel (n / 10) ++ [48 + n % 10]

/-- Go `%d` / `strconv.Itoa`: the decimal representation of an integer. -/
def Itoa (i : Int) : Bytes :=
  if i < 0 then 45 :: natDigits (i.natAbs + 1) i.natAbs else natDigits (i.natAbs + 1) i.natAbs

/-! ## `strings.TrimSpace` -/

/-- Table `asciiSpace` of package `strings`: tab, line feed, vertical tab, form feed,
carriage return, space. -/
def asciiSpace (b : Nat) : Bool :=
  b == 9 || b == 10 || b == 11 || b == 12 || b == 13 || b == 32

/-- Go `unicode.IsSpace`. -/
def unicodeIsSpace (r : Nat) : Bool :=
  if r ≤ 255 then
    r == 9 || r == 10 || r == 11 || r == 12 || r == 13 || r == 32 || r == 133 || r == 160
  else
    r == 5760 || (decide (8192 ≤ r) && decide (r ≤ 8202)) || r == 8232 || r == 8233 ||
      r == 8239 || r == 8287 || r == 12288

/-- The replacement rune `utf8.RuneError`. -/
def RuneError : Nat := 65533

/-- Continuation byte of a UTF-8 sequence. -/
def isCont (b : Nat) : Bool := decide (128 ≤ b) && decide (b ≤ 191)

/-- Go `utf8.DecodeRuneInString`: the first rune of `s` and its width in bytes;
an invalid or truncated encoding gives `(RuneError, 1)`, the empty string
`(RuneError, 0)`. -/
def decodeRune : Bytes → Nat × Nat
  | [] => (RuneError, 0)
  | s0 :: rest =>
    if s0 < 128 then (s0, 1)
    else if s0 < 194 then (RuneError, 1)
    else if s0 < 224 then
      match rest with
      | s1 :: _ => if isCont s1 then ((s0 % 32) * 64 + s1 % 64, 2) else (RuneError, 1)
      | _ => (RuneError, 1)
    else if s0 < 240 then
      match rest with
      | s1 :: s2 :: _ =>
        let lo := if s0 = 224 then 160 else 128
        let hi := if s0 = 237 then 159 else 191
        if lo ≤ s1 ∧ s1 ≤ hi ∧ isCont s2 = true then
          ((s0 % 16) * 4096 + (s1 % 64) * 64 + s2 % 64, 3)
        else (RuneError, 1)
      | _ => (RuneError, 1)
    else if s0 < 245 then
      match rest with
      | s1 :: s2 :: s3 :: _ =>
        let lo := if s0 = 240 then 144 else 128
        let hi := if s0 = 244 then 143 else 191
        if lo ≤ s1 ∧ s1 ≤ hi ∧ isCont s2 = true ∧ isCont s3 = true then
          ((s0 % 8) * 262144 + (s1 % 64) * 4096 + (s2 % 64) * 64 + s3 % 64, 4)
        else (RuneError, 1)
      | _ => (RuneError, 1)
    else (RuneError, 1)

/-- Go `strings.TrimLeftFunc(s, unicode.IsSpace)`: drop leading white-space runes.
The first argument bounds the number of runes looked at. -/
def trimLeftSpace : Nat → Bytes → Bytes
  | 0, s => s
  | fuel + 1, s =>
    match s with
    | [] => []
    | _ :: _ =>
      let d := decodeRune s
      if unicodeIsSpace d.1 then trimLeftSpace fuel (s.drop d.2) else s

/-- Go `utf8.RuneStart`: the byte is not a continuation byte. -/
def runeStart (b : Nat) : Bool := !(isCont b)

/-- Go `utf8.DecodeLastRuneInString`: the last rune of `s` and its width.  From the
last byte the scan walks back over at most three further bytes to one that
starts a rune and decodes from there; a decoding that does not end exactly at
the end of `s` gives `(RuneError, 1)`. -/
def decodeLastRune (s : Bytes) : Nat × Nat :=
  match s.getLast? with
  | none => (RuneError, 0)
  | some b =>
    if b < 128 then (b, 1)
    else
      let fin := s.length
      let start :=
        if 2 ≤ fin ∧ runeStart (s.getD (fin - 2) 0) = true then fin - 2
        else if 3 ≤ fin ∧ runeStart (s.getD (fin - 3) 0) = true then fin - 3
        else if 4 ≤ fin ∧ runeStart (s.getD (fin - 4) 0) = true then fin - 4
        else if 5 ≤ fin then fin - 5 else 0
      let d := decodeRune (s.drop start)
      if start + d.2 ≠ fin then (RuneError, 1) else d

/-- Go `lastIndexFunc(s, unicode.IsSpace, false)` on the prefix `p` of the string:
the index at which the last rune that is not white space starts, `none` for
Go's `-1`.  The first argument bounds the number of runes looked at. -/
def lastIndexNonSpace : Nat → Bytes → Option Nat
  | 0, _ => none
  | fuel + 1, p =>
    match p with
    | [] => none
    | _ :: _ =>
      let d := decodeLastRune p
      let i := p.length - d.2
      if unicodeIsSpace d.1 then lastIndexNonSpace fuel (p.take i) else some i

/-- Go `strings.TrimRightFunc(s, unicode.IsSpace)`. -/
def trimRightSpace (s : Bytes) : Bytes :=
  match lastIndexNonSpace s.length s with
  | none => []
  | some i =>
    if 128 ≤ s.getD i 0 then s.take (i + (decodeRune (s.drop i)).2) else s.take (i + 1)

/-- Go `strings.TrimSpace`: the string without its leading and trailing white space
(`TrimFunc(s, unicode.IsSpace)`; the ASCII fast path of the library computes
the same slice). -/
def TrimSpace (s : Bytes) : Bytes := trimRightSpace (trimLeftSpace s.length s)

/-! ## Types of package `define` -/

/-- Modelled from the spec: `define.TaskRespType` is declared outside the given
sources; the phase of a task within a run, `Parent = 1`, `Master = 2`,
`Child = 3`, an integer printed with `%d` in key names; the conversion
`define.TaskRespType(i)` of a parsed integer keeps its value, and `0` is the
zero value. -/
abbrev TaskRespType := Int

/-- The phase `define.ParentTask`. -/
def ParentTask : TaskRespType := 1
/-- The phase `define.MasterTask`. -/
def MasterTask : TaskRespType := 2
/-- The phase `define.ChildTask`. -/
def ChildTask : TaskRespType := 3

/-- Modelled from the spec: `define.TaskStatus` is declared outside the given
sources; the status scalar of a PhaseKey, `Wait | Run | Finish | Fail | Cancel`. -/
inductive TaskStatus
  | TsWait
  | TsRun
  | TsFinish
  | TsFail
  | TsCancel
  deriving DecidableEq, Repr

open TaskStatus

/-- The record `define.TaskResp` stored under `...:resp`. -/
structure TaskResp where
  TaskID : Bytes
  Task : Bytes
  LogData : Bytes
  Code : Int
  TaskType : TaskRespType
  RunHost : Bytes
  Status : Bytes
  deriving DecidableEq, Repr

/-- The record `define.RunTask` stored under `task:running:<id>`; `Trigger` is the
integer value of `define.Trigger`. -/
structure RunTask where
  ID : Bytes
  Name : Bytes
  Cronexpr : Bytes
  StartTime : Int
  Trigger : Int
  deriving DecidableEq, Repr

/-! ## Errors -/

/-- Go `error` values that occur in the package.  `redisNil` is `redis.Nil`,
`wrongType` the reply of a command applied to a key holding another kind of
value, `notInt` and `notRecord` the failure to parse a stored string as an
integer or as a JSON record, `numError` the error of `strconv.Atoi`, and
`text m` any error whose `Error()` is `m` (`errors.New`, `fmt.Errorf`, errors
of collaborators). -/
inductive GoError
  | redisNil
  | wrongType
  | notInt
  | notRecord
  | numError (input : Bytes) (e : NumErr)
  | text (m : Bytes)
  deriving DecidableEq, Repr

/-- The method `Error()`.  The texts of the library errors are indicative: no
property below depends on them; the quoted input of a `strconv` error is
rendered between plain double quotes (byte 34). -/
def GoError.Error : GoError → Bytes
  | .redisNil => goStr "redis: nil"
  | .wrongType => goStr "WRONGTYPE Operation against a key holding the wrong kind of value"
  | .notInt => goStr "strconv.Atoi: invalid syntax"
  | .notRecord => goStr "invalid character looking for beginning of value"
  | .numError input .invalid =>
    goStr "strconv.Atoi: parsing " ++ [34] ++ input ++ [34] ++ goStr ": invalid syntax"
  | .numError input .outOfRange =>
    goStr "strconv.Atoi: parsing " ++ [34] ++ input ++ [34] ++ goStr ": value out of range"
  | .text m => m

/-! ## The Redis server -/

/-- Value held by a key.  `raw` is a plain string (a lock nonce), `status`, `resp`
and `runtask` are the strings written for a status code, a JSON result
record and a JSON inventory record; `list` and `set` are the container
kinds. -/
inductive Val
  | raw (b : Bytes)
  | status (s : TaskStatus)
  | resp (r : TaskResp)
  | runtask (r : RunTask)
  | list (l : List Bytes)
  | set (l : List Bytes)
  deriving DecidableEq, Repr

/-- Mutating command executed by the server. -/
inductive Op
  | del (k : Bytes)
  | set (k : Bytes) (v : Val)
  | rpush (k : Bytes) (v : Bytes)
  | sadd (k : Bytes) (m : Bytes)
  | srem (k : Bytes) (m : Bytes)
  deriving DecidableEq, Repr

/-- State of the server: the content of every key, and the mutating commands
executed so far, oldest first. -/
structure Redis where
  data : Bytes → Option Val
  hist : List Op

/-- The command `DEL key`. -/
def Redis.Del (r : Redis) (k : Bytes) : Redis :=
  { data := fun x => if x = k then none else r.data x, hist := r.hist ++ [Op.del k] }

/-- The command `SET key value` (no expiry): replaces whatever the key held. -/
def Redis.Set (r : Redis) (k : Bytes) (v : Val) : Redis :=
  { data := fun x => if x = k then some v else r.data x, hist := r.hist ++ [Op.set k v] }

/-- The command `RPUSH key value`: appends to the list at `key`, creating it when
the key is absent; fails on a key holding another kind of value. -/
def Redis.RPush (r : Redis) (k : Bytes) (v : Bytes) : Except GoError Redis :=
  match r.data k with
  | none =>
    .ok { data := fun x => if x = k then some (Val.list [v]) else r.data x,
          hist := r.hist ++ [Op.rpush k v] }
  | some (Val.list l) =>
    .ok { data := fun x => if x = k then some (Val.list (l ++ [v])) else r.data x,
          hist := r.hist ++ [Op.rpush k v] }
  | some _ => .error GoError.wrongType

/-- The list an index or range command works on: the empty list for an absent key. -/
def Redis.listAt (r : Redis) (k : Bytes) : Except GoError (List Bytes) :=
  match r.data k with
  | none => .ok []
  | some (Val.list l) => .ok l
  | some _ => .error GoError.wrongType

/-- Position in a list of length `n` denoted by a signed index: negative indices
count from the end. -/
def normIndex (n : Nat) (i : Int) : Int := if i < 0 then (n : Int) + i else i

/-- The command `LINDEX key index`; `redis.Nil` when there is no such element. -/
def Redis.LIndex (r : Redis) (k : Bytes) (i : Int) : Except GoError Bytes :=
  match r.listAt k with
  | .error e => .error e
  | .ok l =>
    let j := normIndex l.length i
    if j < 0 then .error GoError.redisNil
    else match l.get? j.toNat with
      | some b => .ok b
      | none => .error GoError.redisNil

/-- The command `LRANGE key start stop`, both ends inclusive, out-of-range ends
clamped. -/
def Redis.LRange (r : Redis) (k : Bytes) (start stop : Int) : Except GoError (List Bytes) :=
  match r.listAt k with
  | .error e => .error e
  | .ok l =>
    let a := max (normIndex l.length start) 0
    let b := min (normIndex l.length stop) ((l.length : Int) - 1)
    if b < a then .ok [] else .ok ((l.drop a.toNat).take (b - a + 1).toNat)

/-- The call `LRange(key, start, stop).ScanSlice(&res)` of the client library:
`ScanSlice` decodes the value of the command without looking at its error, so
on a key that holds another kind of value `res` stays empty and the error
returned is nil. -/
def Redis.LRangeScanSlice (r : Redis) (k : Bytes) (start stop : Int) : List Bytes :=
  match r.LRange k start stop with
  | .error _ => []
  | .ok res => res

/-- The command `EXISTS key`: whether the key holds a value of any kind. -/
def Redis.Exists (r : Redis) (k : Bytes) : Bool := (r.data k).isSome

/-- The command `SET key value NX` with a time to live (`SetNX`): sets the key only
if it is absent and reports whether it did.  The expiry of keys is not part
of the store state. -/
def Redis.SetNX (r : Redis) (k : Bytes) (v : Bytes) : Bool × Redis :=
  match r.data k with
  | none => (true, r.Set k (Val.raw v))
  | some _ => (false, r)

/-- The command `SADD key member`; fails on a key holding another kind of value. -/
def Redis.SAdd (r : Redis) (k : Bytes) (m : Bytes) : Except GoError Redis :=
  match r.data k with
  | none =>
    .ok { data := fun x => if x = k then some (Val.set [m]) else r.data x,
          hist := r.hist ++ [Op.sadd k m] }
  | some (Val.set l) =>
    .ok { data := fun x => if x = k then some (Val.set (if m ∈ l then l else l ++ [m]))
                           else r.data x,
          hist := r.hist ++ [Op.sadd k m] }
  | some _ => .error GoError.wrongType

/-- The command `SREM key member`: a set left without members is removed; fails on a
key holding another kind of value. -/
def Redis.SRem (r : Redis) (k : Bytes) (m : Bytes) : Except GoError Redis :=
  match r.data k with
  | none => .ok { data := r.data, hist := r.hist ++ [Op.srem k m] }
  | some (Val.set l) =>
    .ok { data := fun x =>
            if x = k then (if l.erase m = [] then none else some (Val.set (l.erase m)))
            else r.data x,
          hist := r.hist ++ [Op.srem k m] }
  | some _ => .error GoError.wrongType

/-! ## `task2`: keys and typed access -/

/-- The route chooser `Next` of a task, built by `GetRoutePolicy` outside the given
sources: identified by a number. -/
abbrev Next := Nat

/-- The fields of `task2` used by the run-state surface and the registry.
`onceDone` records that the `sync.Once` of the task has fired; the `err...`
fields are the first-failure record. -/
structure Task2 where
  id : Bytes
  name : Bytes
  cronexpr : Bytes
  next : Next
  canrun : Bool
  onceDone : Bool
  errTaskID : Bytes
  errTask : Bytes
  errCode : Int
  errMsg : Bytes
  errTasktype : TaskRespType
  deriving DecidableEq, Repr

/-- The constant `taskstatus`. -/
def taskstatus : Bytes := goStr "status"
/-- The constant `taskresp`. -/
def taskresp : Bytes := goStr "resp"
/-- The constant `taskrealtasklog`. -/
def taskrealtasklog : Bytes := goStr "reallog"

/-- The key `"task:" + t.id` of the membership list. -/
def taskinfosKey (t : Task2) : Bytes := goStr "task:" ++ t.id

/-- The member `fmt.Sprintf("task:%s:%d:%s", t.id, taskruntype, realid)` of the
membership list. -/
def phaseKey (t : Task2) (taskruntype : TaskRespType) (realid : Bytes) : Bytes :=
  goStr "task:" ++ t.id ++ goStr ":" ++ Itoa (taskruntype : Int) ++ goStr ":" ++ realid

/-- The key `fmt.Sprintf("task:%s:%d:%s:%s", t.id, taskruntype, realid, setdata)`. -/
def dataKey (t : Task2) (taskruntype : TaskRespType) (realid setdata : Bytes) : Bytes :=
  goStr "task:" ++ t.id ++ goStr ":" ++ Itoa (taskruntype : Int) ++ goStr ":" ++ realid ++
    goStr ":" ++ setdata

/-- Dynamically typed value passed to `setdata` and returned by `getdata`
(`interface{}` in the source): a status, a result record, or log bytes. -/
inductive Data
  | status (s : TaskStatus)
  | resp (r : TaskResp)
  | log (b : Bytes)
  deriving DecidableEq, Repr

/-- The command `GET key` followed by `.Int()`, as `getdata` reads a status. -/
def Redis.GetStatus (r : Redis) (k : Bytes) : Except GoError TaskStatus :=
  match r.data k with
  | none => .error GoError.redisNil
  | some (Val.status s) => .ok s
  | some (Val.list _) => .error GoError.wrongType
  | some (Val.set _) => .error GoError.wrongType
  | some _ => .error GoError.notInt

/-- The command `GET key` followed by `json.Unmarshal` into a `define.TaskResp`;
the error of `GET` is overwritten by the one of `Unmarshal`. -/
def Redis.GetResp (r : Redis) (k : Bytes) : Except GoError TaskResp :=
  match r.data k with
  | some (Val.resp x) => .ok x
  | _ => .error GoError.notRecord

/-- Method `getdata`.  The log is read with `LRange(...).ScanSlice(&res)`, whose
error is nil also when the command failed: on a key that holds another kind
of value the log read is the empty string. -/
def getdata (t : Task2) (r : Redis) (taskruntype : TaskRespType) (realid setdata : Bytes) :
    Except GoError Data :=
  let keyname := dataKey t taskruntype realid setdata
  if setdata = taskstatus then
    match r.GetStatus keyname with
    | .error e => .error e
    | .ok s => .ok (Data.status s)
  else if setdata = taskresp then
    match r.GetResp keyname with
    | .error e => .error e
    | .ok x => .ok (Data.resp x)
  else if setdata = taskrealtasklog then
    .ok (Data.log (joinBytes (r.LRangeScanSlice keyname 0 (-1))))
  else .error (GoError.text (goStr "unknow setdata"))

/-- Method `setdata`: the store after the write, or the error returned.  The
callers pass the kind of value that `setdata` names; another kind is the
failed type assertion or marshalling of the source. -/
def setdata (t : Task2) (r : Redis) (taskruntype : TaskRespType) (realid : Bytes)
    (value : Data) (setdata : Bytes) : Except GoError Redis :=
  let keyname := dataKey t taskruntype realid setdata
  if setdata = taskstatus then
    match value with
    | Data.status s => .ok (r.Set keyname (Val.status s))
    | _ => .error (GoError.text (goStr "interface conversion"))
  else if setdata = taskresp then
    match value with
    | Data.resp x => .ok (r.Set keyname (Val.resp x))
    | _ => .error (GoError.text (goStr "json.Marshal failed"))
  else if setdata = taskrealtasklog then
    match value with
    | Data.log b =>
      match r.RPush keyname b with
      | .error e => .error (GoError.text (goStr "t.redis.RPush failed: " ++ e.Error))
      | .ok r1 => .ok r1
    | _ => .error (GoError.text (goStr "t.redis.RPush failed"))
  else .error (GoError.text (goStr "unknow setdata " ++ setdata))

/-- A call of `setdata` whose returned error is dropped or only logged. -/
def setdataQuiet (t : Task2) (r : Redis) (taskruntype : TaskRespType) (realid : Bytes)
    (value : Data) (name : Bytes) : Redis :=
  match setdata t r taskruntype realid value name with
  | .error _ => r
  | .ok r1 => r1

/-- Method `writelog`: append a frame to the log list; a failure is only logged. -/
def writelog (t : Task2) (r : Redis) (taskruntype : TaskRespType) (realid value : Bytes) :
    Redis :=
  setdataQuiet t r taskruntype realid (Data.log value) taskrealtasklog

/-- Method `writelogt`: append a time-stamped line to the log list.  `line` is the
rendered value, `time.Now()` formatted, followed by the formatted message
and a line feed. -/
def writelogt (t : Task2) (r : Redis) (taskruntype : TaskRespType) (realid line : Bytes) :
    Redis :=
  setdataQuiet t r taskruntype realid (Data.log line) taskrealtasklog

/-- The constant `tasktype.DefaultExitCode`. -/
def DefaultExitCode : Int := -1

/-- Method `getreturncode`: the exit code read from the last five bytes of the last
element of the log list, and the error returned with it. -/
def getreturncode (t : Task2) (r : Redis) (taskruntype : TaskRespType) (realid : Bytes) :
    Int × Option GoError :=
  let keyname := dataKey t taskruntype realid taskrealtasklog
  match r.LIndex keyname (-1) with
  | .error e => (DefaultExitCode, some e)
  | .ok res =>
    if 5 ≤ res.length then
      let codebyte := res.drop (res.length - 5)
      match Atoi (TrimSpace codebyte) with
      | .error e => (DefaultExitCode, some (GoError.numError (TrimSpace codebyte) e))
      | .ok code => (code, none)
    else (DefaultExitCode, none)

/-! ## Package `resp`: message table -/

/-- The code `resp.ErrRPCUnavailable`. -/
def ErrRPCUnavailable : Int := 10603

/-- The table `msgcode` of package `resp`, keyed by the values of the constants of
`code.go`. -/
def msgcode : List (Int × Bytes) :=
  [ (0, goStr "ok"),
    (10401, goStr "非法请求"),
    (10400, goStr "请求参数错误"),
    (10402, goStr "请求参数错误"),
    (10403, goStr "禁止登陆"),
    (10414, goStr "邮箱已经存在"),
    (10413, goStr "用户名已存在"),
    (10415, goStr "用户不存在"),
    (10416, goStr "任务名已存在"),
    (10417, goStr "任务不存在"),
    (10418, goStr "主机组已存在"),
    (10419, goStr "主机组不存在"),
    (10429, goStr "worker不能删除，请先将worker下线"),
    (10500, goStr "服务端错误"),
    (10600, goStr "调用超时"),
    (10601, goStr "取消调用"),
    (10602, goStr "密钥认证失败"),
    (10603, goStr "调用对端不可用"),
    (10604, goStr "调用未知错误"),
    (10605, goStr "未发现worker"),
    (10606, goStr "未找到存活的worker") ]

/-- Function `resp.GetMsg`. -/
def GetMsg (code : Int) : Bytes :=
  match msgcode.lookup code with
  | some msg => msg
  | none => goStr "unknown"

/-- Function `resp.GetMsgErr`. -/
def GetMsgErr (code : Int) : GoError := GoError.text (GetMsg code)

/-! ## `runTask` -/

/-- The fields of `define.GetTask` read by the scheduler. -/
structure GetTask where
  ID : Bytes
  Name : Bytes
  HostGroup : Bytes
  HostGroupID : Bytes
  Timeout : Int
  ExpectCode : Int
  ExpectContent : Bytes
  ParentTaskIds : List Bytes
  ChildTaskIds : List Bytes
  ParentRunParallel : Bool
  ChildRunParallel : Bool
  deriving DecidableEq, Repr

/-- Modelled from the spec: the `String()` methods of `define.TaskRespType`,
`define.TaskStatus` and `define.Trigger` are declared outside the given sources;
they are parameters of the functions that print a phase, a status or a
trigger. -/
structure Names where
  typeString : TaskRespType → Bytes
  statusString : TaskStatus → Bytes
  triggerString : Int → Bytes

/-- How the worker stream of one invocation ends: `io.EOF`, or another error of
`Recv`.  `DealRPCErr` is defined outside the given sources; `mapped` is the
error it returns for the error of `Recv`. -/
inductive RecvEnd
  | eof
  | failed (mapped : GoError)
  deriving DecidableEq, Repr

/-- The places where `runTask` writes a time-stamped log line. -/
inductive LogSite
  | dbFailed
  | notCached
  | noConn
  | start
  | marshalFailed
  | streamFailed
  | output
  | workerDown
  | runFail
  | canceled
  deriving DecidableEq, Repr

/-- What the collaborators answer during one invocation of `runTask`:
`taskdata` is the result of `model.GetTaskByID`, `realtask` of `Cron2.gettask`,
`conn` the target of the connection returned by `tryGetRCCConn`, `tdata` the
result of `json.Marshal`, `stream` the error of `taskclient.RunTask`, `frames`
the frames received before the stream ends with `ending`, `line` the rendered
line of each `writelogt`, and `ctxDone` whether `ctx.Done()` is closed when the
result is composed. -/
structure Attempt where
  taskdata : Except GoError GetTask
  realtask : Option Task2
  conn : Except GoError Bytes
  tdata : Except GoError Bytes
  stream : Option GoError
  frames : List Bytes
  ending : RecvEnd
  line : LogSite → Bytes
  ctxDone : Bool

/-- How an invocation of `runTask` ends: it returns an error value, it panics on
a nil pointer, or it retries beyond the recorded answers. -/
inductive Outcome
  | returned (err : Option GoError)
  | panicked
  | pending
  deriving DecidableEq, Repr

/-- The local variables of `runTask` at the label `Check`. -/
structure CheckIn where
  err : Option GoError
  taskdata : Option GetTask
  realtask : Option Task2
  conn : Option Bytes
  output : Bytes
  taskrespcode : Int
  cancelLine : Bytes
  ctxDone : Bool

/-- The closure `judgeres` of `runTask`, for a descriptor that was fetched. -/
def judgeres (nm : Names) (taskruntype : TaskRespType) (id : Bytes) (taskdata : GetTask)
    (err : Option GoError) (taskrespcode : Int) (output : Bytes) : Option GoError :=
  match err with
  | some e => some e
  | none =>
    if taskdata.ExpectCode ≠ taskrespcode then
      some (GoError.text (nm.typeString taskruntype ++ goStr " task " ++ id ++ goStr "[" ++
        taskdata.Name ++ goStr "] resp code is " ++ Itoa taskrespcode ++
        goStr ",want resp code " ++ Itoa taskdata.ExpectCode))
    else if taskdata.ExpectContent ≠ [] ∧ bytesContains output taskdata.ExpectContent = false then
      some (GoError.text (nm.typeString taskruntype ++ goStr " task " ++ id ++ goStr "[" ++
        taskdata.Name ++ goStr "] resp context not contains expect content: " ++
        taskdata.ExpectContent))
    else none

/-- The call `judgeres()` at the values of the local variables: with a nil
descriptor the closure returns a non-nil `err` and dereferences nil otherwise
(`none`). -/
def judgeAt (nm : Names) (taskruntype : TaskRespType) (id : Bytes) (c : CheckIn) :
    Option (Option GoError) :=
  match c.taskdata with
  | some td => some (judgeres nm taskruntype id td c.err c.taskrespcode c.output)
  | none =>
    match c.err with
    | some e => some (some e)
    | none => none

/-- The guard of the cancel branch of `runTask`: a non-nil error, a first failure
already recorded, and a cancelled context. -/
def takesCancel (t : Task2) (c : CheckIn) : Bool :=
  c.err.isSome && decide (t.errTaskID ≠ []) && c.ctxDone

/-- The part of `runTask` from the label `Check` on: store the result record, then,
holding the lock of the task, either mark the task cancelled, or judge the
result, record the first failure and set the final status. -/
def checkBlock (nm : Names) (t : Task2) (r : Redis) (taskruntype : TaskRespType) (id : Bytes)
    (c : CheckIn) : Redis × Task2 × Outcome :=
  match c.realtask with
  | none => (r, t, Outcome.panicked)
  | some realtask =>
    let tmptaskresp : TaskResp :=
      { TaskID := id, Task := realtask.name, LogData := [], Code := c.taskrespcode,
        TaskType := taskruntype, RunHost := c.conn.getD [], Status := [] }
    let r1 := setdataQuiet t r taskruntype id (Data.resp tmptaskresp) taskresp
    if takesCancel t c then
      let r2 := writelogt t r1 taskruntype id c.cancelLine
      let r3 := setdataQuiet t r2 taskruntype id (Data.status TsCancel) taskstatus
      (r3, t, Outcome.returned none)
    else
      match judgeAt nm taskruntype id c with
      | none => (r1, t, Outcome.panicked)
      | some (some alarmerr) =>
        if t.errTaskID = [] then
          let t1 : Task2 :=
            { t with errTaskID := id, errTask := realtask.name, errCode := c.taskrespcode,
                     errMsg := alarmerr.Error, errTasktype := taskruntype }
          let r2 := setdataQuiet t1 r1 taskruntype id (Data.status TsFail) taskstatus
          (r2, t1, Outcome.returned (some alarmerr))
        else (r1, t, Outcome.returned (some alarmerr))
      | some none =>
        let r2 := setdataQuiet t r1 taskruntype id (Data.status TsFinish) taskstatus
        (r2, t, Outcome.returned none)

/-- The receive loop of `runTask` over the frames that arrive: each frame is
appended to the log list and to the buffer `output`. -/
def recvFrames (t : Task2) (taskruntype : TaskRespType) (id : Bytes) :
    List Bytes → Redis → Bytes → Redis × Bytes
  | [], r, output => (r, output)
  | f :: fs, r, output =>
    recvFrames t taskruntype id fs (writelog t r taskruntype id f) (output ++ f)

/-- Method `runTask`.  The list holds the answers of the collaborators for this
invocation and for each retry after a worker went down; `t` carries the
first-failure record as it is when the lock is taken. -/
def runTask (nm : Names) (taskruntype : TaskRespType) (id : Bytes) :
    List Attempt → Task2 → Redis → Redis × Task2 × Outcome
  | [], t, r => (r, t, Outcome.pending)
  | a :: rest, t, r =>
    let r1 := setdataQuiet t r taskruntype id (Data.status TsRun) taskstatus
    let c0 : CheckIn :=
      { err := none, taskdata := none, realtask := none, conn := none, output := [],
        taskrespcode := DefaultExitCode, cancelLine := a.line LogSite.canceled,
        ctxDone := a.ctxDone }
    match a.taskdata with
    | .error e =>
      checkBlock nm t (writelogt t r1 taskruntype id (a.line LogSite.dbFailed)) taskruntype id
        { c0 with err := some e }
    | .ok taskdata =>
      let c1 : CheckIn := { c0 with taskdata := some taskdata }
      match a.realtask with
      | none =>
        checkBlock nm t (writelogt t r1 taskruntype id (a.line LogSite.notCached)) taskruntype id c1
      | some realtask =>
        let c2 : CheckIn := { c1 with realtask := some realtask }
        match a.conn with
        | .error e =>
          checkBlock nm t (writelogt t r1 taskruntype id (a.line LogSite.noConn)) taskruntype id
            { c2 with err := some e }
        | .ok target =>
          let c3 : CheckIn := { c2 with conn := some target }
          let r2 := writelogt t r1 taskruntype id (a.line LogSite.start)
          match a.tdata with
          | .error e =>
            checkBlock nm t (writelogt t r2 taskruntype id (a.line LogSite.marshalFailed))
              taskruntype id { c3 with err := some e }
          | .ok _ =>
            match a.stream with
            | some e =>
              checkBlock nm t (writelogt t r2 taskruntype id (a.line LogSite.streamFailed))
                taskruntype id { c3 with err := some e }
            | none =>
              let r3 := writelogt t r2 taskruntype id (a.line LogSite.output)
              let got := recvFrames t taskruntype id a.frames r3 []
              match a.ending with
              | RecvEnd.eof =>
                let rc := getreturncode t got.1 taskruntype id
                checkBlock nm t got.1 taskruntype id
                  { c3 with err := rc.2, taskrespcode := rc.1, output := got.2 }
              | RecvEnd.failed e =>
                if e.Error = (GetMsgErr ErrRPCUnavailable).Error then
                  runTask nm taskruntype id rest t
                    (writelogt t got.1 taskruntype id (a.line LogSite.workerDown))
                else
                  checkBlock nm t (writelogt t got.1 taskruntype id (a.line LogSite.runFail))
                    taskruntype id { c3 with err := some e, output := got.2 }

/-! ## `StartRun`: initialisation and phases -/

/-- Method `addtaskinfo`: the first call after `t.once` was reset deletes the
membership list; every call appends the PhaseKey, sets its status to `Wait` and
deletes its log list.  Returns the task, the store and the error returned. -/
def addtaskinfo (t : Task2) (r : Redis) (taskruntype : TaskRespType) (realid : Bytes) :
    Task2 × Redis × Option GoError :=
  let taskinfos := taskinfosKey t
  let keyname := phaseKey t taskruntype realid
  let r0 := if t.onceDone then r else r.Del taskinfos
  let t1 : Task2 := { t with onceDone := true }
  match r0.RPush taskinfos keyname with
  | .error e => (t1, r0, some (GoError.text (goStr "t.redis.SAdd failed: " ++ e.Error)))
  | .ok r1 =>
    match setdata t r1 taskruntype realid (Data.status TsWait) taskstatus with
    | .error e => (t1, r1, some (GoError.text (goStr "t.setdata failed: " ++ e.Error)))
    | .ok r2 => (t1, r2.Del (dataKey t taskruntype realid taskrealtasklog), none)

/-- One of the two `for` loops of the initialisation of `StartRun`: `addtaskinfo`
for each id in turn, stopping at the first error. -/
def addtaskinfos (taskruntype : TaskRespType) :
    List Bytes → Task2 → Redis → Task2 × Redis × Option GoError
  | [], t, r => (t, r, none)
  | realid :: rest, t, r =>
    match addtaskinfo t r taskruntype realid with
    | (t1, r1, some e) => (t1, r1, some e)
    | (t1, r1, none) => addtaskinfos taskruntype rest t1 r1

/-- The initialisation of `StartRun` (from `t.once = sync.Once{}` to the end of the
loop over the child ids): parents, then the task itself as master, then
children. -/
def initTaskinfos (t : Task2) (r : Redis) (task : GetTask) : Task2 × Redis × Option GoError :=
  let t0 : Task2 := { t with onceDone := false }
  match addtaskinfos ParentTask task.ParentTaskIds t0 r with
  | (t1, r1, some e) => (t1, r1, some e)
  | (t1, r1, none) =>
    match addtaskinfo t1 r1 MasterTask t1.id with
    | (t2, r2, some e) => (t2, r2, some e)
    | (t2, r2, none) => addtaskinfos ChildTask task.ChildTaskIds t2 r2

/-- The reset of the first-failure record in `StartRun`. -/
def resetFirstFailure (t : Task2) : Task2 :=
  { t with errTaskID := [], errTask := [], errCode := 0, errMsg := [], errTasktype := 0 }

/-- One task handed to the error group: its phase, its id, and the answers of the
collaborators to its invocation of `runTask`. -/
structure Scheduled where
  taskruntype : TaskRespType
  id : Bytes
  attempts : List Attempt

/-- The tasks of a run executed one after the other in the order `sched`.  The
error group is defined outside the given sources; the order in which its
goroutines take the lock of the task is a parameter. -/
def runScheduled (nm : Names) : List Scheduled → Task2 → Redis → Task2 × Redis
  | [], t, r => (t, r)
  | s :: rest, t, r =>
    let res := runTask nm s.taskruntype s.id s.attempts t r
    runScheduled nm rest res.2.1 res.1

/-- The body of `StartRun` from the initialisation to the end of `g.Wait()`:
initialise every PhaseKey, reset the first-failure record, run the tasks.  An
error of the initialisation ends the run. -/
def runPhases (nm : Names) (t : Task2) (r : Redis) (task : GetTask) (sched : List Scheduled) :
    Task2 × Redis :=
  match initTaskinfos t r task with
  | (t1, r1, some _) => (t1, r1)
  | (t1, r1, none) => runScheduled nm sched (resetFirstFailure t1) r1

/-- The status values written to the key `k`, oldest first, among the commands
`ops`; a command on `k` that does not set a status counts as `none`. -/
def statusWrites (k : Bytes) (ops : List Op) : List (Option TaskStatus) :=
  ops.filterMap (fun op =>
    match op with
    | Op.set k1 (Val.status s) => if k1 = k then some (some s) else none
    | Op.set k1 _ => if k1 = k then some none else none
    | Op.del k1 => if k1 = k then some none else none
    | Op.rpush k1 _ => if k1 = k then some none else none
    | Op.sadd k1 _ => if k1 = k then some none else none
    | Op.srem k1 _ => if k1 = k then some none else none)

/-! ## Composing and cleaning the run log -/

/-- Method `cleantaskinfos`: delete the entries of the PhaseKeys returned by
`LRANGE key 0 1`, then the membership list.  The error of `ScanSlice` is nil
also when the command failed, so the early return of the source is never
taken. -/
def cleantaskinfos (t : Task2) (r : Redis) : Redis :=
  let taskinfos := taskinfosKey t
  let res := r.LRangeScanSlice taskinfos 0 1
  let r1 := res.foldl (fun acc key =>
    ((acc.Del (key ++ goStr ":" ++ taskrealtasklog)).Del (key ++ goStr ":" ++ taskresp)).Del
      (key ++ goStr ":" ++ taskstatus)) r
  r1.Del taskinfos

/-- Method `gettaskinfos`: the whole membership list; an empty list is an error,
and so is a key that holds another kind of value, for which `ScanSlice`
leaves `res` empty. -/
def gettaskinfos (t : Task2) (r : Redis) : Except GoError (List Bytes) :=
  let res := r.LRangeScanSlice (taskinfosKey t) 0 (-1)
  if res.length = 0 then .error (GoError.text (goStr "get key taskinfos is empty"))
  else .ok res

/-- Method `getruntaskdata`: the inventory record `task:running:<id>`. -/
def getruntaskdata (t : Task2) (r : Redis) : Except GoError RunTask :=
  match r.data (goStr "task:running" ++ goStr ":" ++ t.id) with
  | none => .error (GoError.text (goStr "t.redis.Get failed: " ++ GoError.redisNil.Error))
  | some (Val.runtask x) => .ok x
  | some (Val.list _) =>
    .error (GoError.text (goStr "t.redis.Get failed: " ++ GoError.wrongType.Error))
  | some (Val.set _) =>
    .error (GoError.text (goStr "t.redis.Get failed: " ++ GoError.wrongType.Error))
  | some _ => .error (GoError.text (goStr "json.Unmarshal failed: " ++ GoError.notRecord.Error))

/-- Go `strings.Split(s, ":")`. -/
def splitColon : Bytes → List Bytes
  | [] => [[]]
  | b :: rest =>
    if b = 58 then [] :: splitColon rest
    else
      match splitColon rest with
      | h :: tl => (b :: h) :: tl
      | [] => [[b]]

/-- Conversion of a 64-bit integer expression to its two's-complement value. -/
def wrapInt64 (x : Int) : Int := (x + 9223372036854775808) % 18446744073709551616 - 9223372036854775808

/-- The record `define.Log` handed to the history and alarm collaborators. -/
structure Log where
  Name : Bytes
  RunByTaskID : Bytes
  StartTime : Int
  EndTime : Int
  TotalRunTime : Int
  Status : Int
  TaskResps : List TaskResp
  Trigger : Int
  Triggerstr : Bytes
  ErrCode : Int
  ErrMsg : Bytes
  ErrTasktype : TaskRespType
  ErrTaskID : Bytes
  ErrTask : Bytes
  deriving DecidableEq, Repr

/-- The body of the loop of `savetasklog` for one member of the list: the result
record completed with log and status, or `none` when the member is skipped. -/
def taskRespOf (nm : Names) (t : Task2) (r : Redis) (keyname : Bytes) : Option TaskResp :=
  let sp := splitColon keyname
  if sp.length ≠ 4 then none
  else
    match Atoi (sp.getD 2 []) with
    | .error _ => none
    | .ok i =>
      match getdata t r i (sp.getD 3 []) taskresp with
      | .ok (Data.resp tr) =>
        match getdata t r i (sp.getD 3 []) taskstatus with
        | .ok (Data.status st) =>
          match getdata t r i (sp.getD 3 []) taskrealtasklog with
          | .ok (Data.log tasklog) =>
            some { tr with
              LogData := tasklog,
              Status := if st = TsWait then nm.statusString TsCancel else nm.statusString st }
          | _ => none
        | _ => none
      | _ => none

/-- Method `savetasklog`.  `nowNano` is `time.Now().UnixNano()`.  Returns the store
afterwards, the log handed to `alarm.JudgeNotify` and `model.SaveLog` if the
method gets that far, and the error returned. -/
def savetasklog (nm : Names) (t : Task2) (r : Redis) (nowNano : Int) :
    Redis × Option Log × Option GoError :=
  match getruntaskdata t r with
  | .error e => (r, none, some (GoError.text (goStr "t.gettaskinfo failed: " ++ e.Error)))
  | .ok runtask =>
    let endTime := Int.tdiv nowNano 1000000
    let tasklogres : Log :=
      { Name := t.name, RunByTaskID := t.id, StartTime := runtask.StartTime, EndTime := endTime,
        TotalRunTime := wrapInt64 (endTime - runtask.StartTime),
        Status := if t.errTaskID = [] then 1 else -1,
        TaskResps := [], Trigger := runtask.Trigger,
        Triggerstr := nm.triggerString runtask.Trigger,
        ErrCode := t.errCode, ErrMsg := t.errMsg, ErrTasktype := t.errTasktype,
        ErrTaskID := t.errTaskID, ErrTask := t.errTask }
    match gettaskinfos t r with
    | .error e => (r, none, some e)
    | .ok tasks =>
      let res : Log := { tasklogres with TaskResps := tasks.filterMap (taskRespOf nm t r) }
      (cleantaskinfos t r, some res, none)

/-! ## Reading the live log -/

/-- The error `io.EOF`. -/
def ioEOF : GoError := GoError.text (goStr "EOF")

/-- The error `ErrNoGetLog`. -/
def ErrNoGetLog : GoError := GoError.text (goStr "no read data from cache")

/-- Method `GetTaskRealLog`: the frame at `offset` of the log list; when there is
none, `io.EOF` if the status of the task is final and `ErrNoGetLog` otherwise.
The method issues `LINDEX` and `GET` only; the store is returned as it was
received. -/
def GetTaskRealLog (t : Task2) (r : Redis) (taskruntype : TaskRespType) (realid : Bytes)
    (offset : Int) : Redis × Except GoError Bytes :=
  let keyname := dataKey t taskruntype realid taskrealtasklog
  match r.LIndex keyname offset with
  | .ok output => (r, .ok output)
  | .error err =>
    if err ≠ GoError.redisNil then (r, .error err)
    else
      match getdata t r taskruntype realid taskstatus with
      | .error tserr => (r, .error (GoError.text (goStr "getdata failed: " ++ tserr.Error)))
      | .ok (Data.status TsFinish) => (r, .error ioEOF)
      | .ok (Data.status TsCancel) => (r, .error ioEOF)
      | .ok (Data.status TsFail) => (r, .error ioEOF)
      | .ok (Data.status _) => (r, .error ErrNoGetLog)
      | .ok _ => (r, .error (GoError.text (goStr "interface conversion")))

/-! ## The run lock -/

/-- The key `"task:runlock:" + t.id`. -/
def lockKey (t : Task2) : Bytes := goStr "task:runlock:" ++ t.id

/-- Method `islock`: whether the lock key exists. -/
def islock (t : Task2) (r : Redis) : Bool := r.Exists (lockKey t)

/-- Method `getlock`: `SETNX` of the nonce on the lock key; the store afterwards
and whether the lock was taken. -/
def getlock (t : Task2) (r : Redis) (randstr : Bytes) : Redis × Bool :=
  let res := r.SetNX (lockKey t) randstr
  (res.2, res.1)

/-- Method `releaselock`: the script deletes the lock key when `GET` returns the
nonce `randid`, and does nothing otherwise; on a key that holds a list or a
set `GET` fails, the script is aborted and the error is only logged. -/
def releaselock (t : Task2) (r : Redis) (randid : Bytes) : Redis :=
  match r.data (lockKey t) with
  | some (Val.raw v) => if v = randid then r.Del (lockKey t) else r
  | _ => r

/-- The nonce `randstr` of `StartRun`:
`strconv.FormatInt(time.Now().UnixNano()/int64(rand.Int()), 10)`, for the clock
reading `nowNano` and the random draw `randInt`; `none` is the run-time panic
of an integer division by zero. -/
def randstr (nowNano randInt : Int) : Option Bytes :=
  if randInt = 0 then none else some (Itoa (wrapInt64 (Int.tdiv nowNano randInt)))

/-! ## The inventory of running tasks -/

/-- The key `"task:running"` of the set of running tasks. -/
def runningKey : Bytes := goStr "task:running"

/-- The key `"task:running:" + id` of an inventory record. -/
def runningTaskKey (id : Bytes) : Bytes := goStr "task:running" ++ goStr ":" ++ id

/-- Method `saverunningtask`: a pipeline of `SADD` of the record key to the set and
`SET` of the record; the commands are executed one by one and the error is
dropped by the caller. -/
def saverunningtask (r : Redis) (runningtask : RunTask) : Redis :=
  let r1 := match r.SAdd runningKey (runningTaskKey runningtask.ID) with
    | .ok x => x
    | .error _ => r
  r1.Set (runningTaskKey runningtask.ID) (Val.runtask runningtask)

/-- Method `removerunningtask`: a pipeline of `SREM` of the record key from the set
and `DEL` of the record. -/
def removerunningtask (r : Redis) (runningtask : RunTask) : Redis :=
  let r1 := match r.SRem runningKey (runningTaskKey runningtask.ID) with
    | .ok x => x
    | .error _ => r
  r1.Del (runningTaskKey runningtask.ID)

/-! ## `StartRun` -/

/-- What the environment answers during one call of `StartRun`: the clock reading
and the random draw of the nonce, the clock reading of the start time, the
result of `model.GetTaskByID`, the order in which the tasks take the lock of
the task with the answers to each, and the clock reading of `savetasklog`. -/
structure RunEnv where
  lockNano : Int
  randInt : Int
  startNano : Int
  task : Except GoError GetTask
  sched : List Scheduled
  endNano : Int

/-- How a call of `StartRun` ends: the trigger is dropped because the lock exists
or was not obtained; the nonce computation panics; the descriptor cannot be
fetched; the initialisation fails; or the run is carried out and `savetasklog`
returns. -/
inductive RunEnd
  | skipped
  | panicked
  | noTask
  | initFailed
  | ran (log : Option Log) (err : Option GoError)
  deriving DecidableEq, Repr

/-- Method `StartRun`.  `trigger` is the integer value of `define.Trigger`.  The
cancel function kept in the task is not part of the state, and the
goroutine that renews the expiry of the lock changes no value of the store;
the deferred calls run at the return in reverse order of registration,
`removerunningtask` before `releaselock`. -/
def StartRun (nm : Names) (t : Task2) (r : Redis) (trigger : Int) (env : RunEnv) :
    Task2 × Redis × RunEnd :=
  if islock t r then (t, r, RunEnd.skipped)
  else
    match randstr env.lockNano env.randInt with
    | none => (t, r, RunEnd.panicked)
    | some nonce =>
      let got := getlock t r nonce
      if got.2 = false then (t, got.1, RunEnd.skipped)
      else
        let runningtask : RunTask :=
          { ID := t.id, Name := t.name, Cronexpr := t.cronexpr,
            StartTime := Int.tdiv env.startNano 1000000, Trigger := trigger }
        let r2 := saverunningtask got.1 runningtask
        match env.task with
        | .error _ =>
          (t, releaselock t (removerunningtask r2 runningtask) nonce, RunEnd.noTask)
        | .ok task =>
          match initTaskinfos t r2 task with
          | (t1, r3, some _) =>
            (t1, releaselock t (removerunningtask r3 runningtask) nonce, RunEnd.initFailed)
          | (t1, r3, none) =>
            let ran := runScheduled nm env.sched (resetFirstFailure t1) r3
            let saved := savetasklog nm ran.1 ran.2 env.endNano
            (ran.1, releaselock t (removerunningtask saved.1 runningtask) nonce,
              RunEnd.ran saved.2.1 saved.2.2)

/-! ## The registry -/

/-- The map `ts` of `cacheSchedule2`, from task id to task. -/
structure cacheSchedule2 where
  ts : Bytes → Option Task2

/-- Method `gettask`. -/
def cacheSchedule2.gettask (s : cacheSchedule2) (taskid : Bytes) : Option Task2 := s.ts taskid

/-- Method `addtask`: when the task id is registered, the old entry is closed and
cancelled and `delete(s.ts, taskname)` is executed; then the new entry is
stored under the task id.  Closing the old timer and starting the new one
do not change the map. -/
def cacheSchedule2.addtask (s : cacheSchedule2) (taskid taskname cronExpr : Bytes) (next : Next)
    (canrun : Bool) : cacheSchedule2 :=
  let ts1 : Bytes → Option Task2 :=
    match s.gettask taskid with
    | some _ => fun k => if k = taskname then none else s.ts k
    | none => s.ts
  let t : Task2 :=
    { id := taskid, name := taskname, cronexpr := cronExpr, next := next, canrun := canrun,
      onceDone := false, errTaskID := [], errTask := [], errCode := 0, errMsg := [],
      errTasktype := 0 }
  { ts := fun k => if k = taskid then some t else ts1 k }

/-- Method `deletetask`, as far as the map is concerned. -/
def cacheSchedule2.deletetask (s : cacheSchedule2) (taskid : Bytes) : cacheSchedule2 :=
  match s.gettask taskid with
  | some _ => { ts := fun k => if k = taskid then none else s.ts k }
  | none => s

/-! ## The status tree -/

/-- The record `define.TaskStatusTree`. -/
inductive TaskStatusTree
  | node (Name ID : Bytes) (TaskType : TaskRespType) (Status : Bytes)
      (Children : List TaskStatusTree)

/-- The status field of a node. -/
def TaskStatusTree.Status : TaskStatusTree → Bytes
  | .node _ _ _ st _ => st

/-- The children of a node. -/
def TaskStatusTree.Children : TaskStatusTree → List TaskStatusTree
  | .node _ _ _ _ ch => ch

/-- Assignment to the status field of a node. -/
def TaskStatusTree.setStatus : TaskStatusTree → Bytes → TaskStatusTree
  | .node nm id ty _ ch, st => .node nm id ty st ch

/-- Append to the children of a node. -/
def TaskStatusTree.addChild : TaskStatusTree → TaskStatusTree → TaskStatusTree
  | .node nm id ty st ch, c => .node nm id ty st (ch ++ [c])

/-- Assignment to the status, id and name of a node. -/
def TaskStatusTree.setEntry : TaskStatusTree → Bytes → Bytes → Bytes → TaskStatusTree
  | .node _ _ ty _ ch, st, id, nm => .node nm id ty st ch

/-- Modelled from the spec: `define.GetTasksTreeStatus` is declared outside the
given sources; it returns the three nodes `[parentGroup, masterEntry,
childGroup]` that `GetTaskTreeStatatus` fills in. -/
structure Tree3 where
  parent : TaskStatusTree
  master : TaskStatusTree
  child : TaskStatusTree

/-- The variables of the loop of `GetTaskTreeStatatus`. -/
structure TreeState where
  ret : Tree3
  setStatus : Bool
  finish : Bool

/-- The parsing step shared by the loops over the membership list: the member is
split on `:` into four fields, the third is the phase in decimal, the fourth
the task id; `none` when the member is skipped. -/
def parseMember (keyname : Bytes) : Option (TaskRespType × Bytes) :=
  let sp := splitColon keyname
  if sp.length ≠ 4 then none
  else
    match Atoi (sp.getD 2 []) with
    | .error _ => none
    | .ok taskruntype => some (taskruntype, sp.getD 3 [])

/-- The status that the loop of `GetTaskTreeStatatus` reads for a member of the
membership list; `none` when the member is skipped before or at the read. -/
def memberStatus (t : Task2) (r : Redis) (keyname : Bytes) : Option TaskStatus :=
  match parseMember keyname with
  | none => none
  | some (taskruntype, id) =>
    match getdata t r taskruntype id taskstatus with
    | .ok (Data.status st) => some st
    | _ => none

/-- The test of `GetTaskTreeStatatus` for a status that fixes the status of its
group: its string is the one of `Cancel`, `Run` or `Fail`. -/
def fixesGroup (nm : Names) (status : Bytes) : Bool :=
  decide (status = nm.statusString TsCancel) || decide (status = nm.statusString TsRun) ||
    decide (status = nm.statusString TsFail)

/-- The body of the loop of `GetTaskTreeStatatus` for one member. -/
def treeStep (nm : Names) (s : cacheSchedule2) (t : Task2) (r : Redis) (st : TreeState)
    (keyname : Bytes) : TreeState :=
  match parseMember keyname with
  | none => st
  | some (taskruntype, id) =>
    match getdata t r taskruntype id taskstatus with
    | .ok (Data.status statusres) =>
      let st1 : TreeState :=
        if statusres = TsRun ∨ statusres = TsWait then { st with finish := false } else st
      match s.gettask id with
      | none => st1
      | some task =>
        let status := nm.statusString statusres
        let taskTree := TaskStatusTree.node task.name id taskruntype status []
        if taskruntype = ParentTask then
          let p1 := if st1.setStatus then st1.ret.parent else st1.ret.parent.setStatus status
          { st1 with
            ret := { st1.ret with parent := p1.addChild taskTree },
            setStatus := st1.setStatus || fixesGroup nm status }
        else if taskruntype = MasterTask then
          { st1 with
            ret := { st1.ret with master := st1.ret.master.setEntry status id task.name },
            setStatus := false }
        else if taskruntype = ChildTask then
          let c1 := if st1.setStatus then st1.ret.child else st1.ret.child.setStatus status
          { st1 with
            ret := { st1.ret with child := c1.addChild taskTree },
            setStatus := st1.setStatus || fixesGroup nm status }
        else st1
    | _ => st

/-- Method `GetTaskTreeStatatus`: the tree, the finished flag and the error
returned.  `init` is the value of `define.GetTasksTreeStatus()`. -/
def GetTaskTreeStatatus (nm : Names) (s : cacheSchedule2) (init : Tree3) (t : Task2)
    (r : Redis) : Option Tree3 × Bool × Option GoError :=
  match gettaskinfos t r with
  | .error e => (none, false, some (GoError.text (goStr "t.gettaskinfos failed: " ++ e.Error)))
  | .ok dependtasks =>
    let st := dependtasks.foldl (treeStep nm s t r)
      { ret := init, setStatus := false, finish := true }
    (some st.ret, st.finish, none)

/-- The status of a group as `GetTaskTreeStatatus` computes it from the statuses
of its members in list order: the string of the first status that fixes the
group, otherwise the string of the last status, otherwise the initial
value. -/
def groupStatus (nm : Names) (initial : Bytes) (sts : List TaskStatus) : Bytes :=
  match sts.find? (fun st => fixesGroup nm (nm.statusString st)) with
  | some st => nm.statusString st
  | none =>
    match sts.getLast? with
    | some st => nm.statusString st
    | none => initial

/-- The state of the membership list between two calls of `addtaskinfo`: once the
`sync.Once` has fired the key holds the list `l`; before, `l` is empty. -/
def ListState (t : Task2) (r : Redis) (l : List Bytes) : Prop :=
  (t.onceDone = true ∧ r.data (taskinfosKey t) = some (Val.list l)) ∨
  (t.onceDone = false ∧ l = [])

/-- The status writes with which a task can end: none, or one of `Finish`, `Fail`,
`Cancel`. -/
def Terminal (term : List (Option TaskStatus)) : Prop :=
  term = [] ∨ term = [some TsFinish] ∨ term = [some TsFail] ∨ term = [some TsCancel]

/-- The PhaseKeys of a run, as pairs of phase and task id, in the order of the
initialisation: parents, master, children. -/
def phases (t : Task2) (task : GetTask) : List (TaskRespType × Bytes) :=
  task.ParentTaskIds.map (fun x => (ParentTask, x)) ++ [(MasterTask, t.id)] ++
    task.ChildTaskIds.map (fun x => (ChildTask, x))

/-- The elements an invocation of `runTask` appends to the log list when its worker
goes down: the start line, the output header, the frames received, and the
line announcing the retry. -/
def retryLog (a : Attempt) : List Bytes :=
  [a.line LogSite.start, a.line LogSite.output] ++ a.frames ++ [a.line LogSite.workerDown]

/-- The invocations of `runTask` that `StartRun` hands to its error groups, as
pairs of phase and task id: one per parent id, the master `task.ID`, one per
child id. -/
def handed (task : GetTask) : List (TaskRespType × Bytes) :=
  task.ParentTaskIds.map (fun x => (ParentTask, x)) ++ [(MasterTask, task.ID)] ++
    task.ChildTaskIds.map (fun x => (ChildTask, x))

/-- The reads of the loop of `savetasklog` for the PhaseKey `(taskruntype, id)`: the
result record completed with the joined log and the status string, `Wait`
printed as `Cancel`; `none` when one of the three reads fails. -/
def respEntry (nm : Names) (t : Task2) (r : Redis) (taskruntype : TaskRespType) (id : Bytes) :
    Option TaskResp :=
  match getdata t r taskruntype id taskresp with
  | .ok (Data.resp tr) =>
    match getdata t r taskruntype id taskstatus with
    | .ok (Data.status st) =>
      match getdata t r taskruntype id taskrealtasklog with
      | .ok (Data.log tasklog) =>
        some { tr with
          LogData := tasklog,
          Status := if st = TsWait then nm.statusString TsCancel else nm.statusString st }
      | _ => none
    | _ => none
  | _ => none

/-- A member of the membership list that the loop of `GetTaskTreeStatatus` handles
as a member of the phase `taskruntype` with the status `st`: it parses to
that phase and a task id, the status of that PhaseKey can be read and is
`st`, and the registry knows the task id. -/
def Processed (s : cacheSchedule2) (t : Task2) (r : Redis) (taskruntype : TaskRespType)
    (keyname : Bytes) (st : TaskStatus) : Prop :=
  ∃ (id : Bytes) (task : Task2),
    parseMember keyname = some (taskruntype, id) ∧
    getdata t r taskruntype id taskstatus = .ok (Data.status st) ∧
    s.gettask id = some task

/-- The element of a list that a signed index denotes: `0` is the first element,
`-1` the last; `none` when there is no such element. -/
def frameAt (l : List Bytes) (offset : Int) : Option Bytes :=
  if 0 ≤ offset then l.get? offset.toNat
  else if -(l.length : Int) ≤ offset then l.get? ((l.length : Int) + offset).toNat
  else none

/-! ## Concrete inputs -/

/-- Printing functions used in the examples. -/
def exNames : Names :=
  { typeString := fun ty => goStr "type" ++ Itoa (ty : Int),
    statusString := fun st =>
      match st with
      | TsWait => goStr "wait"
      | TsRun => goStr "run"
      | TsFinish => goStr "finish"
      | TsFail => goStr "fail"
      | TsCancel => goStr "cancel",
    triggerString := fun tr => goStr "trigger" ++ Itoa tr }

/-- The master task `T` with an empty first-failure record. -/
def exTask : Task2 :=
  { id := goStr "T", name := goStr "nightly", cronexpr := goStr "0 0 * * *", next := 0,
    canrun := true, onceDone := false, errTaskID := [], errTask := [], errCode := 0, errMsg := [],
    errTasktype := 0 }

/-- The master task `T` after parent `A` was recorded as the first failure. -/
def exTaskFailed : Task2 :=
  { exTask with errTaskID := goStr "A", errTask := goStr "taskA", errCode := 2,
                errMsg := goStr "type1 task A[taskA] resp code is 2,want resp code 0",
                errTasktype := ParentTask }

/-- The store with no key. -/
def exEmpty : Redis := { data := fun _ => none, hist := [] }

/-- The descriptor of task `T`: parents `A`, `B`, child `C`, expected exit code 0. -/
def exDesc : GetTask :=
  { ID := goStr "T", Name := goStr "nightly", HostGroup := goStr "hg", HostGroupID := goStr "1",
    Timeout := 0, ExpectCode := 0, ExpectContent := [],
    ParentTaskIds := [goStr "A", goStr "B"], ChildTaskIds := [goStr "C"],
    ParentRunParallel := false, ChildRunParallel := true }

/-- An invocation in which every collaborator answers and the worker on host `w1`
sends `frames` before the stream ends with `ending`. -/
def exAttempt (frames : List Bytes) (ending : RecvEnd) (ctxDone : Bool) : Attempt :=
  { taskdata := .ok exDesc, realtask := some exTask, conn := .ok (goStr "w1:8080"),
    tdata := .ok (goStr "\x7b\x7d"), stream := none, frames := frames, ending := ending,
    line := fun site =>
      match site with
      | LogSite.start => goStr "2020-01-01 00:00:00: start run task\n"
      | LogSite.output => goStr "2020-01-01 00:00:00: task output----------------\n"
      | _ => goStr "2020-01-01 00:00:01: note\n",
    ctxDone := ctxDone }

/-- The store in which the log list of parent `A` holds the single frame
`"ok\n    0"`. -/
def exLogStore : Redis := writelog exTask exEmpty ParentTask (goStr "A") (goStr "ok\n    0")

/-- The local variables at `Check` of a task that ran to the end of its stream
with exit code 0. -/
def exCheckOk : CheckIn :=
  { err := none, taskdata := some exDesc, realtask := some exTask,
    conn := some (goStr "w1:8080"), output := goStr "ok\n    0", taskrespcode := 0,
    cancelLine := goStr "2020-01-01 00:00:02: task is canceled\n", ctxDone := false }

/-- The local variables at `Check` of a task whose stream ended with the
cancellation error while the context was cancelled. -/
def exCheckCancelled : CheckIn :=
  { exCheckOk with err := some (GetMsgErr 10601), taskrespcode := DefaultExitCode,
                   output := goStr "partial", ctxDone := true }

/-- The store of run `T` after the initialisation of `StartRun`, with the
inventory record of the run written at 2020-01-01 00:00:00 UTC. -/
def exRunStore : Redis :=
  ((initTaskinfos exTask exEmpty exDesc).2.1).Set (goStr "task:running:T")
    (Val.runtask { ID := goStr "T", Name := goStr "nightly", Cronexpr := goStr "0 0 * * *",
                   StartTime := 1577836800000, Trigger := 1 })

/-- The four tasks of run `T`, each handed to `runTask` once; every worker sends the
single frame `"ok\n    0"` and ends its stream. -/
def exSched : List Scheduled :=
  [ { taskruntype := ParentTask, id := goStr "A",
      attempts := [exAttempt [goStr "ok\n    0"] RecvEnd.eof false] },
    { taskruntype := ParentTask, id := goStr "B",
      attempts := [exAttempt [goStr "ok\n    0"] RecvEnd.eof false] },
    { taskruntype := MasterTask, id := goStr "T",
      attempts := [exAttempt [goStr "ok\n    0"] RecvEnd.eof false] },
    { taskruntype := ChildTask, id := goStr "C",
      attempts := [exAttempt [goStr "ok\n    0"] RecvEnd.eof false] } ]

/-- The store of run `T` in which parent `A` has finished with two frames in its log
list and parent `B` is still running with an empty log list. -/
def exLiveStore : Redis :=
  setdataQuiet exTask
    (setdataQuiet exTask
      (writelog exTask (writelog exTask exEmpty ParentTask (goStr "A") (goStr "line1\n"))
        ParentTask (goStr "A") (goStr "ok\n    0"))
      ParentTask (goStr "A") (Data.status TsFinish) taskstatus)
    ParentTask (goStr "B") (Data.status TsRun) taskstatus

/-- The store in which the lock of `T` is held with the nonce `"17"`. -/
def exLockedStore : Redis := (getlock exTask exEmpty (goStr "17")).1

/-- An environment of `StartRun` for task `T`. -/
def exRunEnv : RunEnv :=
  { lockNano := 1577836800000000000, randInt := 4611686018427387904,
    startNano := 1577836800000000000, task := .ok exDesc, sched := exSched,
    endNano := 1577836801000000000 }

/-- A registry holding one task whose id is `N`. -/
def exRegistry : cacheSchedule2 :=
  { ts := fun k =>
      if k = goStr "N" then
        some { exTask with id := goStr "N", name := goStr "weekly" }
      else none }

/-- The store at the end of the run of `T` in which each of the four tasks was
invoked once and succeeded, with the inventory record of the run. -/
def exDoneStore : Redis :=
  ((runPhases exNames exTask exEmpty exDesc exSched).2).Set (goStr "task:running:T")
    (Val.runtask { ID := goStr "T", Name := goStr "nightly", Cronexpr := goStr "0 0 * * *",
                   StartTime := 1577836800000, Trigger := 1 })

/-- The result record that `runTask` stores for a task of run `T` that ended with
exit code 0 on host `w1`. -/
def exResp (taskruntype : TaskRespType) (id : Bytes) : TaskResp :=
  { TaskID := id, Task := goStr "nightly", LogData := [], Code := 0, TaskType := taskruntype,
    RunHost := goStr "w1:8080", Status := [] }

/-- The value of `define.GetTasksTreeStatus()` used in the examples. -/
def exInit : Tree3 :=
  { parent := TaskStatusTree.node (goStr "parents") [] ParentTask [] [],
    master := TaskStatusTree.node [] [] MasterTask [] [],
    child := TaskStatusTree.node (goStr "childs") [] ChildTask [] [] }

/-- A registry that knows the tasks `A`, `B`, `T` and `C`. -/
def exRegistry4 : cacheSchedule2 :=
  { ts := fun k =>
      if k = goStr "A" ∨ k = goStr "B" ∨ k = goStr "T" ∨ k = goStr "C" then
        some { exTask with id := k }
      else none }

/-- The store of run `T` in which parent `A` has failed and the other three tasks
are cancelled. -/
def exTreeStore : Redis :=
  setdataQuiet exTask
    (setdataQuiet exTask
      (setdataQuiet exTask
        (setdataQuiet exTask exRunStore ParentTask (goStr "A") (Data.status TsFail) taskstatus)
        ParentTask (goStr "B") (Data.status TsCancel) taskstatus)
      MasterTask (goStr "T") (Data.status TsCancel) taskstatus)
    ChildTask (goStr "C") (Data.status TsCancel) taskstatus

/-- The store of run `T` in which child `C` is running while parent `A` has failed
and the other two tasks are cancelled. -/
def exTreeRunning : Redis :=
  setdataQuiet exTask exTreeStore ChildTask (goStr "C") (Data.status TsRun) taskstatus

/-- The store of a run of `T` whose only parent has the id `a:b`: `addtaskinfo` has
built the membership list, the parent is running, its result record and one
log frame are stored, and the inventory record of the run is written. -/
def exColonStore : Redis :=
  (writelog exTask
    (setdataQuiet exTask
      (setdataQuiet exTask (addtaskinfo exTask exEmpty ParentTask (goStr "a:b")).2.1
        ParentTask (goStr "a:b") (Data.status TsRun) taskstatus)
      ParentTask (goStr "a:b") (Data.resp (exResp ParentTask (goStr "a:b"))) taskresp)
    ParentTask (goStr "a:b") (goStr "ok\n    0")).Set (goStr "task:running:T")
    (Val.runtask { ID := goStr "T", Name := goStr "nightly", Cronexpr := goStr "0 0 * * *",
                   StartTime := 1577836800000, Trigger := 1 })

/-- An invocation for which the descriptor is fetched and `Cron2.gettask` does not
find the task. -/
def exMissAttempt : Attempt :=
  { exAttempt [] RecvEnd.eof false with realtask := none }

/-- An invocation for which `model.GetTaskByID` fails. -/
def exDbFailAttempt : Attempt :=
  { exAttempt [] RecvEnd.eof false with
    taskdata := .error (GoError.text (goStr "sql: no rows in result set")) }

/-! # Theorems -/

/-! ## Decimal conversion -/

theorem digitsVal_snoc (l : Bytes) (d : Nat) :
    digitsVal (l ++ [d]) = digitsVal l * 10 + (d - 48) := by
  simp [digitsVal, List.foldl_append]

theorem natDigits_ne_nil (fuel n : Nat) : natDigits (fuel + 1) n ≠ [] := by
  unfold natDigits
  split <;> simp

theorem natDigits_all_digit (fuel n : Nat) : (natDigits fuel n).all isDigit = true := by
  induction fuel generalizing n with
  | zero => simp [natDigits]
  | succ k ih =>
    unfold natDigits
    split
    · simp [isDigit]; omega
    · simp only [List.all_append, ih, Bool.true_and]
      simp [isDigit]; omega

theorem digitsVal_natDigits (fuel n : Nat) (h : n < fuel) :
    digitsVal (natDigits fuel n) = n := by
  induction fuel generalizing n with
  | zero => omega
  | succ k ih =>
    unfold natDigits
    split
    · simp [digitsVal]
    · rw [digitsVal_snoc, ih (n / 10) (by omega)]
      omega

theorem natDigits_lt_pow (fuel n : Nat) (h : n < fuel) :
    n < 10 ^ (natDigits fuel n).length := by
  induction fuel generalizing n with
  | zero => omega
  | succ k ih =>
    unfold natDigits
    split
    · simpa using (by omega : n < 10)
    · have h1 := ih (n / 10) (by omega)
      rw [List.length_append, List.length_singleton, pow_succ]
      omega

theorem splitSign_digit (h : Nat) (tl : Bytes) (hd : isDigit h = true) :
    splitSign (h :: tl) = (false, h :: tl) := by
  have h1 : h ≠ 45 := by
    intro e; subst e; simp [isDigit] at hd
  have h2 : h ≠ 43 := by
    intro e; subst e; simp [isDigit] at hd
  unfold splitSign
  split
  · simp_all
  · simp_all
  · rfl

theorem splitSign_natDigits (fuel n : Nat) :
    splitSign (natDigits (fuel + 1) n) = (false, natDigits (fuel + 1) n) := by
  have hne := natDigits_ne_nil fuel n
  have hall := natDigits_all_digit (fuel + 1) n
  cases hl : natDigits (fuel + 1) n with
  | nil => exact absurd hl hne
  | cons a tl =>
    rw [hl] at hall
    simp only [List.all_cons, Bool.and_eq_true] at hall
    exact splitSign_digit a tl hall.1

/-- The decimal representation of an integer of the 64-bit range parses back to it. -/
theorem Atoi_Itoa (n : Int) (hlo : -9223372036854775808 ≤ n) (hhi : n ≤ 9223372036854775807) :
    Atoi (Itoa n) = .ok n := by
  unfold Atoi Itoa
  by_cases hn : n < 0
  · have hs : splitSign (45 :: natDigits (n.natAbs + 1) n.natAbs)
        = (true, natDigits (n.natAbs + 1) n.natAbs) := rfl
    simp only [hn, if_true, hs, natDigits_ne_nil, if_false, natDigits_all_digit,
      digitsVal_natDigits _ _ (Nat.lt_succ_self _)]
    have : -((n.natAbs : Nat) : Int) = n := by omega
    rw [this]
    simp [hlo, hhi]
  · simp only [hn, if_false, splitSign_natDigits, natDigits_ne_nil, natDigits_all_digit,
      if_true, digitsVal_natDigits _ _ (Nat.lt_succ_self _)]
    have : ((n.natAbs : Nat) : Int) = n := by omega
    rw [this]
    simp [hlo, hhi]

/-- A decimal representation of at most five bytes denotes an integer of the
64-bit range. -/
theorem Itoa_short_range (n : Int) (h : (Itoa n).length ≤ 5) :
    -9223372036854775808 ≤ n ∧ n ≤ 9223372036854775807 := by
  have hp := natDigits_lt_pow (n.natAbs + 1) n.natAbs (Nat.lt_succ_self _)
  have hl : (natDigits (n.natAbs + 1) n.natAbs).length ≤ 5 := by
    unfold Itoa at h
    split at h
    · simp only [List.length_cons] at h; omega
    · exact h
  have h5 : 10 ^ (natDigits (n.natAbs + 1) n.natAbs).length ≤ 10 ^ 5 :=
    Nat.pow_le_pow_right (by norm_num) hl
  have : n.natAbs < 100000 := by
    have : (10 : Nat) ^ 5 = 100000 := by norm_num
    omega
  omega

/-! ## White-space trimming never lengthens -/

theorem trimLeftSpace_length_le (fuel : Nat) (s : Bytes) :
    (trimLeftSpace fuel s).length ≤ s.length := by
  induction fuel generalizing s with
  | zero => simp [trimLeftSpace]
  | succ k ih =>
    unfold trimLeftSpace
    cases s with
    | nil => simp
    | cons a tl =>
      simp only
      split
      · exact le_trans (ih _) (by simp [List.length_drop])
      · exact le_refl _

theorem trimRightSpace_length_le (s : Bytes) : (trimRightSpace s).length ≤ s.length := by
  unfold trimRightSpace
  split
  · simp
  · split <;> simp [List.length_take]

theorem TrimSpace_length_le (s : Bytes) : (TrimSpace s).length ≤ s.length :=
  le_trans (trimRightSpace_length_le _) (trimLeftSpace_length_le _ _)

/-! ## Trimming ASCII padding -/

theorem asciiSpace_lt (b : Nat) (h : asciiSpace b = true) : b < 128 := by
  simp [asciiSpace] at h
  omega

theorem unicodeIsSpace_ascii (b : Nat) (h : b < 128) : unicodeIsSpace b = asciiSpace b := by
  have h1 : b ≤ 255 := by omega
  have h2 : (b == 133) = false := by
    rw [beq_eq_false_iff_ne]; omega
  have h3 : (b == 160) = false := by
    rw [beq_eq_false_iff_ne]; omega
  simp [unicodeIsSpace, asciiSpace, h1, h2, h3]

theorem decodeRune_ascii (b : Nat) (tl : Bytes) (h : b < 128) : decodeRune (b :: tl) = (b, 1) := by
  simp [decodeRune, h]

theorem decodeLastRune_ascii (p : Bytes) (b : Nat) (h : b < 128) :
    decodeLastRune (p ++ [b]) = (b, 1) := by
  simp [decodeLastRune, h]

theorem trimLeftSpace_padding (ws : Bytes) (b : Nat) (tl : Bytes) (fuel : Nat)
    (hws : ∀ w ∈ ws, asciiSpace w = true) (hb : b < 128) (hns : asciiSpace b = false)
    (hfuel : ws.length < fuel) :
    trimLeftSpace fuel (ws ++ b :: tl) = b :: tl := by
  induction ws generalizing fuel with
  | nil =>
    cases fuel with
    | zero => simp at hfuel
    | succ k =>
      simp [trimLeftSpace, decodeRune_ascii b tl hb, unicodeIsSpace_ascii b hb, hns]
  | cons w ws ih =>
    cases fuel with
    | zero => simp at hfuel
    | succ k =>
      have hw := hws w (List.mem_cons_self _ _)
      have hlt := asciiSpace_lt w hw
      have hk : ws.length < k := by simpa using hfuel
      simp only [List.cons_append, trimLeftSpace, decodeRune_ascii w _ hlt,
        unicodeIsSpace_ascii w hlt, hw, if_true, List.drop_one, List.tail_cons]
      exact ih k (fun x hx => hws x (List.mem_cons_of_mem _ hx)) hk

theorem lastIndexNonSpace_padding (body : Bytes) (e : Nat) (ws : Bytes) (fuel : Nat)
    (hws : ∀ w ∈ ws, asciiSpace w = true) (he : e < 128) (hns : asciiSpace e = false)
    (hfuel : ws.length < fuel) :
    lastIndexNonSpace fuel (body ++ [e] ++ ws) = some body.length := by
  induction ws using List.reverseRecOn generalizing fuel with
  | nil =>
    cases fuel with
    | zero => simp at hfuel
    | succ k =>
      have hne : body ++ [e] ≠ [] := by simp
      cases hp : body ++ [e] with
      | nil => exact absurd hp hne
      | cons x xs =>
        simp only [List.append_nil, hp, lastIndexNonSpace]
        rw [← hp, decodeLastRune_ascii body e he]
        simp [unicodeIsSpace_ascii e he, hns]
  | append_singleton ws w ih =>
    cases fuel with
    | zero => simp at hfuel
    | succ k =>
      have hw := hws w (by simp)
      have hlt := asciiSpace_lt w hw
      have hk : ws.length < k := by
        simp only [List.length_append, List.length_singleton] at hfuel
        omega
      have hne : body ++ [e] ++ (ws ++ [w]) ≠ [] := by simp
      cases hp : body ++ [e] ++ (ws ++ [w]) with
      | nil => exact absurd hp hne
      | cons x xs =>
        simp only [lastIndexNonSpace]
        rw [← hp]
        have hassoc : body ++ [e] ++ (ws ++ [w]) = (body ++ [e] ++ ws) ++ [w] := by
          simp [List.append_assoc]
        rw [hassoc, decodeLastRune_ascii _ w hlt]
        simp only [unicodeIsSpace_ascii w hlt, hw, if_true]
        have htake : ((body ++ [e] ++ ws) ++ [w]).take
            (((body ++ [e] ++ ws) ++ [w]).length - 1) = body ++ [e] ++ ws := by
          have hlen : ((body ++ [e] ++ ws) ++ [w]).length - 1 = (body ++ [e] ++ ws).length := by
            rw [List.length_append, List.length_singleton]; omega
          rw [hlen, List.take_left']
          rfl
        rw [htake]
        exact ih k (fun x hx => hws x (by simp; exact Or.inl hx)) hk

/-- White space made of ASCII space bytes around a text that starts and ends with
ASCII bytes that are not white space is exactly what `TrimSpace` removes. -/
theorem TrimSpace_padded (ws1 ws2 body : Bytes) (b e : Nat) (mid : Bytes)
    (hbody : body = b :: mid) (hlast : body.getLast? = some e)
    (hws1 : ∀ w ∈ ws1, asciiSpace w = true) (hws2 : ∀ w ∈ ws2, asciiSpace w = true)
    (hb : b < 128) (hbn : asciiSpace b = false) (he : e < 128) (hen : asciiSpace e = false) :
    TrimSpace (ws1 ++ body ++ ws2) = body := by
  obtain ⟨ini, hini⟩ : ∃ ini, body = ini ++ [e] := by
    rcases List.eq_nil_or_concat body with hn | ⟨ini, x, hx⟩
    · rw [hn] at hlast; simp at hlast
    · refine ⟨ini, ?_⟩
      rw [hx] at hlast ⊢
      simp at hlast
      rw [hlast, List.concat_eq_append]
  unfold TrimSpace
  have hl : trimLeftSpace (ws1 ++ body ++ ws2).length (ws1 ++ body ++ ws2) = body ++ ws2 := by
    have e1 : ws1 ++ body ++ ws2 = ws1 ++ b :: (mid ++ ws2) := by
      rw [hbody]; simp
    rw [e1, trimLeftSpace_padding ws1 b (mid ++ ws2) _ hws1 hb hbn (by simp)]
    rw [hbody]; simp
  rw [hl]
  unfold trimRightSpace
  rw [hini, lastIndexNonSpace_padding ini e ws2 _ hws2 he hen (by simp; omega)]
  have hget : (ini ++ [e] ++ ws2).getD ini.length 0 = e := by
    rw [List.append_assoc, List.getD_eq_getElem?_getD,
      List.getElem?_append_right (le_refl _)]
    simp
  simp only [hget]
  have : ¬ 128 ≤ e := by omega
  simp [this, List.take_append_eq_append_take]

/-! ## Reading the last element of a list -/

theorem LIndex_last (r : Redis) (k : Bytes) (earlier : List Bytes) (f : Bytes)
    (h : r.data k = some (Val.list (earlier ++ [f]))) :
    r.LIndex k (-1) = .ok f := by
  unfold Redis.LIndex Redis.listAt
  rw [h]
  have hj : normIndex (earlier ++ [f]).length (-1) = (earlier.length : Int) := by
    simp [normIndex]
  simp only [hj]
  have : ¬ ((earlier.length : Int) < 0) := by omega
  simp [this]

/-! ## Claims -/

/-- C1. `getreturncode`: whenever the last element of the log list has at least five
bytes and its last five bytes, with surrounding white space trimmed, are the
decimal representation of an integer `n`, the call returns `n` with a nil
error, whatever the earlier elements and the bytes before the last five. -/
theorem getreturncode_decimal (t : Task2) (r : Redis) (taskruntype : TaskRespType)
    (realid : Bytes) (earlier : List Bytes) (frame : Bytes) (n : Int)
    (hlist : r.data (dataKey t taskruntype realid taskrealtasklog)
      = some (Val.list (earlier ++ [frame])))
    (hlen : 5 ≤ frame.length)
    (htrim : TrimSpace (frame.drop (frame.length - 5)) = Itoa n) :
    getreturncode t r taskruntype realid = (n, none) := by
  have hshort : (Itoa n).length ≤ 5 := by
    rw [← htrim]
    refine le_trans (TrimSpace_length_le _) ?_
    rw [List.length_drop]
    omega
  obtain ⟨hlo, hhi⟩ := Itoa_short_range n hshort
  unfold getreturncode
  simp only [LIndex_last r _ earlier frame hlist, hlen, if_true, htrim, Atoi_Itoa n hlo hhi]

/-- C1 at the store whose log list is the single frame `"ok\n    0"`. -/
theorem getreturncode_decimal_witness :
    exLogStore.data (dataKey exTask ParentTask (goStr "A") taskrealtasklog)
      = some (Val.list ([] ++ [goStr "ok\n    0"])) ∧
    5 ≤ (goStr "ok\n    0").length ∧
    TrimSpace ((goStr "ok\n    0").drop ((goStr "ok\n    0").length - 5)) = Itoa 0 ∧
    getreturncode exTask exLogStore ParentTask (goStr "A") = (0, none) :=
  ⟨by decide, by decide, by decide,
    getreturncode_decimal exTask exLogStore ParentTask (goStr "A") [] (goStr "ok\n    0") 0
      (by decide) (by decide) (by decide)⟩

/-! ## Judging a result -/

theorem bytesContains_iff (s pat : Bytes) : bytesContains s pat = true ↔ pat <:+: s := by
  unfold bytesContains
  rw [List.any_eq_true, List.infix_iff_prefix_suffix]
  constructor
  · rintro ⟨x, hx, hp⟩
    exact ⟨x, List.isPrefixOf_iff_prefix.mp hp, (List.mem_tails _ _).mp hx⟩
  · rintro ⟨x, hp, hx⟩
    exact ⟨x, (List.mem_tails _ _).mpr hx, List.isPrefixOf_iff_prefix.mpr hp⟩

theorem judgeres_eq_none_iff (nm : Names) (taskruntype : TaskRespType) (id : Bytes)
    (taskdata : GetTask) (err : Option GoError) (code : Int) (output : Bytes) :
    judgeres nm taskruntype id taskdata err code output = none ↔
      (err = none ∧ code = taskdata.ExpectCode ∧
        (taskdata.ExpectContent = [] ∨ taskdata.ExpectContent <:+: output)) := by
  unfold judgeres
  cases err with
  | some e => simp
  | none =>
    by_cases hc : taskdata.ExpectCode = code
    · by_cases he : taskdata.ExpectContent = []
      · simp [hc, he]
      · by_cases hb : bytesContains output taskdata.ExpectContent = true
        · have := (bytesContains_iff output taskdata.ExpectContent).mp hb
          simp [hc, he, hb, this]
        · have hn : ¬ taskdata.ExpectContent <:+: output :=
            fun h => hb ((bytesContains_iff output taskdata.ExpectContent).mpr h)
          simp [hc, he, hb, hn]
    · have hc2 : ¬ code = taskdata.ExpectCode := fun h => hc h.symm
      simp [hc, hc2]

/-- The judgement of `runTask` for a task found in the registry.  The judgement
error is nil exactly when the upstream error is nil, the exit code equals
`ExpectCode`, and `ExpectContent` is empty or occurs in the output buffer; and
whenever the result of a task found in the registry is composed without
taking the cancel branch, `runTask` returns exactly this judgement error. -/
theorem judgeres_spec (nm : Names) (taskruntype : TaskRespType) (id : Bytes)
    (taskdata : GetTask) :
    (∀ (err : Option GoError) (code : Int) (output : Bytes),
      judgeres nm taskruntype id taskdata err code output = none ↔
        (err = none ∧ code = taskdata.ExpectCode ∧
          (taskdata.ExpectContent = [] ∨ taskdata.ExpectContent <:+: output))) ∧
    (∀ (t : Task2) (r : Redis) (c : CheckIn) (realtask : Task2),
      c.taskdata = some taskdata → c.realtask = some realtask → takesCancel t c = false →
      (checkBlock nm t r taskruntype id c).2.2 =
        Outcome.returned (judgeres nm taskruntype id taskdata c.err c.taskrespcode c.output)) := by
  refine ⟨fun err code output => judgeres_eq_none_iff nm taskruntype id taskdata err code output, ?_⟩
  intro t r c realtask htd hrt hcancel
  unfold checkBlock
  simp only [hrt, hcancel, judgeAt, htd]
  cases hj : judgeres nm taskruntype id taskdata c.err c.taskrespcode c.output with
  | none => simp
  | some e =>
    by_cases h0 : t.errTaskID = []
    · simp [h0]
    · simp [h0]

/-- The judgement at a task that ended with exit code 0 and no expected content. -/
theorem judgeres_spec_witness :
    exCheckOk.taskdata = some exDesc ∧ exCheckOk.realtask = some exTask ∧
    takesCancel exTask exCheckOk = false ∧
    (checkBlock exNames exTask exEmpty MasterTask (goStr "T") exCheckOk).2.2 =
      Outcome.returned (judgeres exNames MasterTask (goStr "T") exDesc exCheckOk.err
        exCheckOk.taskrespcode exCheckOk.output) :=
  ⟨rfl, rfl, by decide,
    (judgeres_spec exNames MasterTask (goStr "T") exDesc).2 exTask exEmpty exCheckOk exTask
      rfl rfl (by decide)⟩

/-- C2 fails on the code when `runTask` reaches `Check` without the task of the
registry.  The descriptor of parent `A` is fetched and `Cron2.gettask` misses:
the upstream error is nil, the first-failure record is empty, so the cancel
branch is not taken, and the judgement error is the non-nil
`resp code is -1,want resp code 0`; `runTask` does not return it but ends in
the nil dereference of `realtask.name`, with no result record stored and the
status left at `Run`.  The same happens when `model.GetTaskByID` fails
and the judgement error is the error of that call. -/
theorem registry_miss_panics :
    takesCancel exTask
      { err := none, taskdata := some exDesc, realtask := none, conn := none, output := [],
        taskrespcode := DefaultExitCode,
        cancelLine := exMissAttempt.line LogSite.canceled, ctxDone := false } = false ∧
    judgeres exNames ParentTask (goStr "A") exDesc none DefaultExitCode [] =
      some (GoError.text (goStr "type1 task A[nightly] resp code is -1,want resp code 0")) ∧
    (runTask exNames ParentTask (goStr "A") [exMissAttempt] exTask exEmpty).2.2 =
      Outcome.panicked ∧
    (runTask exNames ParentTask (goStr "A") [exMissAttempt] exTask exEmpty).1.data
      (dataKey exTask ParentTask (goStr "A") taskstatus) = some (Val.status TsRun) ∧
    (runTask exNames ParentTask (goStr "A") [exMissAttempt] exTask exEmpty).1.data
      (dataKey exTask ParentTask (goStr "A") taskresp) = none ∧
    (runTask exNames ParentTask (goStr "A") [exDbFailAttempt] exTask exEmpty).2.2 =
      Outcome.panicked := by
  decide

/-! ## The first-failure record -/

/-- C3. When the result of a task is composed while a first failure is already
recorded, the five fields of the record are the same afterwards, whether
the task succeeded, failed or was cancelled. -/
theorem checkBlock_keeps_first_failure (nm : Names) (t : Task2) (r : Redis)
    (taskruntype : TaskRespType) (id : Bytes) (c : CheckIn) (h : t.errTaskID ≠ []) :
    (checkBlock nm t r taskruntype id c).2.1.errTaskID = t.errTaskID ∧
    (checkBlock nm t r taskruntype id c).2.1.errTask = t.errTask ∧
    (checkBlock nm t r taskruntype id c).2.1.errCode = t.errCode ∧
    (checkBlock nm t r taskruntype id c).2.1.errMsg = t.errMsg ∧
    (checkBlock nm t r taskruntype id c).2.1.errTasktype = t.errTasktype := by
  have key : (checkBlock nm t r taskruntype id c).2.1 = t := by
    unfold checkBlock
    cases c.realtask with
    | none => rfl
    | some realtask =>
      simp only
      split
      · rfl
      · cases judgeAt nm taskruntype id c with
        | none => rfl
        | some j =>
          cases j with
          | none => rfl
          | some e => simp [h]
  rw [key]
  exact ⟨rfl, rfl, rfl, rfl, rfl⟩

/-- C3 at a cancelled task composed after parent `A` was recorded. -/
theorem checkBlock_keeps_first_failure_witness :
    exTaskFailed.errTaskID ≠ [] ∧
    (checkBlock exNames exTaskFailed exEmpty ParentTask (goStr "B") exCheckCancelled).2.1.errTaskID
      = goStr "A" :=
  ⟨by decide,
    (checkBlock_keeps_first_failure exNames exTaskFailed exEmpty ParentTask (goStr "B")
      exCheckCancelled (by decide)).1⟩

/-- C4, as stated, fails: with an empty first-failure record and a cancelled
context, the master task whose stream ends with the cancellation error is
recorded as the first failure and its status is set to `Fail`. -/
theorem cancel_recorded_as_first_failure :
    (runTask exNames MasterTask (goStr "T")
        [exAttempt [goStr "partial"] (RecvEnd.failed (GetMsgErr 10601)) true] exTask exEmpty).1.data
      (dataKey exTask MasterTask (goStr "T") taskstatus) = some (Val.status TsFail) ∧
    (runTask exNames MasterTask (goStr "T")
        [exAttempt [goStr "partial"] (RecvEnd.failed (GetMsgErr 10601)) true] exTask exEmpty).2.1.errTaskID
      = goStr "T" ∧
    (runTask exNames MasterTask (goStr "T")
        [exAttempt [goStr "partial"] (RecvEnd.failed (GetMsgErr 10601)) true] exTask exEmpty).2.1.errTaskID
      ≠ [] := by
  decide

theorem data_setdataQuiet_status (t : Task2) (r : Redis) (taskruntype : TaskRespType)
    (id : Bytes) (st : TaskStatus) :
    (setdataQuiet t r taskruntype id (Data.status st) taskstatus).data
      (dataKey t taskruntype id taskstatus) = some (Val.status st) := by
  simp [setdataQuiet, setdata, Redis.Set]

theorem judgeAt_err (nm : Names) (taskruntype : TaskRespType) (id : Bytes) (c : CheckIn)
    (e : GoError) (herr : c.err = some e) : judgeAt nm taskruntype id c = some (some e) := by
  unfold judgeAt
  cases c.taskdata with
  | none => simp [herr]
  | some td => simp [judgeres, herr]

/-- C4, amended.  When the result of a task found in the registry is composed with
a non-nil error while the context is cancelled: if a first failure is already
recorded, the status of the task is set to `Cancel`, the record is unchanged
and nil is returned; if the record is still empty, the task itself is
recorded as the first failure, its status is set to `Fail` and the error is
returned. -/
theorem checkBlock_cancelled (nm : Names) (t : Task2) (r : Redis) (taskruntype : TaskRespType)
    (id : Bytes) (c : CheckIn) (e : GoError) (realtask : Task2)
    (herr : c.err = some e) (hrt : c.realtask = some realtask) (hdone : c.ctxDone = true) :
    (t.errTaskID ≠ [] →
      (checkBlock nm t r taskruntype id c).1.data (dataKey t taskruntype id taskstatus)
          = some (Val.status TsCancel) ∧
      (checkBlock nm t r taskruntype id c).2.1 = t ∧
      (checkBlock nm t r taskruntype id c).2.2 = Outcome.returned none) ∧
    (t.errTaskID = [] →
      (checkBlock nm t r taskruntype id c).1.data (dataKey t taskruntype id taskstatus)
          = some (Val.status TsFail) ∧
      (checkBlock nm t r taskruntype id c).2.1.errTaskID = id ∧
      (checkBlock nm t r taskruntype id c).2.2 = Outcome.returned (some e)) := by
  constructor
  · intro h
    have hc : takesCancel t c = true := by simp [takesCancel, herr, h, hdone]
    unfold checkBlock
    simp only [hrt, hc, if_true]
    refine ⟨data_setdataQuiet_status _ _ _ _ _, ?_, ?_⟩ <;> trivial
  · intro h
    have hc : takesCancel t c = false := by simp [takesCancel, h]
    unfold checkBlock
    simp only [hrt, hc, judgeAt_err nm taskruntype id c e herr, h, if_true]
    refine ⟨?_, ?_, ?_⟩
    · simp [setdataQuiet, setdata, Redis.Set, dataKey]
    · trivial
    · trivial

/-- C4, amended, at a cancelled task composed after parent `A` was recorded. -/
theorem checkBlock_cancelled_witness :
    exCheckCancelled.err = some (GetMsgErr 10601) ∧
    exCheckCancelled.realtask = some exTask ∧ exCheckCancelled.ctxDone = true ∧
    exTaskFailed.errTaskID ≠ [] ∧
    (checkBlock exNames exTaskFailed exEmpty ParentTask (goStr "B") exCheckCancelled).1.data
        (dataKey exTaskFailed ParentTask (goStr "B") taskstatus) = some (Val.status TsCancel) :=
  ⟨rfl, rfl, rfl, by decide,
    ((checkBlock_cancelled exNames exTaskFailed exEmpty ParentTask (goStr "B") exCheckCancelled
      (GetMsgErr 10601) exTask rfl rfl rfl).1 (by decide)).1⟩

/-- C5 fails on the code: parent `B` ends its stream normally with exit code 2
while parent `A` is already recorded as the first failure; `runTask` returns
the judgement error and the status of `B` is left at `Run`. -/
theorem failed_task_left_running :
    (runTask exNames ParentTask (goStr "B")
        [exAttempt [goStr "bad\n    2"] RecvEnd.eof false] exTaskFailed exEmpty).2.2
      = Outcome.returned (some (GoError.text
          (goStr "type1 task B[nightly] resp code is 2,want resp code 0"))) ∧
    (runTask exNames ParentTask (goStr "B")
        [exAttempt [goStr "bad\n    2"] RecvEnd.eof false] exTaskFailed exEmpty).1.data
      (dataKey exTaskFailed ParentTask (goStr "B") taskstatus) = some (Val.status TsRun) := by
  decide

/-! ## The membership list -/

theorem goStr_colon : goStr ":" = [58] := by decide

theorem dataKey_eq_taskinfos_append (t : Task2) (taskruntype : TaskRespType)
    (realid setdata : Bytes) :
    dataKey t taskruntype realid setdata =
      taskinfosKey t ++ (58 :: (Itoa (taskruntype : Int) ++ 58 :: (realid ++ 58 :: setdata))) := by
  simp [dataKey, taskinfosKey, goStr_colon, List.append_assoc]

theorem dataKey_ne_taskinfos (t : Task2) (taskruntype : TaskRespType) (realid setdata : Bytes) :
    dataKey t taskruntype realid setdata ≠ taskinfosKey t := by
  rw [dataKey_eq_taskinfos_append]
  intro h
  have := List.append_right_eq_self.mp h
  simp at this

theorem addtaskinfo_list (t : Task2) (r : Redis) (taskruntype : TaskRespType) (realid : Bytes)
    (l : List Bytes) (h : ListState t r l) :
    (addtaskinfo t r taskruntype realid).2.2 = none ∧
    (addtaskinfo t r taskruntype realid).1 = { t with onceDone := true } ∧
    (addtaskinfo t r taskruntype realid).2.1.data (taskinfosKey t)
      = some (Val.list (l ++ [phaseKey t taskruntype realid])) := by
  have hne1 := dataKey_ne_taskinfos t taskruntype realid taskstatus
  have hne2 := dataKey_ne_taskinfos t taskruntype realid taskrealtasklog
  have hne1s : taskinfosKey t ≠ dataKey t taskruntype realid taskstatus := fun e => hne1 e.symm
  have hne2s : taskinfosKey t ≠ dataKey t taskruntype realid taskrealtasklog := fun e => hne2 e.symm
  rcases h with ⟨hd, hl⟩ | ⟨hd, hl⟩
  · simp [addtaskinfo, hd, Redis.RPush, hl, setdata, Redis.Set, Redis.Del, hne1s, hne2s]
  · subst hl
    simp [addtaskinfo, hd, Redis.RPush, setdata, Redis.Set, Redis.Del, hne1s, hne2s]

theorem addtaskinfos_list (taskruntype : TaskRespType) (ids : List Bytes) (t : Task2) (r : Redis)
    (l : List Bytes) (h : ListState t r l) :
    (addtaskinfos taskruntype ids t r).2.2 = none ∧
    (addtaskinfos taskruntype ids t r).1.id = t.id ∧
    ListState (addtaskinfos taskruntype ids t r).1 (addtaskinfos taskruntype ids t r).2.1
      (l ++ ids.map (phaseKey t taskruntype)) := by
  induction ids generalizing t r l with
  | nil => simpa [addtaskinfos] using h
  | cons a rest ih =>
    obtain ⟨h1, h2, h3⟩ := addtaskinfo_list t r taskruntype a l h
    have hs : ListState (addtaskinfo t r taskruntype a).1 (addtaskinfo t r taskruntype a).2.1
        (l ++ [phaseKey t taskruntype a]) := by
      left
      rw [h2]
      exact ⟨rfl, h3⟩
    have hid : (addtaskinfo t r taskruntype a).1.id = t.id := by rw [h2]
    have hk : phaseKey (addtaskinfo t r taskruntype a).1 taskruntype = phaseKey t taskruntype := by
      funext x; simp [phaseKey, hid]
    obtain ⟨i1, i2, i3⟩ := ih _ _ _ hs
    unfold addtaskinfos
    rcases hres : addtaskinfo t r taskruntype a with ⟨t1, r1, e⟩
    rw [hres] at h1 i1 i2 i3 hid hk
    simp only at h1
    subst h1
    simp only
    refine ⟨i1, i2.trans hid, ?_⟩
    rw [hk] at i3
    simpa [List.append_assoc] using i3

/-- C7. After the initialisation loop of `StartRun`, whatever the key `task:<id>`
held before, no command has failed and the membership list is exactly the
PhaseKeys of the parents in order, then the master, then the children in
order; it has one member per parent, one for the master and one per child. -/
theorem initTaskinfos_membership (t : Task2) (r : Redis) (task : GetTask) :
    (initTaskinfos t r task).2.2 = none ∧
    (initTaskinfos t r task).2.1.data (taskinfosKey t) =
      some (Val.list (task.ParentTaskIds.map (phaseKey t ParentTask) ++
        [phaseKey t MasterTask t.id] ++ task.ChildTaskIds.map (phaseKey t ChildTask))) ∧
    (task.ParentTaskIds.map (phaseKey t ParentTask) ++
        [phaseKey t MasterTask t.id] ++ task.ChildTaskIds.map (phaseKey t ChildTask)).length
      = task.ParentTaskIds.length + 1 + task.ChildTaskIds.length := by
  have hlen : (task.ParentTaskIds.map (phaseKey t ParentTask) ++
        [phaseKey t MasterTask t.id] ++ task.ChildTaskIds.map (phaseKey t ChildTask)).length
      = task.ParentTaskIds.length + 1 + task.ChildTaskIds.length := by
    simp only [List.length_append, List.length_map, List.length_singleton]
  have h0 : ListState { t with onceDone := false } r [] := Or.inr ⟨rfl, rfl⟩
  obtain ⟨p1, p2, p3⟩ := addtaskinfos_list ParentTask task.ParentTaskIds _ r [] h0
  unfold initTaskinfos
  dsimp only
  split
  · rename_i t1 r1 e hp
    rw [hp] at p1
    simp at p1
  · rename_i t1 r1 hp
    rw [hp] at p2 p3
    dsimp only at p2 p3
    obtain ⟨m1, m2, m3⟩ := addtaskinfo_list t1 r1 MasterTask t1.id _ p3
    split
    · rename_i t2 r2 e hm
      rw [hm] at m1
      simp at m1
    · rename_i t2 r2 hm
      rw [hm] at m2 m3
      dsimp only at m2 m3
      have hs : ListState t2 r2
          (([] ++ task.ParentTaskIds.map (phaseKey { t with onceDone := false } ParentTask)) ++
            [phaseKey t1 MasterTask t1.id]) := by
        left
        refine ⟨by rw [m2], ?_⟩
        have : taskinfosKey t2 = taskinfosKey t1 := by rw [m2]; rfl
        rw [this]
        exact m3
      obtain ⟨c1, c2, c3⟩ := addtaskinfos_list ChildTask task.ChildTaskIds t2 r2 _ hs
      refine ⟨c1, ?_, hlen⟩
      have hid2 : t2.id = t.id := by rw [m2]; exact p2
      have hk1 : phaseKey { t with onceDone := false } ParentTask = phaseKey t ParentTask := rfl
      have hk2 : phaseKey t1 MasterTask t1.id = phaseKey t MasterTask t.id := by
        simp [phaseKey, p2]
      have hk3 : phaseKey t2 ChildTask = phaseKey t ChildTask := by
        funext x; simp [phaseKey, hid2]
      have hkey : taskinfosKey (addtaskinfos ChildTask task.ChildTaskIds t2 r2).1
          = taskinfosKey t := by
        simp [taskinfosKey, c2, hid2]
      rw [hk1, hk2, hk3] at c3
      rcases c3 with ⟨_, hd⟩ | ⟨_, hnil⟩
      · rw [hkey] at hd
        simpa using hd
      · simp at hnil

/-! ## Cleaning and composing the run log -/

/-- C8 fails on the code: for the run of `T` with parents `A`, `B` and child `C` the
membership list has four members; `cleantaskinfos` reads only the first two
(`LRANGE key 0 1`), so after the clean-up the list and the entries of `A` and
`B` are gone, while the status keys of the master `T` and of the child `C`
are still in the store. -/
theorem cleantaskinfos_leaves_keys :
    (savetasklog exNames exTask exRunStore 1577836801000000000).2.2 = none ∧
    (savetasklog exNames exTask exRunStore 1577836801000000000).1
      = cleantaskinfos exTask exRunStore ∧
    (cleantaskinfos exTask exRunStore).data (taskinfosKey exTask) = none ∧
    (cleantaskinfos exTask exRunStore).data (dataKey exTask ParentTask (goStr "A") taskstatus)
      = none ∧
    (cleantaskinfos exTask exRunStore).data (dataKey exTask ParentTask (goStr "B") taskstatus)
      = none ∧
    (cleantaskinfos exTask exRunStore).data (dataKey exTask MasterTask (goStr "T") taskstatus)
      = some (Val.status TsWait) ∧
    (cleantaskinfos exTask exRunStore).data (dataKey exTask ChildTask (goStr "C") taskstatus)
      = some (Val.status TsWait) := by
  refine ⟨by decide, rfl, by decide, by decide, by decide, by decide, by decide⟩

theorem tdiv_million_bound (a : Int) (hlo : -9223372036854775808 ≤ a)
    (hhi : a ≤ 9223372036854775807) :
    -9223372036854 ≤ Int.tdiv a 1000000 ∧ Int.tdiv a 1000000 ≤ 9223372036854 := by
  by_cases h : 0 ≤ a
  · rw [Int.tdiv_eq_ediv h (by norm_num)]
    omega
  · have e : a = -(-a) := by omega
    rw [e, Int.neg_tdiv, Int.tdiv_eq_ediv (by omega) (by norm_num)]
    omega

theorem wrapInt64_id (x : Int) (hlo : -9223372036854775808 ≤ x) (hhi : x ≤ 9223372036854775807) :
    wrapInt64 x = x := by
  unfold wrapInt64
  omega

/-- C10. Whenever the inventory record and the membership list of the run can be
read, and the start time of the record and the current time are readings of
the millisecond clock `UnixNano() / 1e6`, `savetasklog` composes a run log whose
`Status` is 1 if the first-failure record is empty and -1 otherwise, whose
error fields are those of the first-failure record, and whose `TotalRunTime`
is `EndTime - StartTime`. -/
theorem savetasklog_header (nm : Names) (t : Task2) (r : Redis) (nowNano startNano : Int)
    (runtask : RunTask) (tasks : List Bytes)
    (hrun : getruntaskdata t r = .ok runtask)
    (hlist : gettaskinfos t r = .ok tasks)
    (hnow : -9223372036854775808 ≤ nowNano ∧ nowNano ≤ 9223372036854775807)
    (hstart : -9223372036854775808 ≤ startNano ∧ startNano ≤ 9223372036854775807)
    (hrec : runtask.StartTime = Int.tdiv startNano 1000000) :
    ∃ log : Log, (savetasklog nm t r nowNano).2.1 = some log ∧
      log.Status = (if t.errTaskID = [] then 1 else -1) ∧
      log.ErrTaskID = t.errTaskID ∧ log.ErrTask = t.errTask ∧ log.ErrCode = t.errCode ∧
      log.ErrMsg = t.errMsg ∧ log.ErrTasktype = t.errTasktype ∧
      log.StartTime = runtask.StartTime ∧ log.EndTime = Int.tdiv nowNano 1000000 ∧
      log.TotalRunTime = log.EndTime - log.StartTime := by
  have b1 := tdiv_million_bound nowNano hnow.1 hnow.2
  have b2 := tdiv_million_bound startNano hstart.1 hstart.2
  unfold savetasklog
  simp only [hrun, hlist]
  refine ⟨_, rfl, rfl, rfl, rfl, rfl, rfl, rfl, rfl, rfl, ?_⟩
  simp only
  rw [hrec]
  exact wrapInt64_id _ (by omega) (by omega)

/-- C10 at the end of the run of `T` one second after its start, with parent `A`
recorded as the first failure. -/
theorem savetasklog_header_witness :
    getruntaskdata exTaskFailed exRunStore =
      .ok { ID := goStr "T", Name := goStr "nightly", Cronexpr := goStr "0 0 * * *",
            StartTime := 1577836800000, Trigger := 1 } ∧
    (1577836800000 : Int) = Int.tdiv 1577836800000000000 1000000 ∧
    (∃ log : Log,
      (savetasklog exNames exTaskFailed exRunStore 1577836801000000000).2.1 = some log ∧
      log.Status = -1 ∧ log.ErrTaskID = goStr "A" ∧ log.TotalRunTime = 1000) := by
  refine ⟨by decide, by decide, ?_⟩
  obtain ⟨log, h1, h2, h3, _, _, _, _, h8, h9, h10⟩ :=
    savetasklog_header exNames exTaskFailed exRunStore 1577836801000000000 1577836800000000000
      { ID := goStr "T", Name := goStr "nightly", Cronexpr := goStr "0 0 * * *",
        StartTime := 1577836800000, Trigger := 1 }
      [phaseKey exTask ParentTask (goStr "A"), phaseKey exTask ParentTask (goStr "B"),
        phaseKey exTask MasterTask (goStr "T"), phaseKey exTask ChildTask (goStr "C")]
      (by decide) (by decide) (by decide) (by decide) (by decide)
  refine ⟨log, h1, ?_, ?_, ?_⟩
  · rw [h2]; decide
  · rw [h3]; rfl
  · rw [h10, h9, h8]; decide

/-! ## Key names -/

theorem dataKey_getLast (t : Task2) (taskruntype : TaskRespType) (realid setdata : Bytes)
    (h : setdata ≠ []) :
    (dataKey t taskruntype realid setdata).getLast? = setdata.getLast? := by
  unfold dataKey
  rw [List.getLast?_append]
  cases hs : setdata.getLast? with
  | none => simp [List.getLast?_eq_none_iff] at hs; exact absurd hs h
  | some x => simp

theorem statusKey_ne_logKey (t : Task2) (a c : TaskRespType) (b d : Bytes) :
    dataKey t a b taskstatus ≠ dataKey t c d taskrealtasklog := by
  intro h
  have h1 := congrArg List.getLast? h
  rw [dataKey_getLast _ _ _ _ (by decide), dataKey_getLast _ _ _ _ (by decide)] at h1
  revert h1
  decide

theorem statusKey_ne_respKey (t : Task2) (a c : TaskRespType) (b d : Bytes) :
    dataKey t a b taskstatus ≠ dataKey t c d taskresp := by
  intro h
  have h1 := congrArg List.getLast? h
  rw [dataKey_getLast _ _ _ _ (by decide), dataKey_getLast _ _ _ _ (by decide)] at h1
  revert h1
  decide

theorem respKey_ne_logKey (t : Task2) (a c : TaskRespType) (b d : Bytes) :
    dataKey t a b taskresp ≠ dataKey t c d taskrealtasklog := by
  intro h
  have h1 := congrArg List.getLast? h
  rw [dataKey_getLast _ _ _ _ (by decide), dataKey_getLast _ _ _ _ (by decide)] at h1
  revert h1
  decide

theorem append_colon_inj (a b x y : Bytes) (ha : 58 ∉ a) (hb : 58 ∉ b)
    (h : a ++ 58 :: x = b ++ 58 :: y) : a = b ∧ x = y := by
  induction a generalizing b with
  | nil =>
    cases b with
    | nil => simpa using h
    | cons c b1 =>
      simp only [List.nil_append, List.cons_append, List.cons.injEq] at h
      exact absurd (by rw [← h.1]; simp) hb
  | cons c a1 ih =>
    cases b with
    | nil =>
      simp only [List.nil_append, List.cons_append, List.cons.injEq] at h
      exact absurd (by rw [h.1]; simp) ha
    | cons d b1 =>
      simp only [List.cons_append, List.cons.injEq] at h
      obtain ⟨e1, e2⟩ := ih b1 (fun m => ha (List.mem_cons_of_mem _ m))
        (fun m => hb (List.mem_cons_of_mem _ m)) h.2
      exact ⟨by rw [h.1, e1], e2⟩

theorem Itoa_nat (n : Nat) : Itoa (n : Int) = natDigits (n + 1) n := by
  unfold Itoa
  have : ¬ ((n : Int) < 0) := by omega
  simp [this]

theorem not_mem_natDigits (b : Nat) (hb : isDigit b = false) (fuel n : Nat) :
    b ∉ natDigits fuel n := by
  intro h
  have hd := natDigits_all_digit fuel n
  rw [List.all_eq_true] at hd
  rw [hd b h] at hb
  exact Bool.noConfusion hb

/-- The decimal representation of an integer, negative or not, holds no `:`. -/
theorem colon_not_mem_Itoa (n : Int) : 58 ∉ Itoa n := by
  have h58 := not_mem_natDigits 58 (by decide) (n.natAbs + 1) n.natAbs
  unfold Itoa
  split
  · intro h
    rcases List.mem_cons.mp h with e | e
    · exact absurd e (by decide)
    · exact h58 e
  · exact h58

/-- Different integers have different decimal representations. -/
theorem Itoa_inj (m n : Int) (h : Itoa m = Itoa n) : m = n := by
  have hm45 := not_mem_natDigits 45 (by decide) (m.natAbs + 1) m.natAbs
  have hn45 := not_mem_natDigits 45 (by decide) (n.natAbs + 1) n.natAbs
  unfold Itoa at h
  by_cases h1 : m < 0 <;> by_cases h2 : n < 0
  · simp only [h1, h2, if_true, List.cons.injEq, true_and] at h
    have h3 := congrArg digitsVal h
    rw [digitsVal_natDigits _ _ (Nat.lt_succ_self _),
      digitsVal_natDigits _ _ (Nat.lt_succ_self _)] at h3
    omega
  · simp only [h1, h2, if_true, if_false] at h
    exact absurd (by rw [← h]; exact List.mem_cons_self _ _) hn45
  · simp only [h1, h2, if_true, if_false] at h
    exact absurd (by rw [h]; exact List.mem_cons_self _ _) hm45
  · simp only [h1, h2, if_false] at h
    have h3 := congrArg digitsVal h
    rw [digitsVal_natDigits _ _ (Nat.lt_succ_self _),
      digitsVal_natDigits _ _ (Nat.lt_succ_self _)] at h3
    omega

/-- Two PhaseKeys of one run have the same status key only if they have the same
phase and the same task id. -/
theorem statusKey_inj (t : Task2) (a c : TaskRespType) (b d : Bytes)
    (h : dataKey t a b taskstatus = dataKey t c d taskstatus) : a = c ∧ b = d := by
  rw [dataKey_eq_taskinfos_append, dataKey_eq_taskinfos_append] at h
  have h1 := List.append_cancel_left h
  simp only [List.cons.injEq, true_and] at h1
  obtain ⟨e1, e2⟩ := append_colon_inj _ _ _ _ (colon_not_mem_Itoa a)
    (colon_not_mem_Itoa c) h1
  refine ⟨Itoa_inj a c e1, ?_⟩
  have e3 : b ++ (58 :: taskstatus) = d ++ (58 :: taskstatus) := e2
  exact List.append_cancel_right e3

/-! ## Status writes of one task -/

theorem statusWrites_append (k : Bytes) (a b : List Op) :
    statusWrites k (a ++ b) = statusWrites k a ++ statusWrites k b := by
  simp [statusWrites, List.filterMap_append]

theorem dataKey_congr (t1 t2 : Task2) (h : t1.id = t2.id) (taskruntype : TaskRespType)
    (realid setdata : Bytes) :
    dataKey t1 taskruntype realid setdata = dataKey t2 taskruntype realid setdata := by
  simp [dataKey, h]

theorem statusWrites_set_status (k : Bytes) (t : Task2) (r : Redis) (taskruntype : TaskRespType)
    (id : Bytes) (st : TaskStatus) :
    statusWrites k (setdataQuiet t r taskruntype id (Data.status st) taskstatus).hist =
      statusWrites k r.hist ++
        (if dataKey t taskruntype id taskstatus = k then [some st] else []) := by
  simp only [setdataQuiet, setdata, if_true, Redis.Set, statusWrites_append]
  by_cases h : dataKey t taskruntype id taskstatus = k <;> simp [statusWrites, h]

theorem statusWrites_set_resp (k : Bytes) (t : Task2) (r : Redis) (taskruntype : TaskRespType)
    (id : Bytes) (x : TaskResp) (hk : dataKey t taskruntype id taskresp ≠ k) :
    statusWrites k (setdataQuiet t r taskruntype id (Data.resp x) taskresp).hist =
      statusWrites k r.hist := by
  have h1 : taskresp ≠ taskstatus := by decide
  simp [setdataQuiet, setdata, h1, Redis.Set, statusWrites_append, statusWrites, hk]

theorem statusWrites_writelog (k : Bytes) (t : Task2) (r : Redis) (taskruntype : TaskRespType)
    (id v : Bytes) (hk : dataKey t taskruntype id taskrealtasklog ≠ k) :
    statusWrites k (writelog t r taskruntype id v).hist = statusWrites k r.hist := by
  have h1 : taskrealtasklog ≠ taskstatus := by decide
  have h2 : taskrealtasklog ≠ taskresp := by decide
  unfold writelog setdataQuiet setdata
  simp only [h1, h2, if_false, if_true, Redis.RPush]
  cases hd : r.data (dataKey t taskruntype id taskrealtasklog) with
  | none => simp [statusWrites_append, statusWrites, hk]
  | some v1 => cases v1 <;> simp [statusWrites_append, statusWrites, hk]

theorem statusWrites_writelogt (k : Bytes) (t : Task2) (r : Redis) (taskruntype : TaskRespType)
    (id v : Bytes) (hk : dataKey t taskruntype id taskrealtasklog ≠ k) :
    statusWrites k (writelogt t r taskruntype id v).hist = statusWrites k r.hist :=
  statusWrites_writelog k t r taskruntype id v hk

theorem statusWrites_recvFrames (k : Bytes) (t : Task2) (taskruntype : TaskRespType) (id : Bytes)
    (frames : List Bytes) (r : Redis) (output : Bytes)
    (hk : dataKey t taskruntype id taskrealtasklog ≠ k) :
    statusWrites k (recvFrames t taskruntype id frames r output).1.hist = statusWrites k r.hist := by
  induction frames generalizing r output with
  | nil => rfl
  | cons f fs ih =>
    unfold recvFrames
    rw [ih, statusWrites_writelog k t r taskruntype id f hk]

theorem checkBlock_statusWrites (nm : Names) (k : Bytes) (t : Task2) (r : Redis)
    (taskruntype : TaskRespType) (id : Bytes) (c : CheckIn)
    (hlog : dataKey t taskruntype id taskrealtasklog ≠ k)
    (hresp : dataKey t taskruntype id taskresp ≠ k) :
    (checkBlock nm t r taskruntype id c).2.1.id = t.id ∧
    ∃ term : List (Option TaskStatus),
      statusWrites k (checkBlock nm t r taskruntype id c).1.hist =
        statusWrites k r.hist ++
          (if dataKey t taskruntype id taskstatus = k then term else []) ∧
      Terminal term := by
  unfold checkBlock
  cases c.realtask with
  | none => exact ⟨rfl, [], by simp, Or.inl rfl⟩
  | some realtask =>
    dsimp only
    split
    · refine ⟨rfl, [some TsCancel], ?_, by simp [Terminal]⟩
      rw [statusWrites_set_status, statusWrites_writelogt _ _ _ _ _ _ hlog,
        statusWrites_set_resp _ _ _ _ _ _ hresp]
    · cases judgeAt nm taskruntype id c with
      | none =>
        refine ⟨rfl, [], ?_, Or.inl rfl⟩
        simp [statusWrites_set_resp _ _ _ _ _ _ hresp]
      | some j =>
        cases j with
        | none =>
          refine ⟨rfl, [some TsFinish], ?_, by simp [Terminal]⟩
          dsimp only
          rw [statusWrites_set_status, statusWrites_set_resp _ _ _ _ _ _ hresp]
        | some e =>
          dsimp only
          split
          · refine ⟨rfl, [some TsFail], ?_, by simp [Terminal]⟩
            dsimp only
            rw [statusWrites_set_status, statusWrites_set_resp _ _ _ _ _ _ hresp]
            rfl
          · refine ⟨rfl, [], ?_, Or.inl rfl⟩
            simp [statusWrites_set_resp _ _ _ _ _ _ hresp]


theorem checkBlock_after_run (nm : Names) (k : Bytes) (t : Task2) (r r1 : Redis)
    (taskruntype : TaskRespType) (id : Bytes) (c : CheckIn)
    (hlog : dataKey t taskruntype id taskrealtasklog ≠ k)
    (hresp : dataKey t taskruntype id taskresp ≠ k)
    (hpre : statusWrites k r1.hist = statusWrites k r.hist ++
      (if dataKey t taskruntype id taskstatus = k then [some TsRun] else [])) :
    (checkBlock nm t r1 taskruntype id c).2.1.id = t.id ∧
    ∃ (n : Nat) (term : List (Option TaskStatus)),
      statusWrites k (checkBlock nm t r1 taskruntype id c).1.hist =
        statusWrites k r.hist ++
          (if dataKey t taskruntype id taskstatus = k
            then List.replicate n (some TsRun) ++ term else []) ∧
      Terminal term ∧ 1 ≤ n := by
  obtain ⟨h1, term, h2, h3⟩ := checkBlock_statusWrites nm k t r1 taskruntype id c hlog hresp
  refine ⟨h1, 1, term, ?_, h3, le_refl 1⟩
  rw [h2, hpre]
  by_cases hown : dataKey t taskruntype id taskstatus = k <;> simp [hown]

/-- The status writes of one invocation of `runTask`, retries included, on a status
key `k`: nothing when `k` is not the key of the task, and otherwise `Run` once
per invocation followed by at most one final status. -/
theorem runTask_statusWrites (nm : Names) (k : Bytes) (taskruntype : TaskRespType) (id : Bytes)
    (attempts : List Attempt) (t : Task2) (r : Redis)
    (hlog : dataKey t taskruntype id taskrealtasklog ≠ k)
    (hresp : dataKey t taskruntype id taskresp ≠ k) :
    (runTask nm taskruntype id attempts t r).2.1.id = t.id ∧
    ∃ (n : Nat) (term : List (Option TaskStatus)),
      statusWrites k (runTask nm taskruntype id attempts t r).1.hist =
        statusWrites k r.hist ++
          (if dataKey t taskruntype id taskstatus = k
            then List.replicate n (some TsRun) ++ term else []) ∧
      Terminal term ∧ (attempts ≠ [] → 1 ≤ n) := by
  induction attempts generalizing r with
  | nil =>
    refine ⟨rfl, 0, [], ?_, Or.inl rfl, fun h => absurd rfl h⟩
    simp [runTask]
  | cons a rest ih =>
    have hrun := statusWrites_set_status k t r taskruntype id TsRun
    have wrap : ∀ (r1 : Redis) (c : CheckIn),
        statusWrites k r1.hist = statusWrites k r.hist ++
          (if dataKey t taskruntype id taskstatus = k then [some TsRun] else []) →
        (checkBlock nm t r1 taskruntype id c).2.1.id = t.id ∧
        ∃ (n : Nat) (term : List (Option TaskStatus)),
          statusWrites k (checkBlock nm t r1 taskruntype id c).1.hist =
            statusWrites k r.hist ++
              (if dataKey t taskruntype id taskstatus = k
                then List.replicate n (some TsRun) ++ term else []) ∧
          Terminal term ∧ (a :: rest ≠ [] → 1 ≤ n) := by
      intro r1 c hpre
      obtain ⟨h1, n, term, h2, h3, h4⟩ :=
        checkBlock_after_run nm k t r r1 taskruntype id c hlog hresp hpre
      exact ⟨h1, n, term, h2, h3, fun _ => h4⟩
    unfold runTask
    dsimp only
    split
    · exact wrap _ _ (by rw [statusWrites_writelogt _ _ _ _ _ _ hlog, hrun])
    · split
      · exact wrap _ _ (by rw [statusWrites_writelogt _ _ _ _ _ _ hlog, hrun])
      · split
        · exact wrap _ _ (by rw [statusWrites_writelogt _ _ _ _ _ _ hlog, hrun])
        · split
          · exact wrap _ _ (by
              rw [statusWrites_writelogt _ _ _ _ _ _ hlog,
                statusWrites_writelogt _ _ _ _ _ _ hlog, hrun])
          · split
            · exact wrap _ _ (by
                rw [statusWrites_writelogt _ _ _ _ _ _ hlog,
                  statusWrites_writelogt _ _ _ _ _ _ hlog, hrun])
            · split
              · exact wrap _ _ (by
                  rw [statusWrites_recvFrames _ _ _ _ _ _ _ hlog,
                    statusWrites_writelogt _ _ _ _ _ _ hlog,
                    statusWrites_writelogt _ _ _ _ _ _ hlog, hrun])
              · split
                · obtain ⟨h1, n, term, h2, h3, _⟩ := ih
                    (writelogt t (recvFrames t taskruntype id a.frames
                      (writelogt t (writelogt t
                        (setdataQuiet t r taskruntype id (Data.status TsRun) taskstatus)
                        taskruntype id (a.line LogSite.start)) taskruntype id
                        (a.line LogSite.output)) []).1 taskruntype id (a.line LogSite.workerDown))
                  refine ⟨h1, n + 1, term, ?_, h3, fun _ => Nat.succ_le_succ (Nat.zero_le n)⟩
                  rw [h2, statusWrites_writelogt _ _ _ _ _ _ hlog,
                    statusWrites_recvFrames _ _ _ _ _ _ _ hlog,
                    statusWrites_writelogt _ _ _ _ _ _ hlog,
                    statusWrites_writelogt _ _ _ _ _ _ hlog, hrun]
                  by_cases hown : dataKey t taskruntype id taskstatus = k
                  · simp [hown, List.replicate_succ]
                  · simp [hown]
                · exact wrap _ _ (by
                    rw [statusWrites_writelogt _ _ _ _ _ _ hlog,
                      statusWrites_recvFrames _ _ _ _ _ _ _ hlog,
                      statusWrites_writelogt _ _ _ _ _ _ hlog,
                      statusWrites_writelogt _ _ _ _ _ _ hlog, hrun])


theorem statusKey_eq_iff (t t0 : Task2) (hid : t.id = t0.id) (a c : TaskRespType) (b d : Bytes) :
    dataKey t a b taskstatus = dataKey t0 c d taskstatus ↔ (a, b) = (c, d) := by
  rw [dataKey_congr t t0 hid]
  constructor
  · intro h
    obtain ⟨h1, h2⟩ := statusKey_inj t0 a c b d h
    rw [h1, h2]
  · intro h
    rw [Prod.mk.injEq] at h
    rw [h.1, h.2]

/-- The status writes of the tasks of a run on the status key of the PhaseKey
`(typ0, id0)`, when no PhaseKey is scheduled twice: the writes of its own
invocation, if it is scheduled, and nothing else. -/
theorem runScheduled_statusWrites (nm : Names) (t0 : Task2) (typ0 : TaskRespType) (id0 : Bytes)
    (sched : List Scheduled) (t : Task2) (r : Redis) (hid : t.id = t0.id)
    (hnodup : (sched.map (fun s => (s.taskruntype, s.id))).Nodup) :
    (runScheduled nm sched t r).1.id = t0.id ∧
    ∃ (n : Nat) (term : List (Option TaskStatus)),
      statusWrites (dataKey t0 typ0 id0 taskstatus) (runScheduled nm sched t r).2.hist =
        statusWrites (dataKey t0 typ0 id0 taskstatus) r.hist ++
          List.replicate n (some TsRun) ++ term ∧
      Terminal term ∧
      (∀ s ∈ sched, s.taskruntype = typ0 → s.id = id0 → s.attempts ≠ [] → 1 ≤ n) ∧
      ((typ0, id0) ∉ sched.map (fun s => (s.taskruntype, s.id)) → n = 0 ∧ term = []) := by
  induction sched generalizing t r with
  | nil =>
    refine ⟨hid, 0, [], by simp [runScheduled], Or.inl rfl, ?_, fun _ => ⟨rfl, rfl⟩⟩
    intro s hs
    simp at hs
  | cons s rest ih =>
    rw [List.map_cons, List.nodup_cons] at hnodup
    have hlog : dataKey t s.taskruntype s.id taskrealtasklog ≠ dataKey t0 typ0 id0 taskstatus := by
      rw [dataKey_congr t t0 hid]
      exact fun h => statusKey_ne_logKey t0 typ0 s.taskruntype id0 s.id h.symm
    have hresp : dataKey t s.taskruntype s.id taskresp ≠ dataKey t0 typ0 id0 taskstatus := by
      rw [dataKey_congr t t0 hid]
      exact fun h => statusKey_ne_respKey t0 typ0 s.taskruntype id0 s.id h.symm
    obtain ⟨h1, n1, term1, h2, h3, h4⟩ :=
      runTask_statusWrites nm (dataKey t0 typ0 id0 taskstatus) s.taskruntype s.id s.attempts t r
        hlog hresp
    obtain ⟨i1, n2, term2, i2, i3, i4, i5⟩ :=
      ih (runTask nm s.taskruntype s.id s.attempts t r).2.1
        (runTask nm s.taskruntype s.id s.attempts t r).1 (h1.trans hid) hnodup.2
    unfold runScheduled
    dsimp only
    refine ⟨i1, ?_⟩
    by_cases hown : (s.taskruntype, s.id) = (typ0, id0)
    · have hk : dataKey t s.taskruntype s.id taskstatus = dataKey t0 typ0 id0 taskstatus :=
        (statusKey_eq_iff t t0 hid _ _ _ _).mpr hown
      have hnot : (typ0, id0) ∉ rest.map (fun s => (s.taskruntype, s.id)) := by
        rw [← hown]; exact hnodup.1
      obtain ⟨z1, z2⟩ := i5 hnot
      subst z1 z2
      refine ⟨n1, term1, ?_, h3, ?_, ?_⟩
      · rw [i2, h2]
        simp [hk]
      · intro s1 hs1 e1 e2 hne
        rcases List.mem_cons.mp hs1 with e | hmem
        · subst e
          exact h4 hne
        · exact absurd (List.mem_map.mpr ⟨s1, hmem, by rw [e1, e2]⟩) hnot
      · intro hn
        exact absurd (by rw [List.map_cons, hown]; exact List.mem_cons_self _ _) hn
    · have hk : ¬ dataKey t s.taskruntype s.id taskstatus = dataKey t0 typ0 id0 taskstatus :=
        fun h => hown ((statusKey_eq_iff t t0 hid _ _ _ _).mp h)
      refine ⟨n2, term2, ?_, i3, ?_, ?_⟩
      · rw [i2, h2]
        simp [hk]
      · intro s1 hs1 e1 e2 hne
        rcases List.mem_cons.mp hs1 with e | hmem
        · subst e
          exact absurd (by rw [e1, e2]) hown
        · exact i4 s1 hmem e1 e2 hne
      · intro hn
        apply i5
        intro hm
        exact hn (by rw [List.map_cons]; exact List.mem_cons_of_mem _ hm)

theorem addtaskinfo_statusWrites (t0 : Task2) (typ0 : TaskRespType) (id0 : Bytes) (t : Task2)
    (r : Redis) (taskruntype : TaskRespType) (realid : Bytes) (l : List Bytes)
    (hid : t.id = t0.id) (h : ListState t r l) :
    statusWrites (dataKey t0 typ0 id0 taskstatus) (addtaskinfo t r taskruntype realid).2.1.hist =
      statusWrites (dataKey t0 typ0 id0 taskstatus) r.hist ++
        List.replicate ([(taskruntype, realid)].count (typ0, id0)) (some TsWait) := by
  have hlog : dataKey t taskruntype realid taskrealtasklog ≠ dataKey t0 typ0 id0 taskstatus := by
    rw [dataKey_congr t t0 hid]
    exact fun h => statusKey_ne_logKey t0 typ0 taskruntype id0 realid h.symm
  have hinfo : taskinfosKey t ≠ dataKey t0 typ0 id0 taskstatus := by
    rw [← dataKey_congr t t0 hid]
    exact fun h => dataKey_ne_taskinfos t typ0 id0 taskstatus h.symm
  have hne1s : taskinfosKey t ≠ dataKey t taskruntype realid taskstatus :=
    fun e => dataKey_ne_taskinfos t taskruntype realid taskstatus e.symm
  have hiff := statusKey_eq_iff t t0 hid taskruntype typ0 realid id0
  by_cases hown : (taskruntype, realid) = (typ0, id0)
  · have hk := hiff.mpr hown
    rcases h with ⟨hd, hl⟩ | ⟨hd, hl⟩
    · simp [addtaskinfo, hd, Redis.RPush, hl, setdata, Redis.Set, Redis.Del, statusWrites_append,
        statusWrites, hlog, hinfo, hk, hown]
    · simp [addtaskinfo, hd, Redis.RPush, setdata, Redis.Set, Redis.Del, statusWrites_append,
        statusWrites, hlog, hinfo, hk, hown]
  · have hk : ¬ dataKey t taskruntype realid taskstatus = dataKey t0 typ0 id0 taskstatus :=
      fun e => hown (hiff.mp e)
    have hc : List.count (typ0, id0) [(taskruntype, realid)] = 0 := by
      rw [List.count_eq_zero]
      intro hm
      exact hown (List.mem_singleton.mp hm).symm
    rcases h with ⟨hd, hl⟩ | ⟨hd, hl⟩
    · simp [addtaskinfo, hd, Redis.RPush, hl, setdata, Redis.Set, Redis.Del, statusWrites_append,
        statusWrites, hlog, hinfo, hk, hc]
    · simp [addtaskinfo, hd, Redis.RPush, setdata, Redis.Set, Redis.Del, statusWrites_append,
        statusWrites, hlog, hinfo, hk, hc]

theorem addtaskinfos_statusWrites (t0 : Task2) (typ0 : TaskRespType) (id0 : Bytes)
    (taskruntype : TaskRespType) (ids : List Bytes) (t : Task2) (r : Redis) (l : List Bytes)
    (hid : t.id = t0.id) (h : ListState t r l) :
    statusWrites (dataKey t0 typ0 id0 taskstatus) (addtaskinfos taskruntype ids t r).2.1.hist =
      statusWrites (dataKey t0 typ0 id0 taskstatus) r.hist ++
        List.replicate ((ids.map (fun x => (taskruntype, x))).count (typ0, id0)) (some TsWait) := by
  induction ids generalizing t r l with
  | nil => simp [addtaskinfos]
  | cons a rest ih =>
    obtain ⟨h1, h2, h3⟩ := addtaskinfo_list t r taskruntype a l h
    have hw := addtaskinfo_statusWrites t0 typ0 id0 t r taskruntype a l hid h
    have hs : ListState (addtaskinfo t r taskruntype a).1 (addtaskinfo t r taskruntype a).2.1
        (l ++ [phaseKey t taskruntype a]) := by
      left
      rw [h2]
      exact ⟨rfl, h3⟩
    have hid1 : (addtaskinfo t r taskruntype a).1.id = t0.id := by rw [h2]; exact hid
    have hi := ih _ _ _ hid1 hs
    unfold addtaskinfos
    split
    · rename_i t1 r1 e he
      rw [he] at h1
      simp at h1
    · rename_i t1 r1 he
      rw [he] at hi hw
      dsimp only at hi hw
      have hcount : List.count (typ0, id0) (List.map (fun x => (taskruntype, x)) (a :: rest)) =
          List.count (typ0, id0) [(taskruntype, a)] +
            List.count (typ0, id0) (List.map (fun x => (taskruntype, x)) rest) := by
        rw [List.map_cons, ← List.count_append]
        rfl
      rw [hi, hw, List.append_assoc, ← List.replicate_add, hcount]

theorem initTaskinfos_statusWrites (t : Task2) (r : Redis) (task : GetTask)
    (typ0 : TaskRespType) (id0 : Bytes) :
    (initTaskinfos t r task).1.id = t.id ∧
    statusWrites (dataKey t typ0 id0 taskstatus) (initTaskinfos t r task).2.1.hist =
      statusWrites (dataKey t typ0 id0 taskstatus) r.hist ++
        List.replicate ((phases t task).count (typ0, id0)) (some TsWait) := by
  have h0 : ListState { t with onceDone := false } r [] := Or.inr ⟨rfl, rfl⟩
  have hid0 : ({ t with onceDone := false } : Task2).id = t.id := rfl
  obtain ⟨p1, p2, p3⟩ := addtaskinfos_list ParentTask task.ParentTaskIds _ r [] h0
  have pw := addtaskinfos_statusWrites t typ0 id0 ParentTask task.ParentTaskIds _ r [] hid0 h0
  unfold initTaskinfos
  dsimp only
  split
  · rename_i t1 r1 e hp
    rw [hp] at p1
    simp at p1
  · rename_i t1 r1 hp
    rw [hp] at p2 p3 pw
    dsimp only at p2 p3 pw
    obtain ⟨m1, m2, m3⟩ := addtaskinfo_list t1 r1 MasterTask t1.id _ p3
    have mw := addtaskinfo_statusWrites t typ0 id0 t1 r1 MasterTask t1.id _ p2 p3
    split
    · rename_i t2 r2 e hm
      rw [hm] at m1
      simp at m1
    · rename_i t2 r2 hm
      rw [hm] at m2 m3 mw
      dsimp only at m2 m3 mw
      have hid2 : t2.id = t.id := by rw [m2]; exact p2
      have hs : ListState t2 r2
          (([] ++ task.ParentTaskIds.map (phaseKey { t with onceDone := false } ParentTask)) ++
            [phaseKey t1 MasterTask t1.id]) := by
        left
        refine ⟨by rw [m2], ?_⟩
        have : taskinfosKey t2 = taskinfosKey t1 := by rw [m2]; rfl
        rw [this]
        exact m3
      obtain ⟨_, c2, _⟩ := addtaskinfos_list ChildTask task.ChildTaskIds t2 r2 _ hs
      have cw := addtaskinfos_statusWrites t typ0 id0 ChildTask task.ChildTaskIds t2 r2 _ hid2 hs
      refine ⟨c2.trans hid2, ?_⟩
      rw [cw, mw, pw, p2]
      unfold phases
      simp only [List.append_assoc, List.count_append, List.replicate_add]

theorem count_one_of_nodup {α : Type} [BEq α] [LawfulBEq α] (a : α) (l : List α)
    (d : l.Nodup) (h : a ∈ l) : l.count a = 1 := by
  induction l with
  | nil => simp at h
  | cons b tl ih =>
    rw [List.nodup_cons] at d
    by_cases e : b = a
    · subst e
      rw [List.count_cons_self, List.count_eq_zero.mpr d.1]
    · rw [List.count_cons_of_ne (fun x => e x.symm)]
      rcases List.mem_cons.mp h with h1 | h1
      · exact absurd h1.symm e
      · exact ih d.2 h1

theorem phaseList_nodup (ps cs : List Bytes) (m : Bytes) (hP : ps.Nodup) (hC : cs.Nodup) :
    (ps.map (fun x => (ParentTask, x)) ++ [(MasterTask, m)] ++
      cs.map (fun x => (ChildTask, x))).Nodup := by
  have inj : ∀ ty : TaskRespType, Function.Injective (fun x : Bytes => (ty, x)) := by
    intro ty a b h
    exact (Prod.mk.injEq _ _ _ _ ▸ h).2
  rw [List.nodup_append, List.nodup_append]
  refine ⟨⟨hP.map (inj ParentTask), List.nodup_singleton _, ?_⟩, hC.map (inj ChildTask), ?_⟩
  · intro x hx hx2
    obtain ⟨a, _, rfl⟩ := List.mem_map.mp hx
    have := List.mem_singleton.mp hx2
    simp [ParentTask, MasterTask] at this
  · intro x hx hx2
    obtain ⟨c, _, rfl⟩ := List.mem_map.mp hx2
    rcases List.mem_append.mp hx with h | h
    · obtain ⟨a, _, e⟩ := List.mem_map.mp h
      simp [ParentTask, ChildTask] at e
    · have := List.mem_singleton.mp h
      simp [MasterTask, ChildTask] at this

theorem phases_nodup (t : Task2) (task : GetTask) (hP : task.ParentTaskIds.Nodup)
    (hC : task.ChildTaskIds.Nodup) : (phases t task).Nodup :=
  phaseList_nodup _ _ _ hP hC

theorem handed_nodup (task : GetTask) (hP : task.ParentTaskIds.Nodup)
    (hC : task.ChildTaskIds.Nodup) : (handed task).Nodup :=
  phaseList_nodup _ _ _ hP hC

theorem nodup_of_subperm {α : Type} (l1 l2 : List α) (h : l1.Subperm l2) (d : l2.Nodup) :
    l1.Nodup := by
  obtain ⟨l, hperm, hsub⟩ := h
  exact hperm.nodup_iff.mp (d.sublist hsub)

/-- C6. In a run whose parent and child id lists have no repeated id, where the
invocations of `runTask` that take place are among those `StartRun` hands to
its error groups, in any order, the status values written to the status key
of any PhaseKey of the run, by the initialisation and by the invocations of
`runTask` with their worker-down retries, are: `Wait` once, then `Run` once per
entry into `runTask` (at least once if the task is invoked), then at most one
of `Finish`, `Fail`, `Cancel`; no other command touches the key. -/
theorem status_monotonic (nm : Names) (t : Task2) (r : Redis) (task : GetTask)
    (sched : List Scheduled) (typ0 : TaskRespType) (id0 : Bytes)
    (hP : task.ParentTaskIds.Nodup) (hC : task.ChildTaskIds.Nodup)
    (hmem : (typ0, id0) ∈ phases t task)
    (hsched : (sched.map (fun s => (s.taskruntype, s.id))).Subperm (handed task)) :
    ∃ (n : Nat) (term : List (Option TaskStatus)),
      statusWrites (dataKey t typ0 id0 taskstatus) (runPhases nm t r task sched).2.hist =
        statusWrites (dataKey t typ0 id0 taskstatus) r.hist ++
          [some TsWait] ++ List.replicate n (some TsRun) ++ term ∧
      Terminal term ∧
      (∀ s ∈ sched, s.taskruntype = typ0 → s.id = id0 → s.attempts ≠ [] → 1 ≤ n) := by
  have hcount : (phases t task).count (typ0, id0) = 1 :=
    count_one_of_nodup _ _ (phases_nodup t task hP hC) hmem
  obtain ⟨i1, i2⟩ := initTaskinfos_statusWrites t r task typ0 id0
  have i0 := (initTaskinfos_membership t r task).1
  rw [hcount] at i2
  unfold runPhases
  split
  · rename_i t1 r1 e he
    rw [he] at i0
    simp at i0
  · rename_i t1 r1 he
    rw [he] at i1 i2
    dsimp only at i1 i2
    obtain ⟨_, n, term, s2, s3, s4, _⟩ :=
      runScheduled_statusWrites nm t typ0 id0 sched (resetFirstFailure t1) r1 i1
        (nodup_of_subperm _ _ hsched (handed_nodup task hP hC))
    refine ⟨n, term, ?_, s3, s4⟩
    rw [s2, i2]
    rfl

/-- C6 at the run of `T` in which each of the four tasks is invoked once: the status
key of parent `A`. -/
theorem status_monotonic_witness :
    exDesc.ParentTaskIds.Nodup ∧ exDesc.ChildTaskIds.Nodup ∧
    (ParentTask, goStr "A") ∈ phases exTask exDesc ∧
    (exSched.map (fun s => (s.taskruntype, s.id))).Subperm (handed exDesc) ∧
    (∃ (n : Nat) (term : List (Option TaskStatus)),
      statusWrites (dataKey exTask ParentTask (goStr "A") taskstatus)
          (runPhases exNames exTask exEmpty exDesc exSched).2.hist =
        statusWrites (dataKey exTask ParentTask (goStr "A") taskstatus) exEmpty.hist ++
          [some TsWait] ++ List.replicate n (some TsRun) ++ term ∧
      Terminal term ∧ 1 ≤ n) := by
  have h1 : exDesc.ParentTaskIds.Nodup := by decide
  have h2 : exDesc.ChildTaskIds.Nodup := by decide
  have h3 : (ParentTask, goStr "A") ∈ phases exTask exDesc := by decide
  have h4 : (exSched.map (fun s => (s.taskruntype, s.id))).Subperm (handed exDesc) :=
    List.Subperm.refl _
  refine ⟨h1, h2, h3, h4, ?_⟩
  obtain ⟨n, term, e1, e2, e3⟩ :=
    status_monotonic exNames exTask exEmpty exDesc exSched ParentTask (goStr "A") h1 h2 h3 h4
  refine ⟨n, term, e1, e2, ?_⟩
  exact e3 { taskruntype := ParentTask, id := goStr "A",
             attempts := [exAttempt [goStr "ok\n    0"] RecvEnd.eof false] }
    (List.mem_cons_self _ _) rfl rfl (by simp)

/-! ## The log list of one task -/

theorem listAt_set_status (t : Task2) (r : Redis) (a c : TaskRespType) (b d : Bytes)
    (st : TaskStatus) :
    (setdataQuiet t r a b (Data.status st) taskstatus).listAt (dataKey t c d taskrealtasklog) =
      r.listAt (dataKey t c d taskrealtasklog) := by
  have h := statusKey_ne_logKey t a c b d
  have h1 : dataKey t c d taskrealtasklog ≠ dataKey t a b taskstatus := fun e => h e.symm
  simp [setdataQuiet, setdata, Redis.Set, Redis.listAt, h1]

theorem listAt_set_resp (t : Task2) (r : Redis) (a c : TaskRespType) (b d : Bytes)
    (x : TaskResp) :
    (setdataQuiet t r a b (Data.resp x) taskresp).listAt (dataKey t c d taskrealtasklog) =
      r.listAt (dataKey t c d taskrealtasklog) := by
  have h := respKey_ne_logKey t a c b d
  have h1 : dataKey t c d taskrealtasklog ≠ dataKey t a b taskresp := fun e => h e.symm
  have h2 : taskresp ≠ taskstatus := by decide
  simp [setdataQuiet, setdata, Redis.Set, Redis.listAt, h1, h2]

theorem listAt_writelog (t : Task2) (r : Redis) (taskruntype : TaskRespType) (id v : Bytes)
    (l : List Bytes) (h : r.listAt (dataKey t taskruntype id taskrealtasklog) = .ok l) :
    (writelog t r taskruntype id v).listAt (dataKey t taskruntype id taskrealtasklog)
      = .ok (l ++ [v]) := by
  have h1 : taskrealtasklog ≠ taskstatus := by decide
  have h2 : taskrealtasklog ≠ taskresp := by decide
  unfold Redis.listAt at h
  unfold writelog setdataQuiet setdata
  simp only [h1, h2, if_false, if_true, Redis.RPush]
  cases hd : r.data (dataKey t taskruntype id taskrealtasklog) with
  | none =>
    rw [hd] at h
    simp only [Except.ok.injEq] at h
    subst h
    simp [Redis.listAt]
  | some v1 =>
    rw [hd] at h
    cases v1 <;> simp at h
    subst h
    simp [Redis.listAt]

theorem listAt_writelogt (t : Task2) (r : Redis) (taskruntype : TaskRespType) (id v : Bytes)
    (l : List Bytes) (h : r.listAt (dataKey t taskruntype id taskrealtasklog) = .ok l) :
    (writelogt t r taskruntype id v).listAt (dataKey t taskruntype id taskrealtasklog)
      = .ok (l ++ [v]) :=
  listAt_writelog t r taskruntype id v l h

theorem listAt_recvFrames (t : Task2) (taskruntype : TaskRespType) (id : Bytes)
    (frames : List Bytes) (r : Redis) (output : Bytes) (l : List Bytes)
    (h : r.listAt (dataKey t taskruntype id taskrealtasklog) = .ok l) :
    (recvFrames t taskruntype id frames r output).1.listAt
      (dataKey t taskruntype id taskrealtasklog) = .ok (l ++ frames) := by
  induction frames generalizing r output l with
  | nil => simpa [recvFrames] using h
  | cons f fs ih =>
    unfold recvFrames
    rw [ih _ _ _ (listAt_writelog t r taskruntype id f l h)]
    simp

theorem LRange_all (r : Redis) (k : Bytes) (l : List Bytes) (h : r.listAt k = .ok l) :
    r.LRange k 0 (-1) = .ok l := by
  unfold Redis.LRange
  rw [h]
  simp only [normIndex]
  by_cases hl : l.length = 0
  · have : l = [] := List.length_eq_zero.mp hl
    subst this
    simp
  · have h1 : ¬ ((l.length : Int) + -1 < 0) := by omega
    have h2 : ¬ (min ((l.length : Int) + -1) ((l.length : Int) - 1) < max 0 0) := by omega
    have h3 : (min ((l.length : Int) + -1) ((l.length : Int) - 1) - max 0 0 + 1).toNat
        = l.length := by omega
    simp [h2, h3]

theorem LIndex_last_listAt (r : Redis) (k : Bytes) (earlier : List Bytes) (f : Bytes)
    (h : r.listAt k = .ok (earlier ++ [f])) :
    r.LIndex k (-1) = .ok f := by
  unfold Redis.LIndex
  rw [h]
  have hj : normIndex (earlier ++ [f]).length (-1) = (earlier.length : Int) := by
    simp [normIndex]
  simp only [hj]
  have : ¬ ((earlier.length : Int) < 0) := by omega
  simp [this]

theorem judgeAt_none_err (nm : Names) (taskruntype : TaskRespType) (id : Bytes) (c : CheckIn)
    (h : judgeAt nm taskruntype id c = some none) : c.err = none := by
  unfold judgeAt at h
  cases htd : c.taskdata with
  | none =>
    rw [htd] at h
    cases he : c.err with
    | none => rfl
    | some e => rw [he] at h; simp at h
  | some td =>
    rw [htd] at h
    simp only [Option.some.injEq] at h
    exact ((judgeres_eq_none_iff _ _ _ _ _ _ _).mp h).1

/-- A result composition that returns nil and leaves the status `Finish` took the
success branch: there was no error, the log list is untouched and the result
record holds the exit code. -/
theorem checkBlock_finish (nm : Names) (t : Task2) (r : Redis) (taskruntype : TaskRespType)
    (id : Bytes) (c : CheckIn)
    (hret : (checkBlock nm t r taskruntype id c).2.2 = Outcome.returned none)
    (hfin : (checkBlock nm t r taskruntype id c).1.data (dataKey t taskruntype id taskstatus)
      = some (Val.status TsFinish)) :
    c.err = none ∧ c.realtask ≠ none ∧
    (checkBlock nm t r taskruntype id c).1.listAt (dataKey t taskruntype id taskrealtasklog) =
      r.listAt (dataKey t taskruntype id taskrealtasklog) ∧
    ∃ x : TaskResp,
      (checkBlock nm t r taskruntype id c).1.data (dataKey t taskruntype id taskresp)
        = some (Val.resp x) ∧ x.Code = c.taskrespcode := by
  unfold checkBlock at hret hfin ⊢
  cases hrt : c.realtask with
  | none =>
    rw [hrt] at hret
    simp at hret
  | some realtask =>
    rw [hrt] at hret hfin
    dsimp only at hret hfin ⊢
    by_cases hc : takesCancel t c = true
    · rw [if_pos hc] at hfin
      rw [data_setdataQuiet_status] at hfin
      simp at hfin
    · rw [if_neg hc] at hret hfin ⊢
      cases hj : judgeAt nm taskruntype id c with
      | none =>
        rw [hj] at hret
        simp at hret
      | some j =>
        cases j with
        | some e =>
          rw [hj] at hret
          dsimp only at hret
          split at hret <;> simp at hret
        | none =>
          have hne : dataKey t taskruntype id taskresp ≠ dataKey t taskruntype id taskstatus :=
            fun e => statusKey_ne_respKey t taskruntype taskruntype id id e.symm
          have h2 : taskresp ≠ taskstatus := by decide
          refine ⟨judgeAt_none_err nm taskruntype id c hj, by simp, ?_, ?_⟩
          · dsimp only
            rw [listAt_set_status, listAt_set_resp]
          · refine ⟨{ TaskID := id, Task := realtask.name, LogData := [],
                      Code := c.taskrespcode, TaskType := taskruntype,
                      RunHost := c.conn.getD [], Status := [] }, ?_, rfl⟩
            simp [setdataQuiet, setdata, Redis.Set, hne, h2]

/-- The ways in which an invocation of `runTask` with at least one recorded
answer proceeds, with the log list it has built: it composes a result with an
error or without a cached task; or the stream ended with `io.EOF` and the
result is composed from the exit code read back; or it retries. -/
theorem runTask_cons_cases (nm : Names) (taskruntype : TaskRespType) (id : Bytes)
    (a : Attempt) (rest : List Attempt) (t : Task2) (r : Redis) (l0 : List Bytes)
    (hlog : r.listAt (dataKey t taskruntype id taskrealtasklog) = .ok l0) :
    (∃ (r1 : Redis) (c : CheckIn),
      runTask nm taskruntype id (a :: rest) t r = checkBlock nm t r1 taskruntype id c ∧
      (c.err ≠ none ∨ c.realtask = none)) ∨
    (a.ending = RecvEnd.eof ∧ ∃ (r1 : Redis) (c : CheckIn),
      runTask nm taskruntype id (a :: rest) t r = checkBlock nm t r1 taskruntype id c ∧
      r1.listAt (dataKey t taskruntype id taskrealtasklog) =
        .ok (l0 ++ [a.line LogSite.start, a.line LogSite.output] ++ a.frames) ∧
      c.err = (getreturncode t r1 taskruntype id).2 ∧
      c.taskrespcode = (getreturncode t r1 taskruntype id).1) ∨
    (∃ r1 : Redis,
      runTask nm taskruntype id (a :: rest) t r = runTask nm taskruntype id rest t r1 ∧
      r1.listAt (dataKey t taskruntype id taskrealtasklog) = .ok (l0 ++ retryLog a)) := by
  have hrun : (setdataQuiet t r taskruntype id (Data.status TsRun) taskstatus).listAt
      (dataKey t taskruntype id taskrealtasklog) = .ok l0 := by
    rw [listAt_set_status]; exact hlog
  have h1 := listAt_writelogt t _ taskruntype id (a.line LogSite.start) l0 hrun
  have h2 := listAt_writelogt t _ taskruntype id (a.line LogSite.output) _ h1
  have h3 := listAt_recvFrames t taskruntype id a.frames _ [] _ h2
  have h4 := listAt_writelogt t _ taskruntype id (a.line LogSite.workerDown) _ h3
  rw [runTask]
  dsimp only
  split
  · exact Or.inl ⟨_, _, rfl, Or.inl (by simp)⟩
  · split
    · exact Or.inl ⟨_, _, rfl, Or.inr rfl⟩
    · split
      · exact Or.inl ⟨_, _, rfl, Or.inl (by simp)⟩
      · split
        · exact Or.inl ⟨_, _, rfl, Or.inl (by simp)⟩
        · split
          · exact Or.inl ⟨_, _, rfl, Or.inl (by simp)⟩
          · split
            · rename_i hend
              refine Or.inr (Or.inl ⟨hend, _, _, rfl, ?_, rfl, rfl⟩)
              rw [h3]
              simp
            · split
              · refine Or.inr (Or.inr ⟨_, rfl, ?_⟩)
                rw [h4]
                simp [retryLog]
              · exact Or.inl ⟨_, _, rfl, Or.inl (by simp)⟩


theorem getreturncode_ok (t : Task2) (r : Redis) (taskruntype : TaskRespType) (id : Bytes)
    (earlier : List Bytes) (last : Bytes)
    (h : r.listAt (dataKey t taskruntype id taskrealtasklog) = .ok (earlier ++ [last]))
    (h5 : 5 ≤ last.length) (hnone : (getreturncode t r taskruntype id).2 = none) :
    Atoi (TrimSpace (last.drop (last.length - 5))) = .ok (getreturncode t r taskruntype id).1 := by
  unfold getreturncode at hnone ⊢
  simp only [LIndex_last_listAt r _ earlier last h, h5, if_true] at hnone ⊢
  cases hA : Atoi (TrimSpace (last.drop (last.length - 5))) with
  | error e => rw [hA] at hnone; simp at hnone
  | ok code => rfl

/-- C9, as stated, fails: parent `A` succeeds with the single frame `"ok\n    0"`, and
its log list read back in full has three elements, the two lines written by
`runTask` before the frame. -/
theorem log_list_has_header_lines :
    (runTask exNames ParentTask (goStr "A") [exAttempt [goStr "ok\n    0"] RecvEnd.eof false]
        exTask exEmpty).2.2 = Outcome.returned none ∧
    (runTask exNames ParentTask (goStr "A") [exAttempt [goStr "ok\n    0"] RecvEnd.eof false]
        exTask exEmpty).1.data (dataKey exTask ParentTask (goStr "A") taskstatus)
      = some (Val.status TsFinish) ∧
    (runTask exNames ParentTask (goStr "A") [exAttempt [goStr "ok\n    0"] RecvEnd.eof false]
        exTask exEmpty).1.LRange (dataKey exTask ParentTask (goStr "A") taskrealtasklog) 0 (-1)
      = .ok [goStr "2020-01-01 00:00:00: start run task\n",
             goStr "2020-01-01 00:00:00: task output----------------\n", goStr "ok\n    0"] ∧
    (runTask exNames ParentTask (goStr "A") [exAttempt [goStr "ok\n    0"] RecvEnd.eof false]
        exTask exEmpty).1.LRange (dataKey exTask ParentTask (goStr "A") taskrealtasklog) 0 (-1)
      ≠ .ok [goStr "ok\n    0"] := by
  decide

/-- C9, amended.  For a task that succeeds (`runTask` returns nil and the status is
`Finish`), started with the log list `l0`: the invocation that reached the end
of its stream follows the invocations whose worker went down; the log list
read back in full is `l0`, then the elements of the retried invocations, then
the start line and the output header, then exactly the frames of the stream
in order; and the exit code of the result record is the integer parsed from
the trimmed last five bytes of the last frame, when that frame has at least
five bytes. -/
theorem log_roundtrip (nm : Names) (taskruntype : TaskRespType) (id : Bytes)
    (attempts : List Attempt) (t : Task2) (r : Redis) (l0 : List Bytes)
    (hlog : r.listAt (dataKey t taskruntype id taskrealtasklog) = .ok l0)
    (hret : (runTask nm taskruntype id attempts t r).2.2 = Outcome.returned none)
    (hfin : (runTask nm taskruntype id attempts t r).1.data (dataKey t taskruntype id taskstatus)
      = some (Val.status TsFinish)) :
    ∃ (retried : List Attempt) (a : Attempt) (rest : List Attempt),
      attempts = retried ++ a :: rest ∧ a.ending = RecvEnd.eof ∧
      (runTask nm taskruntype id attempts t r).1.LRange
          (dataKey t taskruntype id taskrealtasklog) 0 (-1) =
        .ok (l0 ++ retried.flatMap retryLog ++
          [a.line LogSite.start, a.line LogSite.output] ++ a.frames) ∧
      ∃ x : TaskResp,
        (runTask nm taskruntype id attempts t r).1.data (dataKey t taskruntype id taskresp)
          = some (Val.resp x) ∧
        ∀ last : Bytes, a.frames.getLast? = some last → 5 ≤ last.length →
          Atoi (TrimSpace (last.drop (last.length - 5))) = .ok x.Code := by
  induction attempts generalizing r l0 with
  | nil => simp [runTask] at hret
  | cons a rest ih =>
    rcases runTask_cons_cases nm taskruntype id a rest t r l0 hlog with
      ⟨r1, c, he, hc⟩ | ⟨hend, r1, c, he, hl, herr, hcode⟩ | ⟨r1, he, hl⟩
    · rw [he] at hret hfin
      obtain ⟨e1, e2, _, _⟩ := checkBlock_finish nm t r1 taskruntype id c hret hfin
      rcases hc with hc | hc
      · exact absurd e1 hc
      · exact absurd hc e2
    · rw [he] at hret hfin ⊢
      obtain ⟨e1, _, e3, x, e4, e5⟩ := checkBlock_finish nm t r1 taskruntype id c hret hfin
      refine ⟨[], a, rest, rfl, hend, ?_, x, e4, ?_⟩
      · rw [LRange_all _ _ _ (e3.trans hl)]
        simp
      · intro last hlast h5
        obtain ⟨ini, hini⟩ : ∃ ini, a.frames = ini ++ [last] := by
          rcases List.eq_nil_or_concat a.frames with hn | ⟨ini, b, hb⟩
          · rw [hn] at hlast; simp at hlast
          · refine ⟨ini, ?_⟩
            rw [hb] at hlast ⊢
            simp at hlast
            rw [hlast, List.concat_eq_append]
        have hl2 : r1.listAt (dataKey t taskruntype id taskrealtasklog) =
            .ok ((l0 ++ [a.line LogSite.start, a.line LogSite.output] ++ ini) ++ [last]) := by
          rw [hl, hini]
          simp
        have hnone : (getreturncode t r1 taskruntype id).2 = none := by rw [← herr]; exact e1
        rw [e5, hcode]
        exact getreturncode_ok t r1 taskruntype id _ last hl2 h5 hnone
    · rw [he] at hret hfin ⊢
      obtain ⟨retried, a1, rest1, h1, h2, h3, h4⟩ := ih r1 _ hl hret hfin
      refine ⟨a :: retried, a1, rest1, by rw [h1]; rfl, h2, ?_, h4⟩
      rw [h3]
      simp [List.flatMap_cons, List.append_assoc]

/-- C9, amended, at parent `A` of run `T`, whose worker sends the single frame
`"ok\n    0"`. -/
theorem log_roundtrip_witness :
    exEmpty.listAt (dataKey exTask ParentTask (goStr "A") taskrealtasklog) = .ok [] ∧
    (runTask exNames ParentTask (goStr "A") [exAttempt [goStr "ok\n    0"] RecvEnd.eof false]
        exTask exEmpty).2.2 = Outcome.returned none ∧
    (∃ (retried : List Attempt) (a : Attempt) (rest : List Attempt),
      [exAttempt [goStr "ok\n    0"] RecvEnd.eof false] = retried ++ a :: rest ∧
      a.ending = RecvEnd.eof ∧
      (runTask exNames ParentTask (goStr "A") [exAttempt [goStr "ok\n    0"] RecvEnd.eof false]
          exTask exEmpty).1.LRange (dataKey exTask ParentTask (goStr "A") taskrealtasklog) 0 (-1) =
        .ok ([] ++ retried.flatMap retryLog ++
          [a.line LogSite.start, a.line LogSite.output] ++ a.frames) ∧
      ∃ x : TaskResp,
        (runTask exNames ParentTask (goStr "A") [exAttempt [goStr "ok\n    0"] RecvEnd.eof false]
            exTask exEmpty).1.data (dataKey exTask ParentTask (goStr "A") taskresp)
          = some (Val.resp x) ∧
        ∀ last : Bytes, a.frames.getLast? = some last → 5 ≤ last.length →
          Atoi (TrimSpace (last.drop (last.length - 5))) = .ok x.Code) :=
  ⟨by decide, by decide,
    log_roundtrip exNames ParentTask (goStr "A")
      [exAttempt [goStr "ok\n    0"] RecvEnd.eof false] exTask exEmpty []
      (by decide) (by decide) (by decide)⟩

/-! ## Reading the live log -/

theorem LIndex_frameAt (r : Redis) (k : Bytes) (l : List Bytes) (offset : Int)
    (h : r.listAt k = .ok l) :
    r.LIndex k offset =
      match frameAt l offset with
      | some f => .ok f
      | none => .error GoError.redisNil := by
  unfold Redis.LIndex frameAt normIndex
  rw [h]
  by_cases h0 : 0 ≤ offset
  · have h1 : ¬ offset < 0 := by omega
    simp only [h1, if_false, h0, if_true]
  · have h1 : offset < 0 := by omega
    simp only [h1, if_true, h0, if_false]
    by_cases h2 : -(l.length : Int) ≤ offset
    · have h3 : ¬ ((l.length : Int) + offset < 0) := by omega
      simp only [h3, if_false, h2, if_true]
    · have h3 : (l.length : Int) + offset < 0 := by omega
      simp [h3, h2]

/-- C12. `GetTaskRealLog`, for a PhaseKey whose log key holds a list or is absent
and every signed offset: the store is returned unchanged; a frame at the
offset is returned with a nil error; without a frame at the offset the call
returns `io.EOF` when the stored status is `Finish`, `Cancel` or `Fail` and
`ErrNoGetLog` when it is `Wait` or `Run`. -/
theorem GetTaskRealLog_spec (t : Task2) (r : Redis) (taskruntype : TaskRespType)
    (realid : Bytes) (offset : Int) (l : List Bytes)
    (hlist : r.listAt (dataKey t taskruntype realid taskrealtasklog) = .ok l) :
    (GetTaskRealLog t r taskruntype realid offset).1 = r ∧
    (∀ f : Bytes, frameAt l offset = some f →
      (GetTaskRealLog t r taskruntype realid offset).2 = .ok f) ∧
    (frameAt l offset = none → ∀ st : TaskStatus,
      r.GetStatus (dataKey t taskruntype realid taskstatus) = .ok st →
      ((st = TsFinish ∨ st = TsCancel ∨ st = TsFail) →
        (GetTaskRealLog t r taskruntype realid offset).2 = .error ioEOF) ∧
      ((st = TsWait ∨ st = TsRun) →
        (GetTaskRealLog t r taskruntype realid offset).2 = .error ErrNoGetLog)) := by
  have hL := LIndex_frameAt r _ l offset hlist
  refine ⟨?_, ?_, ?_⟩
  · unfold GetTaskRealLog
    dsimp only
    split
    · rfl
    · split
      · rfl
      · split <;> rfl
  · intro f hf
    rw [hf] at hL
    unfold GetTaskRealLog
    simp only [hL]
  · intro hnone st hst
    rw [hnone] at hL
    have hget : getdata t r taskruntype realid taskstatus = .ok (Data.status st) := by
      simp [getdata, hst]
    unfold GetTaskRealLog
    simp only [hL, hget]
    constructor
    · rintro (h | h | h) <;> subst h <;> simp
    · rintro (h | h) <;> subst h <;> simp

/-- C12 at parent `A`, finished with two frames, and parent `B`, running with none. -/
theorem GetTaskRealLog_spec_witness :
    exLiveStore.listAt (dataKey exTask ParentTask (goStr "A") taskrealtasklog)
      = .ok [goStr "line1\n", goStr "ok\n    0"] ∧
    (GetTaskRealLog exTask exLiveStore ParentTask (goStr "A") 1).2 = .ok (goStr "ok\n    0") ∧
    (GetTaskRealLog exTask exLiveStore ParentTask (goStr "A") 2).2 = .error ioEOF :=
  ⟨by decide,
    (GetTaskRealLog_spec exTask exLiveStore ParentTask (goStr "A") 1
      [goStr "line1\n", goStr "ok\n    0"] (by decide)).2.1 (goStr "ok\n    0") (by decide),
    ((GetTaskRealLog_spec exTask exLiveStore ParentTask (goStr "A") 2
      [goStr "line1\n", goStr "ok\n    0"] (by decide)).2.2 (by decide) TsFinish
        (by decide)).1 (Or.inl rfl)⟩

/-! ## The run lock -/

/-- C15. `releaselock` deletes the lock key exactly when the key holds the nonce
passed to it; otherwise the store, history included, is the one it received;
and in every case each key other than the lock key keeps its value. -/
theorem releaselock_spec (t : Task2) (r : Redis) (randid : Bytes) :
    ((releaselock t r randid).hist = r.hist ++ [Op.del (lockKey t)] ↔
      r.data (lockKey t) = some (Val.raw randid)) ∧
    (r.data (lockKey t) = some (Val.raw randid) →
      (releaselock t r randid).data (lockKey t) = none) ∧
    (r.data (lockKey t) ≠ some (Val.raw randid) → releaselock t r randid = r) ∧
    (∀ k : Bytes, k ≠ lockKey t → (releaselock t r randid).data k = r.data k) := by
  have hne : r.hist ≠ r.hist ++ [Op.del (lockKey t)] := by
    intro h
    have := congrArg List.length h
    simp at this
  have hkeep : r.data (lockKey t) ≠ some (Val.raw randid) → releaselock t r randid = r := by
    intro h
    unfold releaselock
    split
    · rename_i v hv
      have : ¬ v = randid := fun e => h (by rw [hv, e])
      simp [this]
    · rfl
  refine ⟨⟨?_, ?_⟩, ?_, hkeep, ?_⟩
  · intro h
    by_contra hcon
    rw [hkeep hcon] at h
    exact hne h
  · intro h
    simp [releaselock, h, Redis.Del]
  · intro h
    simp [releaselock, h, Redis.Del]
  · intro k hk
    by_cases h : r.data (lockKey t) = some (Val.raw randid)
    · simp [releaselock, h, Redis.Del, hk]
    · rw [hkeep h]

/-- C15 at the store in which the lock of `T` is held with the nonce `"17"`: a
release with the nonce `"18"` leaves the store as it is. -/
theorem releaselock_spec_witness :
    exLockedStore.data (lockKey exTask) ≠ some (Val.raw (goStr "18")) ∧
    releaselock exTask exLockedStore (goStr "18") = exLockedStore :=
  ⟨by decide, (releaselock_spec exTask exLockedStore (goStr "18")).2.2.1 (by decide)⟩

/-- C16. When the lock key exists, `StartRun` returns with the store and the task,
first-failure fields included, exactly as they were; and `getlock` reports
success exactly when the lock key was absent, in which case the key then
holds the nonce of the caller. -/
theorem StartRun_skipped (nm : Names) (t : Task2) (r : Redis) (trigger : Int) (env : RunEnv)
    (nonce : Bytes) :
    (r.data (lockKey t) ≠ none → StartRun nm t r trigger env = (t, r, RunEnd.skipped)) ∧
    ((getlock t r nonce).2 = true ↔ r.data (lockKey t) = none) ∧
    (r.data (lockKey t) = none →
      (getlock t r nonce).1.data (lockKey t) = some (Val.raw nonce)) ∧
    (r.data (lockKey t) ≠ none → (getlock t r nonce).1 = r) := by
  refine ⟨?_, ?_, ?_, ?_⟩
  · intro h
    have hl : islock t r = true := by
      unfold islock Redis.Exists
      cases hd : r.data (lockKey t) with
      | none => exact absurd hd h
      | some v => rfl
    simp [StartRun, hl]
  · unfold getlock Redis.SetNX
    cases hd : r.data (lockKey t) <;> simp
  · intro h
    simp [getlock, Redis.SetNX, h, Redis.Set]
  · intro h
    unfold getlock Redis.SetNX
    cases hd : r.data (lockKey t) with
    | none => exact absurd hd h
    | some v => rfl

/-- C16 at the store in which the lock of `T` is held. -/
theorem StartRun_skipped_witness :
    exLockedStore.data (lockKey exTask) ≠ none ∧
    StartRun exNames exTask exLockedStore 1 exRunEnv = (exTask, exLockedStore, RunEnd.skipped) ∧
    exEmpty.data (lockKey exTask) = none ∧
    (getlock exTask exEmpty (goStr "17")).1.data (lockKey exTask)
      = some (Val.raw (goStr "17")) :=
  ⟨by decide,
    (StartRun_skipped exNames exTask exLockedStore 1 exRunEnv (goStr "17")).1 (by decide),
    by decide,
    (StartRun_skipped exNames exTask exEmpty 1 exRunEnv (goStr "17")).2.2.1 (by decide)⟩

/-- C17 fails on the code: two acquisitions one nanosecond apart, with the random
draw `2^62`, both obtain the nonce `"0"`; and with the random draw `0`, which
the random source can return, the division panics, in the nonce computation
and so in `StartRun`. -/
theorem nonce_not_unique :
    randstr 1700000000000000000 4611686018427387904 = some (goStr "0") ∧
    randstr 1700000000000000001 4611686018427387904 = some (goStr "0") ∧
    randstr 1700000000000000000 0 = none ∧
    (StartRun exNames exTask exEmpty 1 { exRunEnv with randInt := 0 }).2.2 = RunEnd.panicked := by
  decide

/-- C18 fails on the code: in a registry that holds the task with id `N`, adding the
task with id `T` and name `N` once keeps the entry of `N`, and adding it a
second time with the same arguments deletes the entry of `N`, because the
second call executes `delete(s.ts, taskname)`. -/
theorem addtask_twice_deletes_entry :
    ((exRegistry.addtask (goStr "T") (goStr "N") (goStr "0 0 * * *") 0 true).gettask
        (goStr "N")) = exRegistry.gettask (goStr "N") ∧
    exRegistry.gettask (goStr "N") ≠ none ∧
    (((exRegistry.addtask (goStr "T") (goStr "N") (goStr "0 0 * * *") 0 true).addtask
        (goStr "T") (goStr "N") (goStr "0 0 * * *") 0 true).gettask (goStr "N")) = none := by
  decide

/-- C19 fails on the code: when the last element of the log list is the two-byte
frame `"ok"`, `getreturncode` returns the default exit code `-1` with a nil
error; a task that expects the exit code `-1` is then judged successful on a
code that was not read from the worker. -/
theorem getreturncode_short_frame_nil_error :
    getreturncode exTask (writelog exTask exEmpty ParentTask (goStr "A") (goStr "ok"))
        ParentTask (goStr "A") = (DefaultExitCode, none) ∧
    (runTask exNames ParentTask (goStr "A")
        [{ exAttempt [goStr "ok"] RecvEnd.eof false with
            taskdata := .ok { exDesc with ExpectCode := -1 } }] exTask exEmpty).2.2
      = Outcome.returned none ∧
    (runTask exNames ParentTask (goStr "A")
        [{ exAttempt [goStr "ok"] RecvEnd.eof false with
            taskdata := .ok { exDesc with ExpectCode := -1 } }] exTask exEmpty).1.data
      (dataKey exTask ParentTask (goStr "A") taskstatus) = some (Val.status TsFinish) := by
  decide

/-! ## Parsing the members of the membership list -/

theorem splitColon_no_colon (a : Bytes) (h : 58 ∉ a) : splitColon a = [a] := by
  induction a with
  | nil => rfl
  | cons c a ih =>
    have hc : c ≠ 58 := fun e => h (by rw [e]; exact List.mem_cons_self _ _)
    have ha : 58 ∉ a := fun m => h (List.mem_cons_of_mem _ m)
    simp [splitColon, hc, ih ha]

theorem splitColon_append (a b : Bytes) (h : 58 ∉ a) :
    splitColon (a ++ 58 :: b) = a :: splitColon b := by
  induction a with
  | nil => simp [splitColon]
  | cons c a ih =>
    have hc : c ≠ 58 := fun e => h (by rw [e]; exact List.mem_cons_self _ _)
    have ha : 58 ∉ a := fun m => h (List.mem_cons_of_mem _ m)
    simp [splitColon, hc, ih ha]

theorem splitColon_phaseKey (t : Task2) (taskruntype : TaskRespType) (id : Bytes)
    (hm : 58 ∉ t.id) (hid : 58 ∉ id) :
    splitColon (phaseKey t taskruntype id) =
      [goStr "task", t.id, Itoa (taskruntype : Int), id] := by
  have e : phaseKey t taskruntype id =
      goStr "task" ++ 58 :: (t.id ++ 58 :: (Itoa (taskruntype : Int) ++ 58 :: id)) := by
    have h1 : goStr "task:" = goStr "task" ++ [58] := by decide
    simp [phaseKey, h1, goStr_colon, List.append_assoc]
  have h0 : 58 ∉ goStr "task" := by decide
  rw [e, splitColon_append _ _ h0, splitColon_append _ _ hm,
    splitColon_append _ _ (colon_not_mem_Itoa taskruntype), splitColon_no_colon _ hid]

theorem taskRespOf_eq (nm : Names) (t : Task2) (r : Redis) (keyname : Bytes) :
    taskRespOf nm t r keyname =
      match parseMember keyname with
      | none => none
      | some (taskruntype, id) => respEntry nm t r taskruntype id := by
  unfold taskRespOf parseMember respEntry
  dsimp only
  split
  · rfl
  · split <;> rfl

theorem getdata_status_after_set (t : Task2) (r : Redis) (taskruntype : TaskRespType)
    (id : Bytes) (st : TaskStatus) :
    getdata t (setdataQuiet t r taskruntype id (Data.status st) taskstatus) taskruntype id
      taskstatus = .ok (Data.status st) := by
  simp [getdata, Redis.GetStatus, data_setdataQuiet_status]

/-- C20. For a master id and a task id without `:` and a phase among 1, 2, 3, the
member `task:<masterId>:<phase>:<realId>` built by `addtaskinfo` splits on `:`
into exactly the four fields `task`, the master id, the decimal phase and the
task id; the phase field parses back to the phase; so the loops over the
membership list do not skip the member at the parsing step and read the keys
of the same PhaseKey that `setdata` writes: a status written by `setdata` is
the status read for the member, and the entry of `savetasklog` for the
member is built from the reads of that PhaseKey. -/
theorem phaseKey_roundtrip (t : Task2) (taskruntype : TaskRespType) (id : Bytes)
    (hm : 58 ∉ t.id) (hid : 58 ∉ id)
    (htyp : taskruntype = ParentTask ∨ taskruntype = MasterTask ∨ taskruntype = ChildTask) :
    splitColon (phaseKey t taskruntype id) =
      [goStr "task", t.id, Itoa (taskruntype : Int), id] ∧
    (splitColon (phaseKey t taskruntype id)).length = 4 ∧
    Atoi (Itoa (taskruntype : Int)) = .ok (taskruntype : Int) ∧
    parseMember (phaseKey t taskruntype id) = some (taskruntype, id) ∧
    (∀ (r : Redis) (st : TaskStatus),
      memberStatus t (setdataQuiet t r taskruntype id (Data.status st) taskstatus)
        (phaseKey t taskruntype id) = some st) ∧
    (∀ (nm : Names) (r : Redis),
      taskRespOf nm t r (phaseKey t taskruntype id) = respEntry nm t r taskruntype id) := by
  have hsplit := splitColon_phaseKey t taskruntype id hm hid
  have hatoi : Atoi (Itoa (taskruntype : Int)) = .ok (taskruntype : Int) := by
    rcases htyp with h | h | h <;> subst h <;> decide
  have hparse : parseMember (phaseKey t taskruntype id) = some (taskruntype, id) := by
    unfold parseMember
    simp [hsplit, hatoi]
  refine ⟨hsplit, by rw [hsplit]; rfl, hatoi, hparse, ?_, ?_⟩
  · intro r st
    unfold memberStatus
    simp only [hparse, getdata_status_after_set]
  · intro nm r
    rw [taskRespOf_eq, hparse]

/-- C20 at the member of parent `A` in run `T`. -/
theorem phaseKey_roundtrip_witness :
    58 ∉ exTask.id ∧ 58 ∉ goStr "A" ∧
    splitColon (phaseKey exTask ParentTask (goStr "A")) =
      [goStr "task", goStr "T", goStr "1", goStr "A"] ∧
    parseMember (phaseKey exTask ParentTask (goStr "A")) = some (ParentTask, goStr "A") :=
  ⟨by decide, by decide,
    (phaseKey_roundtrip exTask ParentTask (goStr "A") (by decide) (by decide) (Or.inl rfl)).1,
    (phaseKey_roundtrip exTask ParentTask (goStr "A") (by decide) (by decide)
      (Or.inl rfl)).2.2.2.1⟩

/-! ## The entries of the run log -/

theorem LRangeScanSlice_all (r : Redis) (k : Bytes) (l : List Bytes)
    (h : r.listAt k = .ok l) : r.LRangeScanSlice k 0 (-1) = l := by
  unfold Redis.LRangeScanSlice
  rw [LRange_all r k l h]

theorem joinBytes_eq_foldr (l : List Bytes) :
    joinBytes l = l.foldr (fun f acc => f ++ acc) [] := by
  induction l with
  | nil => rfl
  | cons f fs ih =>
    have h : joinBytes (f :: fs) = f ++ joinBytes fs := by simp [joinBytes, List.flatMap_cons]
    rw [h, ih, List.foldr_cons]

/-- A member built from a master id and a task id without `:` and a phase of the
64-bit range parses to its phase and task id. -/
theorem parseMember_phaseKey (t : Task2) (taskruntype : TaskRespType) (id : Bytes)
    (hm : 58 ∉ t.id) (hid : 58 ∉ id)
    (hlo : -9223372036854775808 ≤ taskruntype) (hhi : taskruntype ≤ 9223372036854775807) :
    parseMember (phaseKey t taskruntype id) = some (taskruntype, id) := by
  unfold parseMember
  simp [splitColon_phaseKey t taskruntype id hm hid, Atoi_Itoa taskruntype hlo hhi]

theorem respEntry_of_reads (nm : Names) (t : Task2) (r : Redis) (taskruntype : TaskRespType)
    (id : Bytes) (tr : TaskResp) (st : TaskStatus) (frames : List Bytes)
    (hresp : r.data (dataKey t taskruntype id taskresp) = some (Val.resp tr))
    (hst : r.data (dataKey t taskruntype id taskstatus) = some (Val.status st))
    (hlog : r.listAt (dataKey t taskruntype id taskrealtasklog) = .ok frames) :
    respEntry nm t r taskruntype id =
      some { tr with
        LogData := frames.foldr (fun f acc => f ++ acc) [],
        Status := if st = TsWait then nm.statusString TsCancel else nm.statusString st } := by
  have h1 : taskresp ≠ taskstatus := by decide
  have h2 : taskrealtasklog ≠ taskstatus := by decide
  have h3 : taskrealtasklog ≠ taskresp := by decide
  have e1 : getdata t r taskruntype id taskresp = .ok (Data.resp tr) := by
    simp [getdata, h1, Redis.GetResp, hresp]
  have e2 : getdata t r taskruntype id taskstatus = .ok (Data.status st) := by
    simp [getdata, Redis.GetStatus, hst]
  have e3 : getdata t r taskruntype id taskrealtasklog =
      .ok (Data.log (frames.foldr (fun f acc => f ++ acc) [])) := by
    simp [getdata, h2, h3, LRangeScanSlice_all r _ frames hlog, joinBytes_eq_foldr]
  unfold respEntry
  simp only [e1, e2, e3]

/-- C11, as stated, fails: the membership list that `addtaskinfo` builds for the
parent id `a:b` holds the PhaseKey `task:T:1:a:b`, whose status, result record
and log list are stored under the keys that `setdata` writes and are read by
`getdata`; the member splits into five fields, `savetasklog` skips it, and the
run log has no entry for the PhaseKey. -/
theorem colon_member_has_no_entry :
    exColonStore.data (taskinfosKey exTask) =
      some (Val.list [phaseKey exTask ParentTask (goStr "a:b")]) ∧
    getdata exTask exColonStore ParentTask (goStr "a:b") taskresp =
      .ok (Data.resp (exResp ParentTask (goStr "a:b"))) ∧
    getdata exTask exColonStore ParentTask (goStr "a:b") taskstatus = .ok (Data.status TsRun) ∧
    getdata exTask exColonStore ParentTask (goStr "a:b") taskrealtasklog =
      .ok (Data.log (goStr "ok\n    0")) ∧
    (savetasklog exNames exTask exColonStore 1577836801000000000).2.1.map Log.TaskResps =
      some [] := by
  decide

/-- C11, amended.  For a PhaseKey of the membership list whose master id and task id
hold no `:`, whose phase is an integer of the 64-bit range, whose result record
and status are stored and whose log key holds a list or is absent, the run
log has one entry for the PhaseKey, between the entries of the members before
it and the entries of the members after it: the result record with `Status`
set to the string of `Cancel` when the stored status is `Wait` and to the
string of the stored status otherwise, and `LogData` set to the log frames
appended one after the other in list order. -/
theorem savetasklog_taskResps (nm : Names) (t : Task2) (r : Redis) (nowNano : Int)
    (runtask : RunTask) (before after : List Bytes)
    (taskruntype : TaskRespType) (id : Bytes) (tr : TaskResp) (st : TaskStatus)
    (frames : List Bytes)
    (hrun : getruntaskdata t r = .ok runtask)
    (hlist : r.data (taskinfosKey t) =
      some (Val.list (before ++ phaseKey t taskruntype id :: after)))
    (hm : 58 ∉ t.id) (hid : 58 ∉ id)
    (hlo : -9223372036854775808 ≤ taskruntype) (hhi : taskruntype ≤ 9223372036854775807)
    (hresp : r.data (dataKey t taskruntype id taskresp) = some (Val.resp tr))
    (hst : r.data (dataKey t taskruntype id taskstatus) = some (Val.status st))
    (hlog : r.listAt (dataKey t taskruntype id taskrealtasklog) = .ok frames) :
    ∃ log : Log, (savetasklog nm t r nowNano).2.1 = some log ∧
      log.TaskResps =
        before.filterMap (taskRespOf nm t r) ++
          { tr with
            LogData := frames.foldr (fun f acc => f ++ acc) [],
            Status := if st = TsWait then nm.statusString TsCancel else nm.statusString st } ::
          after.filterMap (taskRespOf nm t r) := by
  have hk : taskRespOf nm t r (phaseKey t taskruntype id) =
      some { tr with
        LogData := frames.foldr (fun f acc => f ++ acc) [],
        Status := if st = TsWait then nm.statusString TsCancel else nm.statusString st } := by
    rw [taskRespOf_eq, parseMember_phaseKey t taskruntype id hm hid hlo hhi]
    exact respEntry_of_reads nm t r taskruntype id tr st frames hresp hst hlog
  have hl : gettaskinfos t r = .ok (before ++ phaseKey t taskruntype id :: after) := by
    have h0 : r.listAt (taskinfosKey t) = .ok (before ++ phaseKey t taskruntype id :: after) := by
      simp [Redis.listAt, hlist]
    unfold gettaskinfos
    simp [LRangeScanSlice_all r _ _ h0]
  unfold savetasklog
  simp only [hrun, hl]
  refine ⟨_, rfl, ?_⟩
  simp only [List.filterMap_append, List.filterMap_cons, hk]

set_option maxRecDepth 100000

/-- C11, amended, at the end of the run of `T`: the entry of parent `A`, first of
four, holds the start line, the output header and the frame of the worker,
one after the other, and the entries of the log are those of `A`, `B`, `T`, `C`
in this order. -/
theorem savetasklog_taskResps_witness :
    58 ∉ exTask.id ∧ 58 ∉ goStr "A" ∧
    (savetasklog exNames exTask exDoneStore 1577836801000000000).2.1.map
        (fun log => log.TaskResps.map TaskResp.TaskID) =
      some [goStr "A", goStr "B", goStr "T", goStr "C"] ∧
    exDoneStore.data (dataKey exTask ParentTask (goStr "A") taskstatus) =
      some (Val.status TsFinish) ∧
    ([goStr "2020-01-01 00:00:00: start run task\n",
      goStr "2020-01-01 00:00:00: task output----------------\n",
      goStr "ok\n    0"].foldr (fun f acc => f ++ acc) [] =
      goStr ("2020-01-01 00:00:00: start run task\n" ++
        "2020-01-01 00:00:00: task output----------------\nok\n    0")) ∧
    (∃ log : Log, (savetasklog exNames exTask exDoneStore 1577836801000000000).2.1 = some log ∧
      log.TaskResps =
        ([] : List Bytes).filterMap (taskRespOf exNames exTask exDoneStore) ++
          { exResp ParentTask (goStr "A") with
            LogData := [goStr "2020-01-01 00:00:00: start run task\n",
              goStr "2020-01-01 00:00:00: task output----------------\n",
              goStr "ok\n    0"].foldr (fun f acc => f ++ acc) [],
            Status := if TsFinish = TsWait then exNames.statusString TsCancel
                      else exNames.statusString TsFinish } ::
          [phaseKey exTask ParentTask (goStr "B"), phaseKey exTask MasterTask (goStr "T"),
            phaseKey exTask ChildTask (goStr "C")].filterMap
              (taskRespOf exNames exTask exDoneStore)) :=
  ⟨by decide, by decide, by decide, by decide, by decide,
    savetasklog_taskResps exNames exTask exDoneStore 1577836801000000000
      { ID := goStr "T", Name := goStr "nightly", Cronexpr := goStr "0 0 * * *",
        StartTime := 1577836800000, Trigger := 1 }
      [] [phaseKey exTask ParentTask (goStr "B"), phaseKey exTask MasterTask (goStr "T"),
        phaseKey exTask ChildTask (goStr "C")]
      ParentTask (goStr "A")
      (exResp ParentTask (goStr "A")) TsFinish
      [goStr "2020-01-01 00:00:00: start run task\n",
        goStr "2020-01-01 00:00:00: task output----------------\n", goStr "ok\n    0"]
      (by decide) (by decide) (by decide) (by decide) (by decide) (by decide) (by decide)
      (by decide) (by decide)⟩

/-! ## The status tree -/

theorem gettaskinfos_ok (t : Task2) (r : Redis) (tasks : List Bytes)
    (hlist : r.listAt (taskinfosKey t) = .ok tasks) (hne : tasks ≠ []) :
    gettaskinfos t r = .ok tasks := by
  unfold gettaskinfos
  rw [LRangeScanSlice_all r _ tasks hlist]
  have : ¬ tasks.length = 0 := fun h => hne (List.length_eq_zero.mp h)
  simp [this]

theorem treeStep_finish (nm : Names) (s : cacheSchedule2) (t : Task2) (r : Redis)
    (st : TreeState) (keyname : Bytes) :
    (treeStep nm s t r st keyname).finish =
      (st.finish && decide (memberStatus t r keyname ≠ some TsRun ∧
        memberStatus t r keyname ≠ some TsWait)) := by
  unfold treeStep memberStatus
  cases hp : parseMember keyname with
  | none => simp
  | some p =>
    obtain ⟨taskruntype, id⟩ := p
    dsimp only
    cases hg : getdata t r taskruntype id taskstatus with
    | error e => simp
    | ok d =>
      cases d with
      | resp x => simp
      | log b => simp
      | status statusres =>
        dsimp only
        cases s.gettask id with
        | none =>
          dsimp only
          cases statusres <;> simp
        | some task =>
          dsimp only
          split
          · cases statusres <;> simp
          · split
            · cases statusres <;> simp
            · split
              · cases statusres <;> simp
              · cases statusres <;> simp

theorem foldl_treeStep_finish (nm : Names) (s : cacheSchedule2) (t : Task2) (r : Redis)
    (tasks : List Bytes) (st : TreeState) :
    (tasks.foldl (treeStep nm s t r) st).finish =
      (st.finish && tasks.all (fun k => decide (memberStatus t r k ≠ some TsRun ∧
        memberStatus t r k ≠ some TsWait))) := by
  induction tasks generalizing st with
  | nil => simp
  | cons k rest ih =>
    rw [List.foldl_cons, ih, treeStep_finish, List.all_cons, Bool.and_assoc]

/-- The finished flag in terms of the status that the loop reads for each member
of the list. -/
theorem tree_finished_members (nm : Names) (s : cacheSchedule2) (init : Tree3) (t : Task2)
    (r : Redis) (tasks : List Bytes)
    (hlist : r.listAt (taskinfosKey t) = .ok tasks) (hne : tasks ≠ []) :
    (GetTaskTreeStatatus nm s init t r).2.2 = none ∧
    ((GetTaskTreeStatatus nm s init t r).2.1 = true ↔
      ∀ k ∈ tasks, memberStatus t r k ≠ some TsRun ∧ memberStatus t r k ≠ some TsWait) := by
  unfold GetTaskTreeStatatus
  simp only [gettaskinfos_ok t r tasks hlist hne, foldl_treeStep_finish]
  refine ⟨trivial, ?_⟩
  simp [List.all_eq_true]

/-- The status read for a member built from ids without `:` is the status stored
under the status key of its PhaseKey. -/
theorem memberStatus_phaseKey (t : Task2) (r : Redis) (taskruntype : TaskRespType)
    (id : Bytes) (st : TaskStatus) (hm : 58 ∉ t.id) (hid : 58 ∉ id)
    (hlo : -9223372036854775808 ≤ taskruntype) (hhi : taskruntype ≤ 9223372036854775807) :
    memberStatus t r (phaseKey t taskruntype id) = some st ↔
      r.data (dataKey t taskruntype id taskstatus) = some (Val.status st) := by
  unfold memberStatus
  rw [parseMember_phaseKey t taskruntype id hm hid hlo hhi]
  simp only [getdata, if_true, Redis.GetStatus]
  cases hd : r.data (dataKey t taskruntype id taskstatus) with
  | none => simp
  | some v => cases v <;> simp

/-- C13, as stated, fails: in the membership list that `addtaskinfo` builds for the
parent id `a:b` the only member is the PhaseKey `task:T:1:a:b`, whose status is
`Run`; the member splits into five fields, the loop skips it, and the
finished flag is true. -/
theorem finished_with_running_member :
    exColonStore.data (taskinfosKey exTask) =
      some (Val.list [phaseKey exTask ParentTask (goStr "a:b")]) ∧
    getdata exTask exColonStore ParentTask (goStr "a:b") taskstatus = .ok (Data.status TsRun) ∧
    (GetTaskTreeStatatus exNames exRegistry4 exInit exTask exColonStore).2.1 = true ∧
    (GetTaskTreeStatatus exNames exRegistry4 exInit exTask exColonStore).2.2 = none := by
  decide

/-- C13, amended.  For a non-empty membership list of PhaseKeys whose master id and
task ids hold no `:` and whose phases are integers of the 64-bit range,
`GetTaskTreeStatatus` returns a nil error and its finished flag is true
exactly when no PhaseKey of the list has the status `Run` or `Wait` stored
under its status key. -/
theorem tree_finished_iff (nm : Names) (s : cacheSchedule2) (init : Tree3) (t : Task2)
    (r : Redis) (ks : List (TaskRespType × Bytes))
    (hm : 58 ∉ t.id)
    (hks : ∀ p ∈ ks, 58 ∉ p.2 ∧ -9223372036854775808 ≤ p.1 ∧ p.1 ≤ 9223372036854775807)
    (hlist : r.data (taskinfosKey t) =
      some (Val.list (ks.map (fun p => phaseKey t p.1 p.2))))
    (hne : ks ≠ []) :
    (GetTaskTreeStatatus nm s init t r).2.2 = none ∧
    ((GetTaskTreeStatatus nm s init t r).2.1 = true ↔
      ∀ p ∈ ks, r.data (dataKey t p.1 p.2 taskstatus) ≠ some (Val.status TsRun) ∧
        r.data (dataKey t p.1 p.2 taskstatus) ≠ some (Val.status TsWait)) := by
  have h0 : r.listAt (taskinfosKey t) = .ok (ks.map (fun p => phaseKey t p.1 p.2)) := by
    simp [Redis.listAt, hlist]
  have hne2 : ks.map (fun p => phaseKey t p.1 p.2) ≠ [] := by
    intro h
    exact hne (List.map_eq_nil_iff.mp h)
  obtain ⟨herr, hflag⟩ := tree_finished_members nm s init t r _ h0 hne2
  refine ⟨herr, hflag.trans ?_⟩
  constructor
  · intro h p hp
    have hk := h (phaseKey t p.1 p.2) (List.mem_map.mpr ⟨p, hp, rfl⟩)
    obtain ⟨hid, hlo, hhi⟩ := hks p hp
    exact ⟨fun e => hk.1 ((memberStatus_phaseKey t r p.1 p.2 TsRun hm hid hlo hhi).mpr e),
      fun e => hk.2 ((memberStatus_phaseKey t r p.1 p.2 TsWait hm hid hlo hhi).mpr e)⟩
  · intro h k hk
    obtain ⟨p, hp, rfl⟩ := List.mem_map.mp hk
    obtain ⟨hid, hlo, hhi⟩ := hks p hp
    have hp2 := h p hp
    exact ⟨fun e => hp2.1 ((memberStatus_phaseKey t r p.1 p.2 TsRun hm hid hlo hhi).mp e),
      fun e => hp2.2 ((memberStatus_phaseKey t r p.1 p.2 TsWait hm hid hlo hhi).mp e)⟩

theorem groupStatus_cons (nm : Names) (initial : Bytes) (a : TaskStatus) (rest : List TaskStatus) :
    groupStatus nm initial (a :: rest) =
      if fixesGroup nm (nm.statusString a) = true then nm.statusString a
      else groupStatus nm (nm.statusString a) rest := by
  unfold groupStatus
  by_cases h : fixesGroup nm (nm.statusString a) = true
  · simp [List.find?_cons, h]
  · simp only [List.find?_cons, h, if_false]
    cases List.find? (fun st => fixesGroup nm (nm.statusString st)) rest with
    | some x => rfl
    | none =>
      cases rest with
      | nil => rfl
      | cons b tl =>
        have hl : (b :: tl).getLast? = some ((b :: tl).getLast (by simp)) :=
          List.getLast?_eq_getLast _ _
        simp only [List.getLast?_cons_cons, hl]
        simp

theorem Status_addChild (x c : TaskStatusTree) : (x.addChild c).Status = x.Status := by
  cases x; rfl

theorem Status_setStatus (x : TaskStatusTree) (b : Bytes) : (x.setStatus b).Status = b := by
  cases x; rfl

theorem treeStep_parent (nm : Names) (s : cacheSchedule2) (t : Task2) (r : Redis)
    (st : TreeState) (keyname : Bytes) (status : TaskStatus)
    (h : Processed s t r ParentTask keyname status) :
    (treeStep nm s t r st keyname).ret.parent.Status =
      (if st.setStatus = true then st.ret.parent.Status else nm.statusString status) ∧
    (treeStep nm s t r st keyname).ret.child.Status = st.ret.child.Status ∧
    (treeStep nm s t r st keyname).setStatus =
      (st.setStatus || fixesGroup nm (nm.statusString status)) := by
  obtain ⟨id, task, hp, hg, hr⟩ := h
  unfold treeStep
  simp only [hp, hg, hr, if_true]
  by_cases hb : status = TsRun ∨ status = TsWait
  · simp only [hb, if_true]
    cases hs : st.setStatus <;> simp [Status_addChild, Status_setStatus]
  · simp only [hb, if_false]
    cases hs : st.setStatus <;> simp [Status_addChild, Status_setStatus]

theorem treeStep_master (nm : Names) (s : cacheSchedule2) (t : Task2) (r : Redis)
    (st : TreeState) (keyname : Bytes) (status : TaskStatus)
    (h : Processed s t r MasterTask keyname status) :
    (treeStep nm s t r st keyname).ret.parent.Status = st.ret.parent.Status ∧
    (treeStep nm s t r st keyname).ret.child.Status = st.ret.child.Status ∧
    (treeStep nm s t r st keyname).setStatus = false := by
  obtain ⟨id, task, hp, hg, hr⟩ := h
  have h1 : ¬ MasterTask = ParentTask := by decide
  unfold treeStep
  simp only [hp, hg, hr, h1, if_false, if_true]
  by_cases hb : status = TsRun ∨ status = TsWait
  · simp only [hb, if_true]
    refine ⟨?_, ?_, ?_⟩ <;> first | rfl | trivial
  · simp only [hb, if_false]
    refine ⟨?_, ?_, ?_⟩ <;> first | rfl | trivial

theorem treeStep_child (nm : Names) (s : cacheSchedule2) (t : Task2) (r : Redis)
    (st : TreeState) (keyname : Bytes) (status : TaskStatus)
    (h : Processed s t r ChildTask keyname status) :
    (treeStep nm s t r st keyname).ret.child.Status =
      (if st.setStatus = true then st.ret.child.Status else nm.statusString status) ∧
    (treeStep nm s t r st keyname).ret.parent.Status = st.ret.parent.Status ∧
    (treeStep nm s t r st keyname).setStatus =
      (st.setStatus || fixesGroup nm (nm.statusString status)) := by
  obtain ⟨id, task, hp, hg, hr⟩ := h
  have h1 : ¬ ChildTask = ParentTask := by decide
  have h2 : ¬ ChildTask = MasterTask := by decide
  unfold treeStep
  simp only [hp, hg, hr, h1, h2, if_false, if_true]
  by_cases hb : status = TsRun ∨ status = TsWait
  · simp only [hb, if_true]
    cases hs : st.setStatus <;> simp [Status_addChild, Status_setStatus]
  · simp only [hb, if_false]
    cases hs : st.setStatus <;> simp [Status_addChild, Status_setStatus]

theorem foldl_parents (nm : Names) (s : cacheSchedule2) (t : Task2) (r : Redis)
    (ps : List (Bytes × TaskStatus)) (st : TreeState)
    (h : ∀ x ∈ ps, Processed s t r ParentTask x.1 x.2) :
    ((ps.map Prod.fst).foldl (treeStep nm s t r) st).ret.parent.Status =
      (if st.setStatus = true then st.ret.parent.Status
        else groupStatus nm st.ret.parent.Status (ps.map Prod.snd)) ∧
    ((ps.map Prod.fst).foldl (treeStep nm s t r) st).ret.child.Status = st.ret.child.Status := by
  induction ps generalizing st with
  | nil =>
    simp only [List.map_nil, List.foldl_nil]
    refine ⟨?_, ?_⟩
    · split
      · rfl
      · rfl
    · first | rfl | trivial
  | cons x rest ih =>
    obtain ⟨s1, s2, s3⟩ := treeStep_parent nm s t r st x.1 x.2 (h x (List.mem_cons_self _ _))
    obtain ⟨i1, i2⟩ := ih (treeStep nm s t r st x.1)
      (fun y hy => h y (List.mem_cons_of_mem _ hy))
    simp only [List.map_cons, List.foldl_cons]
    refine ⟨?_, i2.trans s2⟩
    rw [i1, s1, s3, groupStatus_cons]
    cases hs : st.setStatus
    · by_cases hf : fixesGroup nm (nm.statusString x.2) = true
      · simp [hf]
      · simp [hf]
    · simp

theorem foldl_children (nm : Names) (s : cacheSchedule2) (t : Task2) (r : Redis)
    (cs : List (Bytes × TaskStatus)) (st : TreeState)
    (h : ∀ x ∈ cs, Processed s t r ChildTask x.1 x.2) :
    ((cs.map Prod.fst).foldl (treeStep nm s t r) st).ret.child.Status =
      (if st.setStatus = true then st.ret.child.Status
        else groupStatus nm st.ret.child.Status (cs.map Prod.snd)) ∧
    ((cs.map Prod.fst).foldl (treeStep nm s t r) st).ret.parent.Status = st.ret.parent.Status := by
  induction cs generalizing st with
  | nil =>
    simp only [List.map_nil, List.foldl_nil]
    refine ⟨?_, ?_⟩
    · split
      · rfl
      · rfl
    · first | rfl | trivial
  | cons x rest ih =>
    obtain ⟨s1, s2, s3⟩ := treeStep_child nm s t r st x.1 x.2 (h x (List.mem_cons_self _ _))
    obtain ⟨i1, i2⟩ := ih (treeStep nm s t r st x.1)
      (fun y hy => h y (List.mem_cons_of_mem _ hy))
    simp only [List.map_cons, List.foldl_cons]
    refine ⟨?_, i2.trans s2⟩
    rw [i1, s1, s3, groupStatus_cons]
    cases hs : st.setStatus
    · by_cases hf : fixesGroup nm (nm.statusString x.2) = true
      · simp [hf]
      · simp [hf]
    · simp

/-- C14, as stated, fails: in the run of `T` with parent `A` failed and parent `B`
cancelled, the status of the parent group is the string of `Fail`, the status
of the first of the two in the membership list, not the string of `Cancel`. -/
theorem group_status_first_match :
    (GetTaskTreeStatatus exNames exRegistry4 exInit exTask exTreeStore).1.map
        (fun tree => tree.parent.Status) = some (exNames.statusString TsFail) ∧
    (GetTaskTreeStatatus exNames exRegistry4 exInit exTask exTreeStore).1.map
        (fun tree => tree.parent.Status) ≠ some (exNames.statusString TsCancel) ∧
    memberStatus exTask exTreeStore (phaseKey exTask ParentTask (goStr "A")) = some TsFail ∧
    memberStatus exTask exTreeStore (phaseKey exTask ParentTask (goStr "B")) = some TsCancel := by
  decide

/-- C14, amended.  For a membership list made of the members of the parent group,
the master member and the members of the child group, in this order, every
member being handled by the loop (parsed, its status read, its task known to
the registry): the status of the parent group and the status of the child
group are each the string of the first status of the group, in list order,
that is one of `Cancel`, `Run`, `Fail`, and otherwise the string of the status
of the last member of the group; the status of the child group is computed
from the statuses of the child group alone. -/
theorem tree_group_status (nm : Names) (s : cacheSchedule2) (init : Tree3) (t : Task2)
    (r : Redis) (ps cs : List (Bytes × TaskStatus)) (m : Bytes × TaskStatus)
    (hlist : r.listAt (taskinfosKey t) = .ok (ps.map Prod.fst ++ [m.1] ++ cs.map Prod.fst))
    (hps : ∀ x ∈ ps, Processed s t r ParentTask x.1 x.2)
    (hm : Processed s t r MasterTask m.1 m.2)
    (hcs : ∀ x ∈ cs, Processed s t r ChildTask x.1 x.2) :
    ∃ tree : Tree3, (GetTaskTreeStatatus nm s init t r).1 = some tree ∧
      tree.parent.Status = groupStatus nm init.parent.Status (ps.map Prod.snd) ∧
      tree.child.Status = groupStatus nm init.child.Status (cs.map Prod.snd) := by
  have hne : ps.map Prod.fst ++ [m.1] ++ cs.map Prod.fst ≠ [] := by simp
  unfold GetTaskTreeStatatus
  simp only [gettaskinfos_ok t r _ hlist hne]
  refine ⟨_, rfl, ?_, ?_⟩
  · simp only [List.foldl_append, List.foldl_cons, List.foldl_nil]
    obtain ⟨p1, _⟩ := foldl_parents nm s t r ps
      { ret := init, setStatus := false, finish := true } hps
    obtain ⟨m1, _, _⟩ := treeStep_master nm s t r
      ((ps.map Prod.fst).foldl (treeStep nm s t r)
        { ret := init, setStatus := false, finish := true }) m.1 m.2 hm
    obtain ⟨_, c2⟩ := foldl_children nm s t r cs
      (treeStep nm s t r ((ps.map Prod.fst).foldl (treeStep nm s t r)
        { ret := init, setStatus := false, finish := true }) m.1) hcs
    rw [c2, m1, p1]
    simp
  · simp only [List.foldl_append, List.foldl_cons, List.foldl_nil]
    obtain ⟨_, p2⟩ := foldl_parents nm s t r ps
      { ret := init, setStatus := false, finish := true } hps
    obtain ⟨_, m2, m3⟩ := treeStep_master nm s t r
      ((ps.map Prod.fst).foldl (treeStep nm s t r)
        { ret := init, setStatus := false, finish := true }) m.1 m.2 hm
    obtain ⟨c1, _⟩ := foldl_children nm s t r cs
      (treeStep nm s t r ((ps.map Prod.fst).foldl (treeStep nm s t r)
        { ret := init, setStatus := false, finish := true }) m.1) hcs
    rw [c1, m3, m2, p2]
    simp


/-- C13, amended, at the run of `T`: with parent `A` failed and the other three
tasks cancelled the finished flag is true, and with child `C` running it is
false. -/
theorem tree_finished_iff_witness :
    exTreeStore.data (taskinfosKey exTask) =
      some (Val.list ([(ParentTask, goStr "A"), (ParentTask, goStr "B"),
        (MasterTask, goStr "T"), (ChildTask, goStr "C")].map
          (fun p => phaseKey exTask p.1 p.2))) ∧
    (GetTaskTreeStatatus exNames exRegistry4 exInit exTask exTreeStore).2.1 = true ∧
    exTreeRunning.data (dataKey exTask ChildTask (goStr "C") taskstatus) =
      some (Val.status TsRun) ∧
    (GetTaskTreeStatatus exNames exRegistry4 exInit exTask exTreeRunning).2.1 ≠ true :=
  ⟨by decide,
    (tree_finished_iff exNames exRegistry4 exInit exTask exTreeStore
      [(ParentTask, goStr "A"), (ParentTask, goStr "B"), (MasterTask, goStr "T"),
        (ChildTask, goStr "C")]
      (by decide) (by decide) (by decide) (by decide)).2.mpr (by decide),
    by decide,
    fun h =>
      (((tree_finished_iff exNames exRegistry4 exInit exTask exTreeRunning
        [(ParentTask, goStr "A"), (ParentTask, goStr "B"), (MasterTask, goStr "T"),
          (ChildTask, goStr "C")]
        (by decide) (by decide) (by decide) (by decide)).2.mp h)
        (ChildTask, goStr "C") (by decide)).1 (by decide)⟩

/-- C14, amended, at the run of `T` in which parent `A` has failed and the other
three tasks are cancelled. -/
theorem tree_group_status_witness :
    exTreeStore.listAt (taskinfosKey exTask) =
      .ok ([(phaseKey exTask ParentTask (goStr "A"), TsFail),
            (phaseKey exTask ParentTask (goStr "B"), TsCancel)].map Prod.fst ++
          [phaseKey exTask MasterTask (goStr "T")] ++
          [(phaseKey exTask ChildTask (goStr "C"), TsCancel)].map Prod.fst) ∧
    (∃ tree : Tree3,
      (GetTaskTreeStatatus exNames exRegistry4 exInit exTask exTreeStore).1 = some tree ∧
      tree.parent.Status = groupStatus exNames exInit.parent.Status [TsFail, TsCancel] ∧
      tree.child.Status = groupStatus exNames exInit.child.Status [TsCancel]) := by
  refine ⟨by decide, ?_⟩
  exact tree_group_status exNames exRegistry4 exInit exTask exTreeStore
    [(phaseKey exTask ParentTask (goStr "A"), TsFail),
      (phaseKey exTask ParentTask (goStr "B"), TsCancel)]
    [(phaseKey exTask ChildTask (goStr "C"), TsCancel)]
    (phaseKey exTask MasterTask (goStr "T"), TsCancel)
    (by decide)
    (by
      intro x hx
      simp only [List.mem_cons, List.mem_singleton, List.not_mem_nil, or_false] at hx
      rcases hx with rfl | rfl
      · exact ⟨goStr "A", { exTask with id := goStr "A" }, by decide, by decide, by decide⟩
      · exact ⟨goStr "B", { exTask with id := goStr "B" }, by decide, by decide, by decide⟩)
    ⟨goStr "T", { exTask with id := goStr "T" }, by decide, by decide, by decide⟩
    (by
      intro x hx
      simp only [List.mem_singleton] at hx
      subst hx
      exact ⟨goStr "C", { exTask with id := goStr "C" }, by decide, by decide, by decide⟩)

/-! ## The worker-down retry test -/

/-- A key found by `List.lookup` is the key of an entry of the table. -/
theorem lookup_some_mem (l : List (Int × Bytes)) (code : Int) (m : Bytes)
    (h : l.lookup code = some m) : (code, m) ∈ l := by
  induction l with
  | nil => simp [List.lookup] at h
  | cons p ps ih =>
    obtain ⟨k, v⟩ := p
    by_cases hk : code = k
    · subst hk
      simp [List.lookup] at h
      simp [h]
    · have hb : (code == k) = false := by simpa using hk
      simp only [List.lookup, hb] at h
      exact List.mem_cons_of_mem _ (ih h)

/-- A key that `List.lookup` does not find is the key of no entry of the table. -/
theorem lookup_none_iff (l : List (Int × Bytes)) (code : Int) :
    l.lookup code = none ↔ code ∉ l.map Prod.fst := by
  induction l with
  | nil => simp [List.lookup]
  | cons p ps ih =>
    obtain ⟨k, v⟩ := p
    by_cases hk : code = k
    · subst hk
      simp [List.lookup]
    · have hb : (code == k) = false := by simpa using hk
      simp only [List.lookup, hb, ih, List.map_cons, List.mem_cons, hk, false_or]

/-- The keys of `msgcode` are pairwise different, as the keys of a Go map literal
must be: `List.lookup` reads the table as the map does. -/
theorem msgcode_keys_nodup : (msgcode.map Prod.fst).Nodup := by decide

/-- The message of `ErrRPCUnavailable` is the message of no other code, defined
or not. -/
theorem GetMsg_unavailable_iff (code : Int) :
    GetMsg code = GetMsg ErrRPCUnavailable ↔ code = ErrRPCUnavailable := by
  constructor
  · intro h
    have hall : ∀ p ∈ msgcode, p.2 = GetMsg ErrRPCUnavailable → p.1 = ErrRPCUnavailable := by
      decide
    cases hl : msgcode.lookup code with
    | none =>
      have hu : GetMsg code = goStr "unknown" := by simp [GetMsg, hl]
      rw [hu] at h
      exact absurd h (by decide)
    | some m =>
      have hm : GetMsg code = m := by simp [GetMsg, hl]
      exact hall (code, m) (lookup_some_mem _ _ _ hl) (by rw [← hm]; exact h)
  · intro h
    rw [h]

/-- C21: at the error branch of `Recv`, `runTask` runs the task again exactly when
the message of the mapped error is the message of `ErrRPCUnavailable`, and
otherwise goes to `Check` with the mapped error without looking at a further
attempt; for every code the message of `GetMsgErr` is `GetMsg`, `GetMsg` is
`"unknown"` for a code that is no key of `msgcode`, and the message of a code is
that of `ErrRPCUnavailable` only for `ErrRPCUnavailable` (10603) itself, so a
mapped error `GetMsgErr code` with another code, defined or not, is never
retried. -/
theorem retry_only_on_unavailable (nm : Names) (taskruntype : TaskRespType) (id : Bytes)
    (a : Attempt) (rest : List Attempt) (t : Task2) (r : Redis) (e : GoError)
    (td : GetTask) (rt : Task2) (target tdata : Bytes)
    (htd : a.taskdata = .ok td) (hrt : a.realtask = some rt) (hconn : a.conn = .ok target)
    (htdata : a.tdata = .ok tdata) (hstream : a.stream = none)
    (hend : a.ending = RecvEnd.failed e) :
    let r1 := setdataQuiet t r taskruntype id (Data.status TsRun) taskstatus
    let r3 := writelogt t (writelogt t r1 taskruntype id (a.line LogSite.start)) taskruntype id
      (a.line LogSite.output)
    let got := recvFrames t taskruntype id a.frames r3 []
    let retried := runTask nm taskruntype id rest t
      (writelogt t got.1 taskruntype id (a.line LogSite.workerDown))
    let failed := checkBlock nm t (writelogt t got.1 taskruntype id (a.line LogSite.runFail))
      taskruntype id
      { err := some e, taskdata := some td, realtask := some rt, conn := some target,
        output := got.2, taskrespcode := DefaultExitCode,
        cancelLine := a.line LogSite.canceled, ctxDone := a.ctxDone }
    (runTask nm taskruntype id (a :: rest) t r =
      if e.Error = (GetMsgErr ErrRPCUnavailable).Error then retried else failed) ∧
    (∀ code : Int,
      (GetMsgErr code).Error = GetMsg code ∧
      (code ∉ msgcode.map Prod.fst → GetMsg code = goStr "unknown") ∧
      ((GetMsgErr code).Error = (GetMsgErr ErrRPCUnavailable).Error ↔
        code = ErrRPCUnavailable)) ∧
    (∀ code : Int, e = GetMsgErr code → code ≠ ErrRPCUnavailable →
      runTask nm taskruntype id (a :: rest) t r = failed) := by
  intro r1 r3 got retried failed
  have hrun : runTask nm taskruntype id (a :: rest) t r =
      if e.Error = (GetMsgErr ErrRPCUnavailable).Error then retried else failed := by
    rw [runTask]
    simp only [htd, hrt, hconn, htdata, hstream, hend]
  refine ⟨hrun, ?_, ?_⟩
  · intro code
    refine ⟨rfl, ?_, ?_⟩
    · intro hk
      have hl := (lookup_none_iff msgcode code).mpr hk
      simp [GetMsg, hl]
    · exact GetMsg_unavailable_iff code
  · intro code he hne
    rw [hrun, he, if_neg]
    exact fun h => hne ((GetMsg_unavailable_iff code).mp h)

/-- C21 at a stream that ends with the mapped timeout error `GetMsgErr 10600`
while a second attempt is on record: the task goes to `Check`, is recorded as
the first failure and the second attempt is not run; with the mapped error
`GetMsgErr 10603` the second attempt is run. -/
theorem retry_only_on_unavailable_witness :
    (exAttempt [goStr "partial"] (RecvEnd.failed (GetMsgErr 10600)) false).ending =
      RecvEnd.failed (GetMsgErr 10600) ∧
    (10600 : Int) ≠ ErrRPCUnavailable ∧
    (runTask exNames ParentTask (goStr "A")
      [exAttempt [goStr "partial"] (RecvEnd.failed (GetMsgErr 10600)) false,
        exAttempt [goStr "ok\n    0"] RecvEnd.eof false] exTask exEmpty).2.2 =
      Outcome.returned (some (GetMsgErr 10600)) ∧
    (runTask exNames ParentTask (goStr "A")
      [exAttempt [goStr "partial"] (RecvEnd.failed (GetMsgErr 10603)) false,
        exAttempt [goStr "ok\n    0"] RecvEnd.eof false] exTask exEmpty).2.2 =
      Outcome.returned none := by
  refine ⟨rfl, by decide, ?_, by decide⟩
  rw [(retry_only_on_unavailable exNames ParentTask (goStr "A")
    (exAttempt [goStr "partial"] (RecvEnd.failed (GetMsgErr 10600)) false)
    [exAttempt [goStr "ok\n    0"] RecvEnd.eof false] exTask exEmpty (GetMsgErr 10600)
    exDesc exTask (goStr "w1:8080") (goStr "\x7b\x7d") rfl rfl rfl rfl rfl rfl).2.2
    10600 rfl (by decide)]
  decide

end Crocodile
